import Mathlib

/-!
Visualizer: OFF loading, vertex normals and mesh normalisation.

A shallow embedding of `src/main.cpp`: `ComputeMeshNormals`, `NormalizeMesh`,
`LoadMeshFromOFF` and the drop handling of `main`, followed by the theorems about
them.

The source calls three libraries whose code is not in the repository.  They are
embedded from their published definitions:

* raymath.h (`Vector3Add` to `Vector3Normalize`): the bodies of the header;
* raylib (`Mesh`, `Model`, `TraceLog`, `LoadModelFromMesh`, `UnloadModel`): the fields
  and calls that `main.cpp` uses; `IsFileExtension` is a parameter;
* the C++ stream library (`std::getline`, `operator>>`, `ignore`): the input functions
  of the C++11 standard on a stream with the default flags, in the "C" locale.

Conventions of the embedding.

* The functions that compute with `float` values are written over any type `α` with
  the operations they use, and `sqrtf` (libm) is a parameter of every function that
  reaches it.  `Binary32` with `Binary32.sqrt` is the arithmetic of the program: IEEE
  754 binary32, rounding to nearest.  The theorems are stated over a linearly ordered
  field, whose arithmetic is exact.  Those that assume `ExactSqrt sqrtf` hold in exact
  arithmetic only, as their statements say; the examples in `Binary32` show where
  `float` arithmetic departs from them.  The text of a file is read in exact
  arithmetic: a decimal field denotes its exact value.
* `float*` and `unsigned short*` buffers are lists.  The source indexes them without a
  bounds check and its behaviour outside a buffer is undefined; the embedding reads
  `0` outside a buffer and drops a write outside it, and the theorems state the
  in-range hypotheses under which the source stays inside its buffers.
* `1.0f / x` with `x = 0` is `+inf` in the source; `fdiv1` returns `none` there.
* `int` counts held by a `Mesh` are natural numbers: every mesh built by this program
  gets its counts from container sizes.  The products `vCount * 3` and `i * 3 + j` are
  taken not to overflow `int`, and memory not to run out.
-/

namespace Visualizer

/-! ## raymath -/

/-- The raylib `Vector3`: three `float` components. -/
@[ext]
structure Vector3 (α : Type) where
  x : α
  y : α
  z : α
deriving DecidableEq, Repr

section Arithmetic

variable {α : Type} [Zero α] [One α] [NatCast α] [Add α] [Sub α] [Mul α] [Div α] [Neg α]
  [Min α] [Max α] [DecidableEq α]

/-- The raymath `Vector3Add`. -/
def Vector3Add (v1 v2 : Vector3 α) : Vector3 α :=
  ⟨v1.x + v2.x, v1.y + v2.y, v1.z + v2.z⟩

/-- The raymath `Vector3Subtract`. -/
def Vector3Subtract (v1 v2 : Vector3 α) : Vector3 α :=
  ⟨v1.x - v2.x, v1.y - v2.y, v1.z - v2.z⟩

/-- The raymath `Vector3Scale`. -/
def Vector3Scale (v : Vector3 α) (scalar : α) : Vector3 α :=
  ⟨v.x * scalar, v.y * scalar, v.z * scalar⟩

/-- The raymath `Vector3CrossProduct`. -/
def Vector3CrossProduct (v1 v2 : Vector3 α) : Vector3 α :=
  ⟨v1.y * v2.z - v1.z * v2.y, v1.z * v2.x - v1.x * v2.z, v1.x * v2.y - v1.y * v2.x⟩

/-- The raymath `Vector3Length`: `sqrtf(x*x + y*y + z*z)`. -/
def Vector3Length (sqrtf : α → α) (v : Vector3 α) : α :=
  sqrtf (v.x * v.x + v.y * v.y + v.z * v.z)

/-- The raymath `Vector3Normalize`: the vector is scaled by `1.0f/length` when the
length is not `0.0f`, and returned as it is otherwise. -/
def Vector3Normalize (sqrtf : α → α) (v : Vector3 α) : Vector3 α :=
  let length := sqrtf (v.x * v.x + v.y * v.y + v.z * v.z)
  if length ≠ 0 then
    let ilength := 1 / length
    ⟨v.x * ilength, v.y * ilength, v.z * ilength⟩
  else v

/-- The raymath `Vector3Min`: component-wise `fminf`. -/
def Vector3Min (v1 v2 : Vector3 α) : Vector3 α :=
  ⟨min v1.x v2.x, min v1.y v2.y, min v1.z v2.z⟩

/-- The raymath `Vector3Max`: component-wise `fmaxf`. -/
def Vector3Max (v1 v2 : Vector3 α) : Vector3 α :=
  ⟨max v1.x v2.x, max v1.y v2.y, max v1.z v2.z⟩

/-- The raymath `Vector3Negate`. -/
def Vector3Negate (v : Vector3 α) : Vector3 α :=
  ⟨-v.x, -v.y, -v.z⟩

/-- The zero vector `{ 0, 0, 0 }`. -/
def Vector3Zero : Vector3 α := ⟨0, 0, 0⟩

instance : Zero (Vector3 α) := ⟨Vector3Zero⟩

instance : Add (Vector3 α) := ⟨Vector3Add⟩

instance : Neg (Vector3 α) := ⟨Vector3Negate⟩

instance : Sub (Vector3 α) := ⟨Vector3Subtract⟩

/-! ## The mesh -/

/-- The fields of the raylib `Mesh` that `main.cpp` reads or writes. -/
structure Mesh (α : Type) where
  vertexCount : Nat
  triangleCount : Nat
  /-- The `float *vertices` buffer: 3 components per vertex. -/
  vertices : List α
  /-- The `float *normals` buffer: 3 components per vertex; empty for `NULL`. -/
  normals : List α
  /-- The `unsigned short *indices` buffer. -/
  indices : List Nat
deriving DecidableEq, Repr

/-- The value-initialised mesh `Mesh{}`. -/
def Mesh.empty : Mesh α := ⟨0, 0, [], [], []⟩

/-- The vector `{ buf[i*3 + 0], buf[i*3 + 1], buf[i*3 + 2] }`.  The source reads the
three elements without a bounds check: outside the buffer its behaviour is undefined,
and the embedding reads `0` there. -/
def vec3At (buf : List α) (i : Nat) : Vector3 α :=
  ⟨buf.getD (i * 3 + 0) 0, buf.getD (i * 3 + 1) 0, buf.getD (i * 3 + 2) 0⟩

/-- The three stores `buf[i*3 + 0] = v.x; buf[i*3 + 1] = v.y; buf[i*3 + 2] = v.z`. -/
def setVec3 (buf : List α) (i : Nat) (v : Vector3 α) : List α :=
  ((buf.set (i * 3 + 0) v.x).set (i * 3 + 1) v.y).set (i * 3 + 2) v.z

/-- The three updates `buf[i*3 + 0] += v.x; buf[i*3 + 1] += v.y; buf[i*3 + 2] += v.z`.
The source writes without a bounds check: outside the buffer its behaviour is
undefined, and the embedding drops the write. -/
def addVec3 (buf : List α) (i : Nat) (v : Vector3 α) : List α :=
  let b0 := buf.set (i * 3 + 0) (buf.getD (i * 3 + 0) 0 + v.x)
  let b1 := b0.set (i * 3 + 1) (b0.getD (i * 3 + 1) 0 + v.y)
  b1.set (i * 3 + 2) (b1.getD (i * 3 + 2) 0 + v.z)

/-! ## ComputeMeshNormals -/

/-- The unit face normal of triangle `i`, as the body of the first loop of
`ComputeMeshNormals` computes it. -/
def faceNormal (sqrtf : α → α) (verts : List α) (indices : List Nat) (i : Nat) : Vector3 α :=
  let idx0 := indices.getD (i * 3 + 0) 0
  let idx1 := indices.getD (i * 3 + 1) 0
  let idx2 := indices.getD (i * 3 + 2) 0
  let v0 := vec3At verts idx0
  let v1 := vec3At verts idx1
  let v2 := vec3At verts idx2
  let edge1 := Vector3Subtract v1 v0
  let edge2 := Vector3Subtract v2 v0
  Vector3Normalize sqrtf (Vector3CrossProduct edge1 edge2)

/-- One iteration of the loop `for (int i = 0; i < tCount; i++)` of
`ComputeMeshNormals`: the face normal is added to the three corners. -/
def accumulateStep (sqrtf : α → α) (verts : List α) (indices : List Nat)
    (normals : List α) (i : Nat) : List α :=
  let fn := faceNormal sqrtf verts indices i
  [0, 1, 2].foldl (fun ns j => addVec3 ns (indices.getD (i * 3 + j) 0) fn) normals

/-- The normals buffer after the accumulation loop of `ComputeMeshNormals`, before
the final normalisation loop. -/
def accumulateNormals (sqrtf : α → α) (mesh : Mesh α) : List α :=
  (List.range mesh.triangleCount).foldl
    (accumulateStep sqrtf mesh.vertices mesh.indices)
    (List.replicate (mesh.vertexCount * 3) 0)

/-- One iteration of the loop `for (int i = 0; i < vCount; i++)` that normalises the
vertex normals. -/
def normalizeStep (sqrtf : α → α) (normals : List α) (i : Nat) : List α :=
  setVec3 normals i (Vector3Normalize sqrtf (vec3At normals i))

/-- The function `ComputeMeshNormals`.  `UploadMesh` copies the buffers to the GPU
and changes none of the fields modelled here. -/
def ComputeMeshNormals (sqrtf : α → α) (mesh : Mesh α) : Mesh α :=
  let normals := accumulateNormals sqrtf mesh
  let normals := (List.range mesh.vertexCount).foldl (normalizeStep sqrtf) normals
  { mesh with normals := normals }

/-- The structural invariant of a mesh: buffer sizes agree with the counts and every
index refers to a vertex. -/
def Mesh.WellFormed (mesh : Mesh α) : Prop :=
  mesh.vertices.length = mesh.vertexCount * 3 ∧
  mesh.indices.length = mesh.triangleCount * 3 ∧
  ∀ i ∈ mesh.indices, i < mesh.vertexCount

instance (mesh : Mesh α) : Decidable mesh.WellFormed := by
  unfold Mesh.WellFormed
  infer_instance

/-! ## NormalizeMesh -/

/-- The reciprocal `1.0f / x`; `none` stands for the infinite result of a division
by zero. -/
def fdiv1 (x : α) : Option α :=
  if x = 0 then none else some (1 / x)

/-- The bounding-box loop of `NormalizeMesh`, started from `min = max = { 0, 0, 0 }`. -/
def boundsLoop (verts : List α) (vCount : Nat) : Vector3 α × Vector3 α :=
  (List.range vCount).foldl
    (fun (b : Vector3 α × Vector3 α) i =>
      let v := vec3At verts i
      (Vector3Min b.1 v, Vector3Max b.2 v))
    (Vector3Zero, Vector3Zero)

/-- The second loop of `NormalizeMesh` for a finite `scale`. -/
def rescaleLoop (verts : List α) (vCount : Nat) (center : Vector3 α) (scale : α) : List α :=
  (List.range vCount).foldl
    (fun vs i => setVec3 vs i (Vector3Scale (Vector3Subtract (vec3At vs i) center) scale))
    verts

/-- The `center` of `NormalizeMesh`: `Vector3Scale(Vector3Add(min, max), 0.5f)`. -/
def normalizeCenter (mesh : Mesh α) : Vector3 α :=
  let b := boundsLoop mesh.vertices mesh.vertexCount
  Vector3Scale (Vector3Add b.1 b.2) (1 / 2)

/-- The `scale` of `NormalizeMesh`: `1.0f / Vector3Length(Vector3Subtract(max, min))`. -/
def normalizeScale (sqrtf : α → α) (mesh : Mesh α) : Option α :=
  let b := boundsLoop mesh.vertices mesh.vertexCount
  fdiv1 (Vector3Length sqrtf (Vector3Subtract b.2 b.1))

/-- The function `NormalizeMesh`.  The result is `none` when the scale is infinite
and a position is multiplied by it: the positions stored by the source are then
not finite numbers. -/
def NormalizeMesh (sqrtf : α → α) (mesh : Mesh α) : Option (Mesh α) :=
  match normalizeScale sqrtf mesh with
  | some scale =>
    some { mesh with
      vertices := rescaleLoop mesh.vertices mesh.vertexCount (normalizeCenter mesh) scale }
  | none => if mesh.vertexCount = 0 then some mesh else none

/-- The `float` buffer holding the components of a list of vectors. -/
def flatten3 : List (Vector3 α) → List α
  | [] => []
  | v :: vs => v.x :: v.y :: v.z :: flatten3 vs

/-- The mesh with every vertex position `p` replaced by `g p`. -/
def mapVertices (g : Vector3 α → Vector3 α) (mesh : Mesh α) : Mesh α :=
  { mesh with
    vertices :=
      flatten3 ((List.range mesh.vertexCount).map (fun i => g (vec3At mesh.vertices i))) }

/-- The point `k * p + t`. -/
def affinePoint (k : α) (t p : Vector3 α) : Vector3 α :=
  Vector3Add (Vector3Scale p k) t

end Arithmetic

/-! ## binary32

The arithmetic of `float`: IEEE 754 binary32 with rounding to nearest, ties to even.
A finite value is held as the rational number it denotes.  The two zeros are one
value: they compare equal, and the program divides only by lengths, which are never a
negative zero. -/

/-- The values of a `float`. -/
inductive Binary32
  | fin (q : ℚ)
  | inf (neg : Bool)
  | nan
deriving DecidableEq, Repr

namespace Binary32

/-- The power `2 ^ e` for an integer `e`. -/
def pow2 (e : Int) : ℚ :=
  if 0 ≤ e then ((2 ^ e.toNat : Nat) : ℚ) else 1 / ((2 ^ (-e).toNat : Nat) : ℚ)

/-- Halving `n` down to 1, at most `fuel` times: the number of halvings. -/
def log2Fuel : Nat → Nat → Nat
  | 0, _ => 0
  | fuel + 1, n => if 2 ≤ n then log2Fuel fuel (n / 2) + 1 else 0

/-- The exponent of a positive natural number: the `e` with `2 ^ e ≤ n < 2 ^ (e + 1)`. -/
def natLog2 (n : Nat) : Nat := log2Fuel n n

/-- The exponent of a positive rational: the `e` with `2 ^ e ≤ q < 2 ^ (e + 1)`. -/
def ilog2 (q : ℚ) : Int :=
  let k : Int := (natLog2 q.num.toNat : Int) - (natLog2 q.den : Int)
  if pow2 k ≤ q then k else k - 1

/-- The integer nearest to a non-negative rational, the even one of two at the same
distance. -/
def roundNat (q : ℚ) : Nat :=
  let n := q.num.toNat / q.den
  let r : ℚ := q - (n : ℚ)
  if r < 1 / 2 then n
  else if 1 / 2 < r then n + 1
  else if n % 2 = 0 then n else n + 1

/-- The `float` nearest to a rational: 24 significant bits, exponents from `-126`
(below, the spacing stays `2 ^ -149`), and infinity from `2 ^ 128` on. -/
def round (q : ℚ) : Binary32 :=
  if q = 0 then fin 0
  else
    let a : ℚ := if q < 0 then -q else q
    let e : Int := max (ilog2 a) (-126)
    let ulp : ℚ := pow2 (e - 23)
    let r : ℚ := (roundNat (a / ulp) : ℚ) * ulp
    if pow2 128 ≤ r then inf (decide (q < 0))
    else fin (if q < 0 then -r else r)

/-- Newton steps towards the integer square root, from a guess that is not below
it. -/
def sqrtIter : Nat → Nat → Nat → Nat
  | 0, _, g => g
  | fuel + 1, n, g =>
    let g2 := (g + n / g) / 2
    if g2 < g then sqrtIter fuel n g2 else g

/-- The integer square root: the largest `r` with `r * r ≤ n`. -/
def natSqrt (n : Nat) : Nat :=
  if n = 0 then 0 else sqrtIter n n (2 ^ (natLog2 n / 2 + 1))

/-- Addition. -/
def add : Binary32 → Binary32 → Binary32
  | fin a, fin b => round (a + b)
  | fin _, inf s => inf s
  | inf s, fin _ => inf s
  | inf s, inf t => if s = t then inf s else nan
  | nan, _ => nan
  | _, nan => nan

/-- Negation. -/
def neg : Binary32 → Binary32
  | fin a => fin (-a)
  | inf s => inf (!s)
  | nan => nan

/-- Multiplication. -/
def mul : Binary32 → Binary32 → Binary32
  | fin a, fin b => round (a * b)
  | fin a, inf s => if a = 0 then nan else inf (xor (decide (a < 0)) s)
  | inf s, fin b => if b = 0 then nan else inf (xor s (decide (b < 0)))
  | inf s, inf t => inf (xor s t)
  | nan, _ => nan
  | _, nan => nan

/-- Division. -/
def div : Binary32 → Binary32 → Binary32
  | fin a, fin b =>
    if b = 0 then (if a = 0 then nan else inf (decide (a < 0))) else round (a / b)
  | fin _, inf _ => fin 0
  | inf s, fin b => inf (xor s (decide (b < 0)))
  | inf _, inf _ => nan
  | nan, _ => nan
  | _, nan => nan

/-- The `sqrtf` of libm: the `float` nearest to the square root. -/
def sqrt : Binary32 → Binary32
  | fin a =>
    if a < 0 then nan
    else if a = 0 then fin 0
    else
      let e : Int := ilog2 a / 2
      let ulp : ℚ := pow2 (e - 23)
      let s : ℚ := a / (ulp * ulp)
      let n : Nat := natSqrt (s.num.toNat / s.den)
      let h : ℚ := ((n : ℚ) + 1 / 2) * ((n : ℚ) + 1 / 2)
      let m : Nat := if s < h then n else if h < s then n + 1 else if n % 2 = 0 then n else n + 1
      fin ((m : ℚ) * ulp)
  | inf false => inf false
  | inf true => nan
  | nan => nan

/-- The order `<` of two `float` values; false when one is a NaN. -/
def lt : Binary32 → Binary32 → Bool
  | fin a, fin b => decide (a < b)
  | fin _, inf s => !s
  | inf s, fin _ => s
  | inf s, inf t => s && !t
  | nan, _ => false
  | _, nan => false

/-- The `fminf` of libm: the smaller value, and the other one when one is a NaN. -/
def fminf : Binary32 → Binary32 → Binary32
  | nan, y => y
  | x, nan => x
  | x, y => if lt y x then y else x

/-- The `fmaxf` of libm: the larger value, and the other one when one is a NaN. -/
def fmaxf : Binary32 → Binary32 → Binary32
  | nan, y => y
  | x, nan => x
  | x, y => if lt x y then y else x

instance : Zero Binary32 := ⟨fin 0⟩

instance : One Binary32 := ⟨fin 1⟩

instance : NatCast Binary32 := ⟨fun n => round n⟩

instance : Add Binary32 := ⟨add⟩

instance : Neg Binary32 := ⟨neg⟩

instance : Sub Binary32 := ⟨fun a b => add a (neg b)⟩

instance : Mul Binary32 := ⟨mul⟩

instance : Div Binary32 := ⟨div⟩

instance : Min Binary32 := ⟨fminf⟩

instance : Max Binary32 := ⟨fmaxf⟩

/-- The rational number a finite value denotes; `0` for the others. -/
def toRat : Binary32 → ℚ
  | fin q => q
  | _ => 0

/-- The exact square `x*x + y*y + z*z` of the length of a vector of finite values. -/
def normSq (v : Vector3 Binary32) : ℚ :=
  toRat v.x * toRat v.x + toRat v.y * toRat v.y + toRat v.z * toRat v.z

end Binary32

/-! ## Exact arithmetic

The theorems stated for exact arithmetic take the `float` values in a linearly ordered
field. -/

variable {α : Type} [LinearOrderedField α]

/-- Vectors form a commutative group under `Vector3Add`; sums of vectors are taken
in it. -/
instance : AddCommGroup (Vector3 α) where
  add_assoc a b c := by
    ext <;> exact add_assoc _ _ _
  zero_add a := by
    ext <;> exact zero_add _
  add_zero a := by
    ext <;> exact add_zero _
  nsmul := nsmulRec
  zsmul := zsmulRec
  neg_add_cancel a := by
    ext <;> exact neg_add_cancel _
  add_comm a b := by
    ext <;> exact add_comm _ _
  sub_eq_add_neg a b := by
    ext <;> exact sub_eq_add_neg _ _

/-- A square root that is exact: the non-negative root of every non-negative
number. -/
def ExactSqrt (sqrtf : α → α) : Prop :=
  ∀ x, 0 ≤ x → 0 ≤ sqrtf x ∧ sqrtf x * sqrtf x = x

/-- The sum, over all triangle corners `(t, j)` holding the index `v`, of the unit
face normal of triangle `t`. -/
def cornerSum (sqrtf : α → α) (mesh : Mesh α) (v : Nat) : Vector3 α :=
  ∑ t ∈ Finset.range mesh.triangleCount, ∑ j ∈ Finset.range 3,
    if mesh.indices.getD (t * 3 + j) 0 = v then faceNormal sqrtf mesh.vertices mesh.indices t
    else 0

/-- The corners `lo`, `hi` of the axis-aligned bounding box of the first `n`
positions of `verts`: every position lies between them, and each of their
components is the component of some position. -/
def IsBoundingBox (verts : List α) (n : Nat) (lo hi : Vector3 α) : Prop :=
  (∀ i, i < n →
    lo.x ≤ (vec3At verts i).x ∧ (vec3At verts i).x ≤ hi.x ∧
    lo.y ≤ (vec3At verts i).y ∧ (vec3At verts i).y ≤ hi.y ∧
    lo.z ≤ (vec3At verts i).z ∧ (vec3At verts i).z ≤ hi.z) ∧
  (∃ i, i < n ∧ (vec3At verts i).x = lo.x) ∧ (∃ i, i < n ∧ (vec3At verts i).x = hi.x) ∧
  (∃ i, i < n ∧ (vec3At verts i).y = lo.y) ∧ (∃ i, i < n ∧ (vec3At verts i).y = hi.y) ∧
  (∃ i, i < n ∧ (vec3At verts i).z = lo.z) ∧ (∃ i, i < n ∧ (vec3At verts i).z = hi.z)

/-! ## The input stream

The `std::ifstream` is a list of unread characters and the `failbit`.  `eofbit` is
not kept: it is set exactly when the unread list is empty, and the next operation
then fails as it does on an empty list. Nothing in `LoadMeshFromOFF` reads or clears
the stream state. -/

/-- The stream state. -/
structure IStream where
  buf : List Char
  failed : Bool
deriving DecidableEq, Repr

/-- The line feed character. -/
def newline : Char := Char.ofNat 10

/-- The `isspace` of the "C" locale: space, `\t`, `\n`, `\v`, `\f`, `\r`. -/
def isSpace (c : Char) : Bool :=
  c.toNat = 32 || (9 ≤ c.toNat && c.toNat ≤ 13)

/-- Decimal digits. -/
def isDigit (c : Char) : Bool :=
  48 ≤ c.toNat && c.toNat ≤ 57

/-- The whitespace skipping of the `sentry` of a formatted input function. -/
def skipWs : List Char → List Char
  | [] => []
  | c :: cs => if isSpace c then skipWs cs else c :: cs

/-- The longest prefix of decimal digits, and what follows it. -/
def spanDigits : List Char → List Char × List Char
  | [] => ([], [])
  | c :: cs => if isDigit c then (c :: (spanDigits cs).1, (spanDigits cs).2) else ([], c :: cs)

/-- The characters before the first line feed. -/
def lineOf : List Char → List Char
  | [] => []
  | c :: cs => if c = newline then [] else c :: lineOf cs

/-- The characters after the first line feed; `none` when there is no line feed. -/
def afterLine : List Char → Option (List Char)
  | [] => none
  | c :: cs => if c = newline then some cs else afterLine cs

/-- The value of a string of decimal digits. -/
def decimalValue (ds : List Char) : Nat :=
  ds.foldl (fun n c => 10 * n + (c.toNat - 48)) 0

/-- An optional sign; `true` for `-`. -/
def takeSign : List Char → Bool × List Char
  | [] => (false, [])
  | c :: cs => if c = '-' then (true, cs) else if c = '+' then (false, cs) else (false, c :: cs)

/-- The call `std::getline(file, line)`: the characters up to the next line feed,
which is extracted and dropped.  `failbit` is set when no character is extracted. -/
def getline (s : IStream) : List Char × IStream :=
  if s.failed then ([], s)
  else
    match afterLine s.buf with
    | none => (lineOf s.buf, ⟨[], (lineOf s.buf).isEmpty⟩)
    | some rest => (lineOf s.buf, ⟨rest, false⟩)

/-- The call `file.ignore(numeric_limits<streamsize>::max(), '\n')`: nothing on a
failed stream, else the characters up to and including the next line feed are
discarded. -/
def ignoreLine (s : IStream) : IStream :=
  if s.failed then s
  else
    match afterLine s.buf with
    | none => ⟨[], false⟩
    | some rest => ⟨rest, false⟩

/-- The largest `int`. -/
def INT_MAX : Int := 2147483647

/-- The smallest `int`. -/
def INT_MIN : Int := -2147483648

/-- The largest `unsigned int`. -/
def UINT_MAX : Nat := 4294967295

/-- The extraction `file >> n` for `int n`.  The first component is the value stored
in `n`, or `none` when `n` is not written (the `sentry` fails: the stream has
failed or holds only whitespace).  A field without a digit stores `0`, a value out
of range stores the nearest bound; both set `failbit`. -/
def extractInt (s : IStream) : Option Int × IStream :=
  if s.failed then (none, s)
  else
    match skipWs s.buf with
    | [] => (none, ⟨[], true⟩)
    | c :: cs =>
      let sg := takeSign (c :: cs)
      let sp := spanDigits sg.2
      if sp.1.isEmpty then (some 0, ⟨sp.2, true⟩)
      else
        let v : Int := if sg.1 then -(decimalValue sp.1 : Int) else (decimalValue sp.1 : Int)
        if v < INT_MIN then (some INT_MIN, ⟨sp.2, true⟩)
        else if INT_MAX < v then (some INT_MAX, ⟨sp.2, true⟩)
        else (some v, ⟨sp.2, false⟩)

/-- The extraction `file >> a` for `unsigned int a`: as `extractInt`, with a negated
field reduced modulo `2^32` and a magnitude above `UINT_MAX` stored as `UINT_MAX`
with `failbit`. -/
def extractUInt (s : IStream) : Option Nat × IStream :=
  if s.failed then (none, s)
  else
    match skipWs s.buf with
    | [] => (none, ⟨[], true⟩)
    | c :: cs =>
      let sg := takeSign (c :: cs)
      let sp := spanDigits sg.2
      if sp.1.isEmpty then (some 0, ⟨sp.2, true⟩)
      else
        let m := decimalValue sp.1
        if UINT_MAX < m then (some UINT_MAX, ⟨sp.2, true⟩)
        else (some (if sg.1 then (4294967296 - m) % 4294967296 else m), ⟨sp.2, false⟩)

/-- The fraction part of a floating-point field: `.` and digits, when present. -/
def takeFraction : List Char → Option (List Char) × List Char
  | [] => (none, [])
  | c :: cs => if c = '.' then (some (spanDigits cs).1, (spanDigits cs).2) else (none, c :: cs)

/-- The exponent part of a floating-point field: `e` or `E`, an optional sign and
digits, when present. -/
def takeExponent : List Char → Option (Bool × List Char) × List Char
  | [] => (none, [])
  | c :: cs =>
    if c = 'e' || c = 'E' then
      let sg := takeSign cs
      (some (sg.1, (spanDigits sg.2).1), (spanDigits sg.2).2)
    else (none, c :: cs)

/-- The exact value of a decimal floating-point field. -/
def decimalFloat (neg : Bool) (ip : List Char) (fp : Option (List Char))
    (ex : Option (Bool × List Char)) : α :=
  let frac : α := match fp with
    | some f => (decimalValue f : α) / 10 ^ f.length
    | none => 0
  let m : α := (decimalValue ip : α) + frac
  let m : α := match ex with
    | some (true, e) => m / 10 ^ decimalValue e
    | some (false, e) => m * 10 ^ decimalValue e
    | none => m
  if neg then -m else m

/-- The largest finite `float`, `(2 - 2^-23) * 2^127`. -/
def FLT_MAX : α := 340282346638528859811704183484516925440

/-- The least magnitude that has no finite `float` next to it, `2^128 - 2^103`: from
here on the nearest `float` is infinity. -/
def FLT_OVERFLOW : ℚ := 340282356779733661637539395458142568448

/-- Whether the magnitude of a decimal floating-point field is out of the range of
`float`. -/
def floatOverflows (ip : List Char) (fp : Option (List Char))
    (ex : Option (Bool × List Char)) : Bool :=
  decide (FLT_OVERFLOW ≤ (decimalFloat false ip fp ex : ℚ))

/-- The extraction `file >> x` for `float x`: sign, digits, fraction, exponent.  The
field needs a digit in its mantissa and, after `e`, a digit in its exponent;
otherwise `0` is stored and `failbit` is set.  A field out of the range of `float`
stores `FLT_MAX` with the sign of the field and sets `failbit`. -/
def extractFloat (s : IStream) : Option α × IStream :=
  if s.failed then (none, s)
  else
    match skipWs s.buf with
    | [] => (none, ⟨[], true⟩)
    | c :: cs =>
      let sg := takeSign (c :: cs)
      let sp := spanDigits sg.2
      let fr := takeFraction sp.2
      let ex := takeExponent fr.2
      let noMantissa := sp.1.isEmpty && (fr.1.getD []).isEmpty
      let noExponent := match ex.1 with
        | some (_, e) => e.isEmpty
        | none => false
      if noMantissa || noExponent then (some 0, ⟨ex.2, true⟩)
      else if floatOverflows sp.1 fr.1 ex.1 then
        (some (if sg.1 then -FLT_MAX else FLT_MAX), ⟨ex.2, true⟩)
      else (some (decimalFloat sg.1 sp.1 fr.1 ex.1), ⟨ex.2, false⟩)

/-! ## LoadMeshFromOFF -/

/-- The raylib log levels used by `main.cpp`. -/
inductive TraceLogLevel
  | LOG_INFO
  | LOG_WARNING
  | LOG_ERROR
deriving DecidableEq, Repr

/-- One call of `TraceLog`. -/
structure LogEntry where
  level : TraceLogLevel
  text : String
deriving DecidableEq, Repr

/-- The log entry written for a skipped face. -/
def skipWarning : LogEntry := ⟨.LOG_WARNING, "Non-triangle face detected. Skipping."⟩

/-- The values that the uninitialised locals of `LoadMeshFromOFF` hold when an
extraction leaves them unwritten.  The locals of the face loop are fresh in each
iteration, so theirs depend on the iteration. -/
structure Indet where
  numVertices : Int
  numFaces : Int
  numEdges : Int
  vertsPerFace : Nat → Int
  a : Nat → Nat
  b : Nat → Nat
  c : Nat → Nat

/-- The loop `for (int i = 0; i < numVertices; i++) file >> x >> y >> z` over the
zero-initialised `std::vector<Vector3>`. -/
def readVertices : Nat → IStream → List (Vector3 α) × IStream
  | 0, s => ([], s)
  | n + 1, s =>
    let x : Option α × IStream := extractFloat s
    let y : Option α × IStream := extractFloat x.2
    let z : Option α × IStream := extractFloat y.2
    let r := readVertices n z.2
    (⟨x.1.getD 0, y.1.getD 0, z.1.getD 0⟩ :: r.1, r.2)

/-- The face loop, for `n` remaining iterations starting at iteration `i`: the
indices pushed, the warnings logged, and the stream left. -/
def readFaces (u : Indet) : Nat → Nat → IStream → List Nat × List LogEntry × IStream
  | 0, _, s => ([], [], s)
  | n + 1, i, s =>
    let k := extractInt s
    let vertsPerFace := k.1.getD (u.vertsPerFace i)
    if vertsPerFace ≠ 3 then
      let r := readFaces u n (i + 1) (ignoreLine k.2)
      (r.1, skipWarning :: r.2.1, r.2.2)
    else
      let a := extractUInt k.2
      let b := extractUInt a.2
      let c := extractUInt b.2
      let r := readFaces u n (i + 1) c.2
      (a.1.getD (u.a i) :: b.1.getD (u.b i) :: c.1.getD (u.c i) :: r.1, r.2.1, r.2.2)

/-- The corners `lo`, `hi` of the axis-aligned bounding box of the origin together
with the first `n` positions of `verts`: the origin and every position lie between
them, and each of their components is `0` or the component of some position. -/
def IsSeededBox (verts : List α) (n : Nat) (lo hi : Vector3 α) : Prop :=
  (lo.x ≤ 0 ∧ 0 ≤ hi.x ∧ lo.y ≤ 0 ∧ 0 ≤ hi.y ∧ lo.z ≤ 0 ∧ 0 ≤ hi.z) ∧
  (∀ i, i < n →
    lo.x ≤ (vec3At verts i).x ∧ (vec3At verts i).x ≤ hi.x ∧
    lo.y ≤ (vec3At verts i).y ∧ (vec3At verts i).y ≤ hi.y ∧
    lo.z ≤ (vec3At verts i).z ∧ (vec3At verts i).z ≤ hi.z) ∧
  (lo.x = 0 ∨ ∃ i, i < n ∧ (vec3At verts i).x = lo.x) ∧
  (hi.x = 0 ∨ ∃ i, i < n ∧ (vec3At verts i).x = hi.x) ∧
  (lo.y = 0 ∨ ∃ i, i < n ∧ (vec3At verts i).y = lo.y) ∧
  (hi.y = 0 ∨ ∃ i, i < n ∧ (vec3At verts i).y = hi.y) ∧
  (lo.z = 0 ∨ ∃ i, i < n ∧ (vec3At verts i).z = lo.z) ∧
  (hi.z = 0 ∨ ∃ i, i < n ∧ (vec3At verts i).z = hi.z)

/-- The index buffer with the second and third index of every triangle swapped. -/
def swapWinding : List Nat → List Nat
  | a :: b :: c :: rest => a :: c :: b :: swapWinding rest
  | l => l

/-- What `LoadMeshFromOFF` returns: the `Mesh` value and the log written.
`positionsFinite = false` records that `NormalizeMesh` scaled the positions by
`1.0f / 0`: the positions the source stores are then not finite numbers, and
`mesh.vertices` keeps the positions before the scaling. -/
structure LoadResult (α : Type) where
  mesh : Mesh α
  positionsFinite : Bool
  log : List LogEntry
deriving DecidableEq, Repr

/-- Lines 102 to 142 of `LoadMeshFromOFF`, on the stream left by the header line: the
counts, the vertex loop, the face loop and the conversion to a raylib mesh, with the
warnings logged.  The result is `none` when
`std::vector<Vector3> vertices(numVertices)` throws `std::length_error` for a
negative count, which nothing catches. -/
def buildMesh (u : Indet) (s : IStream) : Option (Mesh α × List LogEntry) :=
  let nv := extractInt s
  let nf := extractInt nv.2
  let ne := extractInt nf.2
  let numVertices := nv.1.getD u.numVertices
  let numFaces := nf.1.getD u.numFaces
  if numVertices < 0 then none
  else
    let vs : List (Vector3 α) × IStream := readVertices numVertices.toNat ne.2
    let fr := readFaces u numFaces.toNat 0 vs.2
    let vertices := vs.1
    let indices := fr.1
    some
      ({ vertexCount := vertices.length
         triangleCount := indices.length / 3
         vertices := flatten3 vertices
         normals := []
         indices := indices.map (fun i => i % 65536) },
        fr.2.1)

/-- Lines 143 to 146 of `LoadMeshFromOFF`: `ComputeMeshNormals`, then
`NormalizeMesh`, and the mesh is returned. -/
def finishMesh (sqrtf : α → α) (mesh : Mesh α) (log : List LogEntry) : LoadResult α :=
  let mesh := ComputeMeshNormals sqrtf mesh
  match NormalizeMesh sqrtf mesh with
  | some m => ⟨m, true, log⟩
  | none => ⟨mesh, false, log⟩

/-- The function `LoadMeshFromOFF`.  `fs` gives the contents of the files that can be
opened.  The result is `none` when the function does not return (see `buildMesh`). -/
def LoadMeshFromOFF (sqrtf : α → α) (u : Indet) (fs : String → Option (List Char))
    (filename : String) : Option (LoadResult α) :=
  match fs filename with
  | none => some ⟨Mesh.empty, true, [⟨.LOG_ERROR, "Failed to open .off file: " ++ filename⟩]⟩
  | some content =>
    let l := getline ⟨content, false⟩
    if l.1 ≠ "OFF".toList then
      some ⟨Mesh.empty, true, [⟨.LOG_ERROR, "Invalid OFF file header."⟩]⟩
    else
      match buildMesh u l.2 with
      | none => none
      | some (mesh, log) => some (finishMesh sqrtf mesh log)

/-! ## The drop handling of `main` -/

/-- The fields of the raylib `Model` that the drop handling touches. -/
structure Model (α : Type) where
  meshCount : Nat
  /-- The mesh `meshes[0]`, and whether its positions are finite. -/
  mesh : Mesh α
  positionsFinite : Bool
  /-- Whether `materials[0].shader` has been set to the viewer shader. -/
  shaderSet : Bool
deriving DecidableEq, Repr

/-- The initial `Model model = { 0 }`. -/
def Model.zero : Model α := ⟨0, Mesh.empty, true, false⟩

/-- The raylib `LoadModelFromMesh`: a model with the one mesh given. -/
def LoadModelFromMesh (mesh : Mesh α) (positionsFinite : Bool) : Model α :=
  ⟨1, mesh, positionsFinite, false⟩

/-- The variables of `main` that the drop handling reads and writes. -/
structure Viewer (α : Type) where
  model : Model α
  modelLoaded : Bool
deriving DecidableEq, Repr

/-- The calls the drop handling makes that release or report something. -/
inductive Effect (α : Type)
  | unloadModel (m : Model α)
  | traceLog (e : LogEntry)
  | unloadDroppedFiles
deriving DecidableEq, Repr

/-- The block `if (IsFileDropped()) { ... }` of the main loop.  `dropped` holds the
dropped paths (empty when no file was dropped) and `IsFileExtension` is the raylib
function.  The result is `none` when `LoadMeshFromOFF` does not return. -/
def dropStep (sqrtf : α → α) (u : Indet) (fs : String → Option (List Char))
    (IsFileExtension : String → String → Bool) (st : Viewer α) (dropped : List String) :
    Option (Viewer α × List (Effect α)) :=
  match dropped with
  | [] => some (st, [])
  | path :: _ =>
    if IsFileExtension path ".off" then
      let unload : List (Effect α) := if st.modelLoaded then [.unloadModel st.model] else []
      match LoadMeshFromOFF sqrtf u fs path with
      | none => none
      | some r =>
        let model := LoadModelFromMesh r.mesh r.positionsFinite
        let model := { model with shaderSet := true }
        some (⟨model, true⟩, unload ++ r.log.map .traceLog ++ [.unloadDroppedFiles])
    else some (st, [.unloadDroppedFiles])

/-! ## Well-formed OFF texts

A well-formed text is described by its fields: each numeric field with the
whitespace in front of it.  The description is independent of the extraction
functions above. -/

/-- Whether a string is whitespace only. -/
def isBlank (w : List Char) : Bool := w.all isSpace

/-- Whether a string is decimal digits only. -/
def allDigits (ds : List Char) : Bool := ds.all isDigit

/-- Whether `rest` ends a numeric field in front of it: it is empty or starts with
whitespace. -/
def delimits : List Char → Bool
  | [] => true
  | c :: _ => isSpace c

/-- Whether `rest` starts with a character satisfying `p`. -/
def headIs (p : Char → Bool) : List Char → Bool
  | [] => false
  | c :: _ => p c

/-- Whether `s` is an optional sign: empty, `-` or `+`. -/
def isSign (s : List Char) : Bool := s = [] || s = ['-'] || s = ['+']

/-- An unsigned decimal field and the whitespace in front of it. -/
structure NumField where
  lead : List Char
  digits : List Char
deriving DecidableEq, Repr

/-- The text of a field. -/
def NumField.text (f : NumField) : List Char := f.lead ++ f.digits

/-- The number a field denotes. -/
def NumField.value (f : NumField) : Nat := decimalValue f.digits

/-- A field is well formed when its lead is whitespace, not empty if `sep` asks for a
separation from a field in front of it, and its digits are one or more digits. -/
def NumField.wf (f : NumField) (sep : Bool) : Bool :=
  isBlank f.lead && (!sep || !f.lead.isEmpty) && !f.digits.isEmpty && allDigits f.digits

/-- A decimal floating-point field and the whitespace in front of it: sign, integer
digits, an optional fraction and an optional exponent (its letter, sign and digits). -/
structure FloatField where
  lead : List Char
  sign : List Char
  intPart : List Char
  frac : Option (List Char)
  expo : Option (Char × List Char × List Char)
deriving DecidableEq, Repr

/-- The text of the fraction. -/
def fracText : Option (List Char) → List Char
  | none => []
  | some d => '.' :: d

/-- The text of the exponent. -/
def expoText : Option (Char × List Char × List Char) → List Char
  | none => []
  | some (e, s, d) => e :: (s ++ d)

/-- The text of a floating-point field. -/
def FloatField.text (f : FloatField) : List Char :=
  f.lead ++ (f.sign ++ (f.intPart ++ (fracText f.frac ++ expoText f.expo)))

/-- A floating-point field is well formed when its lead is whitespace and not empty,
its integer part has a digit, fraction and exponent, when present, are digits
after `.` and a sign and one or more digits after `e` or `E`, and its value is in the
range of `float`. -/
def FloatField.wf (f : FloatField) : Bool :=
  isBlank f.lead && !f.lead.isEmpty && isSign f.sign &&
  !f.intPart.isEmpty && allDigits f.intPart &&
  (match f.frac with
    | none => true
    | some d => allDigits d) &&
  (match f.expo with
    | none => true
    | some (e, s, d) => (e = 'e' || e = 'E') && isSign s && !d.isEmpty && allDigits d) &&
  !floatOverflows f.intPart f.frac (f.expo.map (fun p => (decide (p.2.1 = ['-']), p.2.2)))

/-- A vertex record: three floating-point fields. -/
structure VertexRecord where
  x : FloatField
  y : FloatField
  z : FloatField
deriving DecidableEq, Repr

/-- The text of a vertex record. -/
def VertexRecord.text (v : VertexRecord) : List Char := v.x.text ++ (v.y.text ++ v.z.text)

/-- A vertex record is well formed when its fields are. -/
def VertexRecord.wf (v : VertexRecord) : Bool := v.x.wf && v.y.wf && v.z.wf

/-- A face record: a triangle `k a b c` with `k = 3`, or a record with another count
`k` followed by the rest of its line. -/
inductive FaceRecord
  | triangle (k a b c : NumField)
  | polygon (k : NumField) (rest : List Char)
deriving DecidableEq, Repr

/-- The text of a face record; the line feed ending the line of a non-triangle
belongs to it. -/
def FaceRecord.text : FaceRecord → List Char
  | .triangle k a b c => k.text ++ (a.text ++ (b.text ++ c.text))
  | .polygon k rest => k.text ++ (rest ++ [newline])

/-- Whether the record is a triangle. -/
def FaceRecord.isTriangle : FaceRecord → Bool
  | .triangle _ _ _ _ => true
  | .polygon _ _ => false

/-- The vertex indices a record contributes: those of a triangle. -/
def FaceRecord.indices : FaceRecord → List Nat
  | .triangle _ a b c => [a.value, b.value, c.value]
  | .polygon _ _ => []

/-- The text of a list of face records. -/
def facesText : List FaceRecord → List Char
  | [] => []
  | f :: fs => f.text ++ facesText fs

/-- The text of a list of vertex records. -/
def verticesText : List VertexRecord → List Char
  | [] => []
  | v :: vs => v.text ++ verticesText vs

/-- Well-formedness of the face records in front of `trailer`.  `sep` tells whether
a numeric field ends right before them.  A triangle has `k = 3` and indices that fit
`unsigned int`; another record has `k ≠ 3` fitting `int`, and the rest of its line
holds no line feed and does not continue the digits of `k`. -/
def facesWf : Bool → List FaceRecord → List Char → Bool
  | sep, [], trailer => !sep || delimits trailer
  | sep, .triangle k a b c :: fs, trailer =>
    k.wf sep && k.value == 3 && a.wf true && b.wf true && c.wf true &&
    decide (a.value ≤ UINT_MAX) && decide (b.value ≤ UINT_MAX) && decide (c.value ≤ UINT_MAX) &&
    facesWf true fs trailer
  | sep, .polygon k rest :: fs, trailer =>
    k.wf sep && k.value != 3 && decide ((k.value : Int) ≤ INT_MAX) &&
    rest.all (fun c => c != newline) &&
    !headIs isDigit rest &&
    facesWf false fs trailer

/-- The fields of an OFF text after the header line: the three counts, the vertex
records, the face records, and what follows them. -/
structure OffDoc where
  nV : NumField
  nF : NumField
  nE : NumField
  vertices : List VertexRecord
  faces : List FaceRecord
  trailer : List Char
deriving DecidableEq, Repr

/-- The text of the file: the header line `OFF` and the fields. -/
def OffDoc.text (d : OffDoc) : List Char :=
  "OFF".toList ++ (newline :: (d.nV.text ++ (d.nF.text ++ (d.nE.text ++
    (verticesText d.vertices ++ (facesText d.faces ++ d.trailer))))))

/-- A well-formed OFF text: counts that fit `int`, as many vertex records as the
first count and as many face records as the second, all well formed. -/
def OffDoc.wf (d : OffDoc) : Bool :=
  d.nV.wf false && d.nF.wf true && d.nE.wf true &&
  decide ((d.nV.value : Int) ≤ INT_MAX) && decide ((d.nF.value : Int) ≤ INT_MAX) &&
  decide ((d.nE.value : Int) ≤ INT_MAX) &&
  d.vertices.length == d.nV.value && d.faces.length == d.nF.value &&
  d.vertices.all VertexRecord.wf && facesWf true d.faces d.trailer

/-- The vertex indices of the triangle records, in file order. -/
def OffDoc.fileIndices (d : OffDoc) : List Nat :=
  (d.faces.map FaceRecord.indices).flatten

/-! ## Values used in the examples -/

/-- An integer square root by search, exact on perfect squares. -/
def isqrt (n : Nat) : Nat :=
  (List.range (n + 1)).foldl (fun r k => if k * k ≤ n then k else r) 0

/-- A computable square root on the rationals, exact on squares of rationals. -/
def qsqrt (q : ℚ) : ℚ := (isqrt q.num.toNat : ℚ) / (isqrt q.den : ℚ)

/-- Three collinear vertices joined into one (degenerate) triangle. -/
def collinearTriangle : Mesh ℚ :=
  ⟨3, 1, [0, 0, 0, 1, 0, 0, 2, 0, 0], [], [0, 1, 2]⟩

/-- The triangle `(0,0,0), (1,0,0), (0,1,0)` twice, the second time with the winding
reversed. -/
def opposingTriangles : Mesh ℚ :=
  ⟨3, 2, [0, 0, 0, 1, 0, 0, 0, 1, 0], [], [0, 1, 2, 0, 2, 1]⟩

/-- A stand-in for the raylib `IsFileExtension` in the examples: the path ends with
the extension. -/
def endsWithExt (path ext : String) : Bool := ext.toList.isSuffixOf path.toList

/-- The vertex record of the line `0 0 0`. -/
def zeroVertex : VertexRecord :=
  ⟨⟨[newline], [], ['0'], none, none⟩, ⟨[' '], [], ['0'], none, none⟩,
    ⟨[' '], [], ['0'], none, none⟩⟩

/-- The text `OFF`, `3 1 0`, the vertices `0 0 0`, `1 0 0`, `0 1 0` and the face
`3 0 1 2`, one per line. -/
def triangleDoc : OffDoc :=
  { nV := ⟨[], ['3']⟩, nF := ⟨[' '], ['1']⟩, nE := ⟨[' '], ['0']⟩
    vertices :=
      [zeroVertex,
        ⟨⟨[newline], [], ['1'], none, none⟩, ⟨[' '], [], ['0'], none, none⟩,
          ⟨[' '], [], ['0'], none, none⟩⟩,
        ⟨⟨[newline], [], ['0'], none, none⟩, ⟨[' '], [], ['1'], none, none⟩,
          ⟨[' '], [], ['0'], none, none⟩⟩]
    faces := [.triangle ⟨[newline], ['3']⟩ ⟨[' '], ['0']⟩ ⟨[' '], ['1']⟩ ⟨[' '], ['2']⟩]
    trailer := [newline] }

/-- The text `OFF`, `4 2 0`, the vertices `0 0 0`, `1 0 0`, `1 1 0`, `0 1 0` and the
faces `4 0 1 2 3` and `3 0 1 2`, one per line. -/
def quadDoc : OffDoc :=
  { nV := ⟨[], ['4']⟩, nF := ⟨[' '], ['2']⟩, nE := ⟨[' '], ['0']⟩
    vertices :=
      [zeroVertex,
        ⟨⟨[newline], [], ['1'], none, none⟩, ⟨[' '], [], ['0'], none, none⟩,
          ⟨[' '], [], ['0'], none, none⟩⟩,
        ⟨⟨[newline], [], ['1'], none, none⟩, ⟨[' '], [], ['1'], none, none⟩,
          ⟨[' '], [], ['0'], none, none⟩⟩,
        ⟨⟨[newline], [], ['0'], none, none⟩, ⟨[' '], [], ['1'], none, none⟩,
          ⟨[' '], [], ['0'], none, none⟩⟩]
    faces :=
      [.polygon ⟨[newline], ['4']⟩ " 0 1 2 3".toList,
        .triangle ⟨[], ['3']⟩ ⟨[' '], ['0']⟩ ⟨[' '], ['1']⟩ ⟨[' '], ['2']⟩]
    trailer := [newline] }

/-- The text `OFF`, `65537 1 0`, the line `0 0 0` 65537 times and the face
`3 0 1 65536`. -/
def bigDoc : OffDoc :=
  { nV := ⟨[], "65537".toList⟩, nF := ⟨[' '], ['1']⟩, nE := ⟨[' '], ['0']⟩
    vertices := List.replicate 65537 zeroVertex
    faces :=
      [.triangle ⟨[newline], ['3']⟩ ⟨[' '], ['0']⟩ ⟨[' '], ['1']⟩ ⟨[' '], "65536".toList⟩]
    trailer := [newline] }

/-- A viewer showing a loaded one-triangle model. -/
def loadedViewer : Viewer ℚ :=
  ⟨⟨1, ⟨3, 1, [0, 0, 0, 1, 0, 0, 0, 1, 0], [0, 0, 1, 0, 0, 1, 0, 0, 1], [0, 1, 2]⟩, true, true⟩,
    true⟩

/-- One vertex, at the origin. -/
def originPoint : Mesh ℚ := ⟨1, 0, [0, 0, 0], [], []⟩

/-- One vertex, at `(3,0,0)`. -/
def offsetPoint : Mesh ℚ := ⟨1, 0, [3, 0, 0], [], []⟩

/-- The two vertices `(1,0,0)` and `(2,0,0)`. -/
def offsetSegment : Mesh ℚ := ⟨2, 0, [1, 0, 0, 2, 0, 0], [], []⟩

/-- The two vertices `(-2,0,0)` and `(2,0,0)`. -/
def centredSegment : Mesh ℚ := ⟨2, 0, [-2, 0, 0, 2, 0, 0], [], []⟩

/-- Uninitialised locals that all hold zero. -/
def Indet.zero : Indet := ⟨0, 0, 0, fun _ => 0, fun _ => 0, fun _ => 0, fun _ => 0⟩

/-- A file system with the one file `name`. -/
def oneFile (name : String) (content : String) : String → Option (List Char) :=
  fun p => if p = name then some content.toList else none

/-- The triangle `(0,0,0), (1e-20,0,0), (0,1e-20,0)` in `float`; the `float` of `1e-20`
is `1547425 * 2^-87`. -/
def tinyTriangle : Mesh Binary32 :=
  ⟨3, 1, [0, 0, 0, .fin (1547425 / 2 ^ 87), 0, 0, 0, .fin (1547425 / 2 ^ 87), 0], [],
    [0, 1, 2]⟩

/-- The triangle `(0,0,0), (1,0,0), (0,1,1)` in `float`. -/
def slantedTriangle : Mesh Binary32 := ⟨3, 1, [0, 0, 0, 1, 0, 0, 0, 1, 1], [], [0, 1, 2]⟩

/-- The two vertices `(1e20,0,0)` and `(0,0,0)` in `float`; the `float` of `1e20` is
`100000002004087734272`. -/
def hugeSegment : Mesh Binary32 :=
  ⟨2, 0, [.fin 100000002004087734272, 0, 0, 0, 0, 0], [], []⟩

/-- The two vertices `(1,0,0)` and `(0,0,0)` in `float`. -/
def unitSegment : Mesh Binary32 := ⟨2, 0, [1, 0, 0, 0, 0, 0], [], []⟩

/-- The two vertices `(-3,-3,-3)` and `(-3,-3,1)` in `float`. -/
def tallSegment : Mesh Binary32 := ⟨2, 0, [-3, -3, -3, -3, -3, 1], [], []⟩

/-- The two vertices `(-2,-2,-2)` and `(-2,-2,2)` in `float`. -/
def cornerSegment : Mesh Binary32 := ⟨2, 0, [-2, -2, -2, -2, -2, 2], [], []⟩

/-- The two vertices `(-3,-3,-3)` and `(0,0,2)` in `float`. -/
def diagonalSegment : Mesh Binary32 := ⟨2, 0, [-3, -3, -3, 0, 0, 2], [], []⟩

/-- The triangle `(0,0,0), (1,0,0), (0,1,0)` and the triangle `(0,0,0), (0,5,12), (1,0,0)`,
whose unit face normals are `(0,0,1)` and `(0,12/13,-5/13)`. -/
def foldedTriangles : Mesh ℚ :=
  ⟨4, 2, [0, 0, 0, 1, 0, 0, 0, 1, 0, 0, 5, 12], [], [0, 1, 2, 0, 3, 1]⟩

/-! # Theorems -/

set_option linter.unusedSectionVars false

@[simp] theorem Vector3.add_x (a b : Vector3 α) : (a + b).x = a.x + b.x := rfl

@[simp] theorem Vector3.add_y (a b : Vector3 α) : (a + b).y = a.y + b.y := rfl

@[simp] theorem Vector3.add_z (a b : Vector3 α) : (a + b).z = a.z + b.z := rfl

@[simp] theorem Vector3.zero_x : (0 : Vector3 α).x = 0 := rfl

@[simp] theorem Vector3.zero_y : (0 : Vector3 α).y = 0 := rfl

@[simp] theorem Vector3.zero_z : (0 : Vector3 α).z = 0 := rfl

@[simp] theorem Vector3.neg_x (a : Vector3 α) : (-a).x = -a.x := rfl

@[simp] theorem Vector3.neg_y (a : Vector3 α) : (-a).y = -a.y := rfl

@[simp] theorem Vector3.neg_z (a : Vector3 α) : (-a).z = -a.z := rfl

theorem getD_set (l : List α) (i j : Nat) (a d : α) :
    (l.set i a).getD j d = if i = j ∧ i < l.length then a else l.getD j d := by
  simp only [List.getD_eq_getElem?_getD, List.getElem?_set]
  by_cases h : i = j
  · subst h
    by_cases h2 : i < l.length
    · simp [h2]
    · simp [h2, List.getElem?_eq_none (Nat.le_of_not_lt h2)]
  · simp [h]

theorem getD_set3 (l : List α) (n i v k k2 : Nat) (a : α) (hlen : l.length = n * 3)
    (hi : i < n) (hk : k < 3) (hk2 : k2 < 3) :
    (l.set (i * 3 + k) a).getD (v * 3 + k2) 0
      = if v = i ∧ k2 = k then a else l.getD (v * 3 + k2) 0 := by
  rw [getD_set]
  by_cases h : v = i ∧ k2 = k
  · rw [if_pos h, if_pos]
    omega
  · rw [if_neg h, if_neg]
    omega

theorem length_setVec3 (buf : List α) (i : Nat) (w : Vector3 α) :
    (setVec3 buf i w).length = buf.length := by
  simp [setVec3]

theorem length_addVec3 (buf : List α) (i : Nat) (w : Vector3 α) :
    (addVec3 buf i w).length = buf.length := by
  simp [addVec3]

theorem vec3At_setVec3 (buf : List α) (n i v : Nat) (w : Vector3 α)
    (hlen : buf.length = n * 3) (hi : i < n) :
    vec3At (setVec3 buf i w) v = if v = i then w else vec3At buf v := by
  have h1 : (buf.set (i * 3 + 0) w.x).length = n * 3 := by rw [List.length_set, hlen]
  have h2 : ((buf.set (i * 3 + 0) w.x).set (i * 3 + 1) w.y).length = n * 3 := by
    rw [List.length_set, h1]
  have e : ∀ k2, k2 < 3 →
      (setVec3 buf i w).getD (v * 3 + k2) 0
        = if v = i ∧ k2 = 2 then w.z else if v = i ∧ k2 = 1 then w.y
          else if v = i ∧ k2 = 0 then w.x else buf.getD (v * 3 + k2) 0 := by
    intro k2 hk2
    unfold setVec3
    rw [getD_set3 _ n i v 2 k2 _ h2 hi (by decide) hk2,
      getD_set3 _ n i v 1 k2 _ h1 hi (by decide) hk2,
      getD_set3 _ n i v 0 k2 _ hlen hi (by decide) hk2]
  unfold vec3At
  rw [e 0 (by decide), e 1 (by decide), e 2 (by decide)]
  by_cases h : v = i
  · simp [h]
  · simp [h]

theorem vec3At_addVec3 (buf : List α) (n i v : Nat) (w : Vector3 α)
    (hlen : buf.length = n * 3) (hi : i < n) :
    vec3At (addVec3 buf i w) v = vec3At buf v + (if v = i then w else 0) := by
  have h1 : (buf.set (i * 3 + 0) (buf.getD (i * 3 + 0) 0 + w.x)).length = n * 3 := by
    rw [List.length_set, hlen]
  have h2 : ((buf.set (i * 3 + 0) (buf.getD (i * 3 + 0) 0 + w.x)).set (i * 3 + 1)
      ((buf.set (i * 3 + 0) (buf.getD (i * 3 + 0) 0 + w.x)).getD (i * 3 + 1) 0 + w.y)).length
        = n * 3 := by
    rw [List.length_set, h1]
  have e : ∀ k2, k2 < 3 →
      (addVec3 buf i w).getD (v * 3 + k2) 0
        = if v = i ∧ k2 = 2 then buf.getD (i * 3 + 2) 0 + w.z
          else if v = i ∧ k2 = 1 then buf.getD (i * 3 + 1) 0 + w.y
          else if v = i ∧ k2 = 0 then buf.getD (i * 3 + 0) 0 + w.x
          else buf.getD (v * 3 + k2) 0 := by
    intro k2 hk2
    unfold addVec3
    simp only []
    rw [getD_set3 _ n i v 2 k2 _ h2 hi (by decide) hk2,
      getD_set3 _ n i v 1 k2 _ h1 hi (by decide) hk2,
      getD_set3 _ n i v 0 k2 _ hlen hi (by decide) hk2,
      getD_set3 _ n i i 1 2 _ h1 hi (by decide) (by decide),
      getD_set3 _ n i i 0 2 _ hlen hi (by decide) (by decide),
      getD_set3 _ n i i 0 1 _ hlen hi (by decide) (by decide)]
    simp
  unfold vec3At
  rw [e 0 (by decide), e 1 (by decide), e 2 (by decide)]
  by_cases h : v = i
  · subst h
    ext <;> simp
  · ext <;> simp [h]

theorem vec3At_replicate_zero (n v : Nat) : vec3At (List.replicate n (0 : α)) v = 0 := by
  have e : ∀ j, (List.replicate n (0 : α)).getD j 0 = 0 := by
    intro j
    rw [List.getD_eq_getElem?_getD, List.getElem?_replicate]
    split_ifs <;> rfl
  unfold vec3At
  rw [e, e, e]
  rfl

theorem foldl_range_succ {β : Type} (f : β → Nat → β) (b : β) (n : Nat) :
    (List.range (n + 1)).foldl f b = f ((List.range n).foldl f b) n := by
  rw [List.range_succ, List.foldl_append]
  rfl

theorem accumulateStep_spec (sqrtf : α → α) (verts : List α) (indices : List Nat)
    (buf : List α) (n t : Nat) (hlen : buf.length = n * 3)
    (hidx : ∀ j, j < 3 → indices.getD (t * 3 + j) 0 < n) :
    (accumulateStep sqrtf verts indices buf t).length = n * 3 ∧
    ∀ v, vec3At (accumulateStep sqrtf verts indices buf t) v
      = vec3At buf v + ∑ j ∈ Finset.range 3,
          if indices.getD (t * 3 + j) 0 = v then faceNormal sqrtf verts indices t else 0 := by
  have l0 := length_addVec3 buf (indices.getD (t * 3 + 0) 0) (faceNormal sqrtf verts indices t)
  have l1 := length_addVec3 (addVec3 buf (indices.getD (t * 3 + 0) 0)
    (faceNormal sqrtf verts indices t)) (indices.getD (t * 3 + 1) 0)
    (faceNormal sqrtf verts indices t)
  constructor
  · simp only [accumulateStep, List.foldl_cons, List.foldl_nil, length_addVec3, hlen]
  · intro v
    simp only [accumulateStep, List.foldl_cons, List.foldl_nil]
    rw [vec3At_addVec3 _ n _ v _ (by rw [l1, l0, hlen]) (hidx 2 (by decide)),
      vec3At_addVec3 _ n _ v _ (by rw [l0, hlen]) (hidx 1 (by decide)),
      vec3At_addVec3 _ n _ v _ hlen (hidx 0 (by decide))]
    simp only [Finset.sum_range_succ, Finset.sum_range_zero, zero_add, add_assoc, eq_comm]

theorem accumulateLoop_spec (sqrtf : α → α) (verts : List α) (indices : List Nat)
    (n T : Nat) (hidx : ∀ t, t < T → ∀ j, j < 3 → indices.getD (t * 3 + j) 0 < n) :
    ((List.range T).foldl (accumulateStep sqrtf verts indices)
        (List.replicate (n * 3) 0)).length = n * 3 ∧
    ∀ v, vec3At ((List.range T).foldl (accumulateStep sqrtf verts indices)
        (List.replicate (n * 3) 0)) v
      = ∑ t ∈ Finset.range T, ∑ j ∈ Finset.range 3,
          if indices.getD (t * 3 + j) 0 = v then faceNormal sqrtf verts indices t else 0 := by
  induction T with
  | zero =>
    constructor
    · simp
    · intro v
      simp only [List.range_zero, List.foldl_nil, Finset.range_zero, Finset.sum_empty]
      exact vec3At_replicate_zero _ _
  | succ T ih =>
    have ih2 := ih (fun t ht => hidx t (Nat.lt_succ_of_lt ht))
    have st := accumulateStep_spec sqrtf verts indices _ n T ih2.1 (hidx T (Nat.lt_succ_self T))
    rw [foldl_range_succ]
    refine ⟨st.1, fun v => ?_⟩
    rw [st.2 v, ih2.2 v]
    exact (Finset.sum_range_succ _ T).symm

theorem mapLoop_spec (g : Vector3 α → Vector3 α) (buf : List α) (n m : Nat)
    (hlen : buf.length = n * 3) (hm : m ≤ n) :
    ((List.range m).foldl (fun vs i => setVec3 vs i (g (vec3At vs i))) buf).length = n * 3 ∧
    ∀ v, vec3At ((List.range m).foldl (fun vs i => setVec3 vs i (g (vec3At vs i))) buf) v
      = if v < m then g (vec3At buf v) else vec3At buf v := by
  induction m with
  | zero =>
    exact ⟨by simpa using hlen, fun v => by simp⟩
  | succ m ih =>
    have ih2 := ih (Nat.le_of_succ_le hm)
    rw [foldl_range_succ]
    refine ⟨by rw [length_setVec3]; exact ih2.1, fun v => ?_⟩
    rw [vec3At_setVec3 _ n m v _ ih2.1 (by omega), ih2.2 m, if_neg (Nat.lt_irrefl m), ih2.2 v]
    by_cases h : v = m
    · subst h
      simp
    · rw [if_neg h]
      by_cases h2 : v < m
      · rw [if_pos h2, if_pos (by omega)]
      · rw [if_neg h2, if_neg (by omega)]

theorem WellFormed_getD (mesh : Mesh α) (hwf : mesh.WellFormed) (t : Nat)
    (ht : t < mesh.triangleCount) (j : Nat) (hj : j < 3) :
    mesh.indices.getD (t * 3 + j) 0 < mesh.vertexCount := by
  obtain ⟨_, h2, h3⟩ := hwf
  have hlt : t * 3 + j < mesh.indices.length := by omega
  rw [List.getD_eq_getElem?_getD, List.getElem?_eq_getElem hlt]
  exact h3 _ (List.getElem_mem _)

theorem accumulateNormals_spec (sqrtf : α → α) (mesh : Mesh α) (hwf : mesh.WellFormed) :
    (accumulateNormals sqrtf mesh).length = mesh.vertexCount * 3 ∧
    ∀ v, vec3At (accumulateNormals sqrtf mesh) v = cornerSum sqrtf mesh v :=
  accumulateLoop_spec sqrtf mesh.vertices mesh.indices mesh.vertexCount mesh.triangleCount
    (WellFormed_getD mesh hwf)

theorem ComputeMeshNormals_spec (sqrtf : α → α) (mesh : Mesh α) (hwf : mesh.WellFormed) :
    (ComputeMeshNormals sqrtf mesh).normals.length = mesh.vertexCount * 3 ∧
    ∀ v, v < mesh.vertexCount → vec3At (ComputeMeshNormals sqrtf mesh).normals v
      = Vector3Normalize sqrtf (cornerSum sqrtf mesh v) := by
  have h := accumulateNormals_spec sqrtf mesh hwf
  have m := mapLoop_spec (Vector3Normalize sqrtf) (accumulateNormals sqrtf mesh)
    mesh.vertexCount mesh.vertexCount h.1 (Nat.le_refl _)
  refine ⟨m.1, fun v hv => ?_⟩
  have := m.2 v
  rw [if_pos hv, h.2 v] at this
  exact this

/-! ### Exact square roots -/

theorem ExactSqrt.eq_of_sq {sqrtf : α → α} (hs : ExactSqrt sqrtf) (x a : α) (ha : 0 ≤ a)
    (hx : a * a = x) : sqrtf x = a := by
  have hx0 : 0 ≤ x := by rw [← hx]; exact mul_self_nonneg a
  obtain ⟨h1, h2⟩ := hs x hx0
  rw [← hx] at h2 h1
  rw [← hx]
  exact (mul_self_inj h1 ha).mp h2

theorem ExactSqrt.zero {sqrtf : α → α} (hs : ExactSqrt sqrtf) : sqrtf 0 = 0 :=
  hs.eq_of_sq 0 0 (le_refl 0) (mul_zero 0)

theorem ExactSqrt.one {sqrtf : α → α} (hs : ExactSqrt sqrtf) : sqrtf 1 = 1 :=
  hs.eq_of_sq 1 1 zero_le_one (mul_one 1)

theorem normSq_nonneg (v : Vector3 α) : 0 ≤ v.x * v.x + v.y * v.y + v.z * v.z := by
  have h1 := mul_self_nonneg v.x
  have h2 := mul_self_nonneg v.y
  have h3 := mul_self_nonneg v.z
  linarith

theorem normSq_eq_zero (v : Vector3 α) (h : v.x * v.x + v.y * v.y + v.z * v.z = 0) : v = 0 := by
  have h1 := mul_self_nonneg v.x
  have h2 := mul_self_nonneg v.y
  have h3 := mul_self_nonneg v.z
  have ex : v.x * v.x = 0 := by linarith
  have ey : v.y * v.y = 0 := by linarith
  have ez : v.z * v.z = 0 := by linarith
  ext
  · exact mul_self_eq_zero.mp ex
  · exact mul_self_eq_zero.mp ey
  · exact mul_self_eq_zero.mp ez

theorem ExactSqrt.length_eq_zero {sqrtf : α → α} (hs : ExactSqrt sqrtf) (v : Vector3 α) :
    Vector3Length sqrtf v = 0 ↔ v = 0 := by
  constructor
  · intro h
    have h2 := (hs _ (normSq_nonneg v)).2
    unfold Vector3Length at h
    rw [h, mul_zero] at h2
    exact normSq_eq_zero v h2.symm
  · intro h
    subst h
    show sqrtf (0 * 0 + 0 * 0 + 0 * 0) = 0
    simp [hs.zero]

theorem Vector3Normalize_zero (sqrtf : α → α) : Vector3Normalize sqrtf (0 : Vector3 α) = 0 := by
  unfold Vector3Normalize
  simp only []
  split_ifs
  · ext <;> simp
  · rfl

theorem Vector3Normalize_eq_scale (sqrtf : α → α) (v : Vector3 α) :
    Vector3Normalize sqrtf v
      = if Vector3Length sqrtf v ≠ 0 then Vector3Scale v (1 / Vector3Length sqrtf v) else v := rfl

theorem ExactSqrt.length_normalize {sqrtf : α → α} (hs : ExactSqrt sqrtf) (v : Vector3 α)
    (hv : v ≠ 0) : Vector3Length sqrtf (Vector3Normalize sqrtf v) = 1 := by
  have hL : Vector3Length sqrtf v ≠ 0 := fun h => hv ((hs.length_eq_zero v).mp h)
  have hsq := (hs _ (normSq_nonneg v)).2
  rw [Vector3Normalize_eq_scale, if_pos hL]
  unfold Vector3Length Vector3Scale
  unfold Vector3Length at hL
  simp only []
  apply hs.eq_of_sq _ 1 zero_le_one
  field_simp
  linarith

theorem ExactSqrt.normalize_of_length_one {sqrtf : α → α} (v : Vector3 α)
    (h : Vector3Length sqrtf v = 1) : Vector3Normalize sqrtf v = v := by
  rw [Vector3Normalize_eq_scale, h]
  unfold Vector3Scale
  ext <;> simp

theorem ExactSqrt.normalize_idem {sqrtf : α → α} (hs : ExactSqrt sqrtf) (v : Vector3 α) :
    Vector3Normalize sqrtf (Vector3Normalize sqrtf v) = Vector3Normalize sqrtf v := by
  by_cases hv : v = 0
  · subst hv
    rw [Vector3Normalize_zero, Vector3Normalize_zero]
  · exact ExactSqrt.normalize_of_length_one _ (hs.length_normalize v hv)

theorem exactSqrt_real : ExactSqrt Real.sqrt :=
  fun x hx => ⟨Real.sqrt_nonneg x, Real.mul_self_sqrt hx⟩

/-! ### The bounding box loop -/

theorem seededMin_spec (f : Nat → α) (n : Nat) :
    (List.range n).foldl (fun m i => min m (f i)) 0 ≤ 0 ∧
    (∀ i, i < n → (List.range n).foldl (fun m i => min m (f i)) 0 ≤ f i) ∧
    ((List.range n).foldl (fun m i => min m (f i)) 0 = 0 ∨
      ∃ i, i < n ∧ f i = (List.range n).foldl (fun m i => min m (f i)) 0) := by
  induction n with
  | zero => simp
  | succ n ih =>
    rw [foldl_range_succ]
    obtain ⟨h1, h2, h3⟩ := ih
    refine ⟨le_trans (min_le_left _ _) h1, fun i hi => ?_, ?_⟩
    · rcases Nat.lt_succ_iff_lt_or_eq.mp hi with h | h
      · exact le_trans (min_le_left _ _) (h2 i h)
      · subst h
        exact min_le_right _ _
    · rcases le_total ((List.range n).foldl (fun m i => min m (f i)) 0) (f n) with h | h
      · rw [min_eq_left h]
        rcases h3 with h3 | ⟨i, hi, e⟩
        · exact Or.inl h3
        · exact Or.inr ⟨i, Nat.lt_succ_of_lt hi, e⟩
      · rw [min_eq_right h]
        exact Or.inr ⟨n, Nat.lt_succ_self n, rfl⟩

theorem seededMax_spec (f : Nat → α) (n : Nat) :
    0 ≤ (List.range n).foldl (fun m i => max m (f i)) 0 ∧
    (∀ i, i < n → f i ≤ (List.range n).foldl (fun m i => max m (f i)) 0) ∧
    ((List.range n).foldl (fun m i => max m (f i)) 0 = 0 ∨
      ∃ i, i < n ∧ f i = (List.range n).foldl (fun m i => max m (f i)) 0) := by
  induction n with
  | zero => simp
  | succ n ih =>
    rw [foldl_range_succ]
    obtain ⟨h1, h2, h3⟩ := ih
    refine ⟨le_trans h1 (le_max_left _ _), fun i hi => ?_, ?_⟩
    · rcases Nat.lt_succ_iff_lt_or_eq.mp hi with h | h
      · exact le_trans (h2 i h) (le_max_left _ _)
      · subst h
        exact le_max_right _ _
    · rcases le_total (f n) ((List.range n).foldl (fun m i => max m (f i)) 0) with h | h
      · rw [max_eq_left h]
        rcases h3 with h3 | ⟨i, hi, e⟩
        · exact Or.inl h3
        · exact Or.inr ⟨i, Nat.lt_succ_of_lt hi, e⟩
      · rw [max_eq_right h]
        exact Or.inr ⟨n, Nat.lt_succ_self n, rfl⟩

theorem boundsLoop_components (verts : List α) (n : Nat) :
    (boundsLoop verts n).1.x = (List.range n).foldl (fun m i => min m (vec3At verts i).x) 0 ∧
    (boundsLoop verts n).1.y = (List.range n).foldl (fun m i => min m (vec3At verts i).y) 0 ∧
    (boundsLoop verts n).1.z = (List.range n).foldl (fun m i => min m (vec3At verts i).z) 0 ∧
    (boundsLoop verts n).2.x = (List.range n).foldl (fun m i => max m (vec3At verts i).x) 0 ∧
    (boundsLoop verts n).2.y = (List.range n).foldl (fun m i => max m (vec3At verts i).y) 0 ∧
    (boundsLoop verts n).2.z = (List.range n).foldl (fun m i => max m (vec3At verts i).z) 0 := by
  induction n with
  | zero => exact ⟨rfl, rfl, rfl, rfl, rfl, rfl⟩
  | succ n ih =>
    have e : boundsLoop verts (n + 1)
        = (Vector3Min (boundsLoop verts n).1 (vec3At verts n),
            Vector3Max (boundsLoop verts n).2 (vec3At verts n)) := by
      unfold boundsLoop
      rw [foldl_range_succ]
    obtain ⟨h1, h2, h3, h4, h5, h6⟩ := ih
    rw [e]
    simp only [foldl_range_succ, Vector3Min, Vector3Max, h1, h2, h3, h4, h5, h6, and_self]

theorem seeded_eq_lo (m lo : α) (f : Nat → α) (n : Nat)
    (hmle : ∀ i, i < n → m ≤ f i) (hmat : m = 0 ∨ ∃ i, i < n ∧ f i = m)
    (hlo0 : lo ≤ 0) (hlole : ∀ i, i < n → lo ≤ f i) (hloat : ∃ i, i < n ∧ f i = lo) : m = lo := by
  apply le_antisymm
  · obtain ⟨i, hi, e⟩ := hloat
    rw [← e]
    exact hmle i hi
  · rcases hmat with h | ⟨i, hi, e⟩
    · rw [h]
      exact hlo0
    · rw [← e]
      exact hlole i hi

theorem seeded_eq_hi (m hi : α) (f : Nat → α) (n : Nat)
    (hmle : ∀ i, i < n → f i ≤ m) (hmat : m = 0 ∨ ∃ i, i < n ∧ f i = m)
    (hhi0 : 0 ≤ hi) (hhile : ∀ i, i < n → f i ≤ hi) (hhiat : ∃ i, i < n ∧ f i = hi) : m = hi := by
  apply le_antisymm
  · rcases hmat with h | ⟨i, hi2, e⟩
    · rw [h]
      exact hhi0
    · rw [← e]
      exact hhile i hi2
  · obtain ⟨i, hi2, e⟩ := hhiat
    rw [← e]
    exact hmle i hi2

theorem boundsLoop_eq_box (verts : List α) (n : Nat) (lo hi : Vector3 α)
    (hbox : IsBoundingBox verts n lo hi)
    (ho : lo.x ≤ 0 ∧ 0 ≤ hi.x ∧ lo.y ≤ 0 ∧ 0 ≤ hi.y ∧ lo.z ≤ 0 ∧ 0 ≤ hi.z) :
    boundsLoop verts n = (lo, hi) := by
  obtain ⟨c1, c2, c3, c4, c5, c6⟩ := boundsLoop_components verts n
  obtain ⟨hb, ax, bx, ay, by1, az, bz⟩ := hbox
  obtain ⟨o1, o2, o3, o4, o5, o6⟩ := ho
  have mx := seededMin_spec (fun i => (vec3At verts i).x) n
  have my := seededMin_spec (fun i => (vec3At verts i).y) n
  have mz := seededMin_spec (fun i => (vec3At verts i).z) n
  have Mx := seededMax_spec (fun i => (vec3At verts i).x) n
  have My := seededMax_spec (fun i => (vec3At verts i).y) n
  have Mz := seededMax_spec (fun i => (vec3At verts i).z) n
  rw [← c1] at mx
  rw [← c2] at my
  rw [← c3] at mz
  rw [← c4] at Mx
  rw [← c5] at My
  rw [← c6] at Mz
  have e1 : (boundsLoop verts n).1 = lo := by
    ext
    · exact seeded_eq_lo _ _ _ n mx.2.1 mx.2.2 o1 (fun i h => (hb i h).1) ax
    · exact seeded_eq_lo _ _ _ n my.2.1 my.2.2 o3 (fun i h => (hb i h).2.2.1) ay
    · exact seeded_eq_lo _ _ _ n mz.2.1 mz.2.2 o5
        (fun i h => (hb i h).2.2.2.2.1) az
  have e2 : (boundsLoop verts n).2 = hi := by
    ext
    · exact seeded_eq_hi _ _ _ n Mx.2.1 Mx.2.2 o2 (fun i h => (hb i h).2.1) bx
    · exact seeded_eq_hi _ _ _ n My.2.1 My.2.2 o4 (fun i h => (hb i h).2.2.2.1) by1
    · exact seeded_eq_hi _ _ _ n Mz.2.1 Mz.2.2 o6 (fun i h => (hb i h).2.2.2.2.2) bz
  exact Prod.ext e1 e2

theorem vec3At_flatten3_zero (w : Vector3 α) (ws : List (Vector3 α)) :
    vec3At (flatten3 (w :: ws)) 0 = w := rfl

theorem eq_flatten3_three (buf : List α) (hlen : buf.length = 3 * 3) :
    buf = flatten3 [vec3At buf 0, vec3At buf 1, vec3At buf 2] := by
  match buf, hlen with
  | [a0, a1, a2, a3, a4, a5, a6, a7, a8], _ => rfl

theorem cornerSum_single (sqrtf : α → α) (verts ns : List α) (v : Nat) (hv : v < 3) :
    cornerSum sqrtf ⟨3, 1, verts, ns, [0, 1, 2]⟩ v = faceNormal sqrtf verts [0, 1, 2] 0 := by
  unfold cornerSum
  simp only [Finset.sum_range_succ, Finset.sum_range_zero, zero_add]
  interval_cases v <;> simp

theorem cornerSum_unreferenced (sqrtf : α → α) (mesh : Mesh α) (hwf : mesh.WellFormed)
    (v : Nat) (hv : v ∉ mesh.indices) : cornerSum sqrtf mesh v = 0 := by
  unfold cornerSum
  apply Finset.sum_eq_zero
  intro t ht
  apply Finset.sum_eq_zero
  intro j hj
  rw [Finset.mem_range] at ht hj
  rw [if_neg]
  intro h
  apply hv
  have hlt : t * 3 + j < mesh.indices.length := by
    rw [hwf.2.1]
    omega
  rw [List.getD_eq_getElem?_getD, List.getElem?_eq_getElem hlt] at h
  rw [← h]
  exact List.getElem_mem _

theorem sum_single_corner (T t1 j1 : Nat) (w : Vector3 α) (ht1 : t1 < T) (hj1 : j1 < 3) :
    (∑ t ∈ Finset.range T, ∑ j ∈ Finset.range 3, if t = t1 ∧ j = j1 then w else 0) = w := by
  rw [Finset.sum_eq_single t1]
  · rw [Finset.sum_eq_single j1]
    · simp
    · intro j _ hj
      simp [hj]
    · intro h
      exact absurd (Finset.mem_range.mpr hj1) h
  · intro t _ ht
    apply Finset.sum_eq_zero
    intro j _
    simp [ht]
  · intro h
    exact absurd (Finset.mem_range.mpr ht1) h

theorem cornerSum_two_corners (sqrtf : α → α) (mesh : Mesh α) (v t1 t2 j1 j2 : Nat)
    (ht1 : t1 < mesh.triangleCount) (ht2 : t2 < mesh.triangleCount)
    (hj1 : j1 < 3) (hj2 : j2 < 3) (hne : t1 ≠ t2)
    (hshared : ∀ t j, t < mesh.triangleCount → j < 3 →
      (mesh.indices.getD (t * 3 + j) 0 = v ↔ (t = t1 ∧ j = j1) ∨ (t = t2 ∧ j = j2))) :
    cornerSum sqrtf mesh v
      = faceNormal sqrtf mesh.vertices mesh.indices t1
        + faceNormal sqrtf mesh.vertices mesh.indices t2 := by
  unfold cornerSum
  have e : ∀ t ∈ Finset.range mesh.triangleCount, ∀ j ∈ Finset.range 3,
      (if mesh.indices.getD (t * 3 + j) 0 = v then
          faceNormal sqrtf mesh.vertices mesh.indices t else 0)
        = (if t = t1 ∧ j = j1 then faceNormal sqrtf mesh.vertices mesh.indices t1 else 0)
          + (if t = t2 ∧ j = j2 then faceNormal sqrtf mesh.vertices mesh.indices t2 else 0) := by
    intro t ht j hj
    rw [Finset.mem_range] at ht hj
    have h := hshared t j ht hj
    by_cases c1 : t = t1 ∧ j = j1
    · have c2 : ¬ (t = t2 ∧ j = j2) := fun c => hne (c1.1.symm.trans c.1)
      rw [if_pos (h.mpr (Or.inl c1)), if_pos c1, if_neg c2, add_zero, c1.1]
    · by_cases c2 : t = t2 ∧ j = j2
      · rw [if_pos (h.mpr (Or.inr c2)), if_neg c1, if_pos c2, zero_add, c2.1]
      · rw [if_neg (fun c => (h.mp c).elim c1 c2), if_neg c1, if_neg c2, add_zero]
  rw [Finset.sum_congr rfl (fun t ht => Finset.sum_congr rfl (fun j hj => e t ht j hj))]
  simp only [Finset.sum_add_distrib]
  rw [sum_single_corner _ t1 j1 _ ht1 hj1, sum_single_corner _ t2 j2 _ ht2 hj2]

/-! ### NormalizeMesh -/

theorem rescaleLoop_spec (verts : List α) (n : Nat) (center : Vector3 α) (scale : α)
    (hlen : verts.length = n * 3) :
    (rescaleLoop verts n center scale).length = n * 3 ∧
    ∀ i, i < n → vec3At (rescaleLoop verts n center scale) i
      = Vector3Scale (Vector3Subtract (vec3At verts i) center) scale := by
  have h := mapLoop_spec (fun p => Vector3Scale (Vector3Subtract p center) scale) verts n n
    hlen (Nat.le_refl n)
  refine ⟨h.1, fun i hi => ?_⟩
  have := h.2 i
  rw [if_pos hi] at this
  exact this

theorem NormalizeMesh_of_scale (sqrtf : α → α) (mesh : Mesh α) (scale : α)
    (h : normalizeScale sqrtf mesh = some scale) :
    NormalizeMesh sqrtf mesh = some { mesh with
      vertices := rescaleLoop mesh.vertices mesh.vertexCount (normalizeCenter mesh) scale } := by
  unfold NormalizeMesh
  rw [h]

theorem fdiv1_of_ne (x : α) (h : x ≠ 0) : fdiv1 x = some (1 / x) := by
  unfold fdiv1
  rw [if_neg h]

theorem sub_ne_zero_of_ne_vec (lo hi : Vector3 α) (h : lo ≠ hi) : Vector3Subtract hi lo ≠ 0 := by
  intro e
  apply h
  have ex := congrArg Vector3.x e
  have ey := congrArg Vector3.y e
  have ez := congrArg Vector3.z e
  simp only [Vector3Subtract, Vector3.zero_x, Vector3.zero_y, Vector3.zero_z] at ex ey ez
  ext
  · exact (sub_eq_zero.mp ex).symm
  · exact (sub_eq_zero.mp ey).symm
  · exact (sub_eq_zero.mp ez).symm

theorem ExactSqrt.length_pos {sqrtf : α → α} (hs : ExactSqrt sqrtf) (v : Vector3 α)
    (hv : v ≠ 0) : 0 < Vector3Length sqrtf v :=
  lt_of_le_of_ne (hs _ (normSq_nonneg v)).1 (fun h => hv ((hs.length_eq_zero v).mp h.symm))

theorem ExactSqrt.length_mul_self {sqrtf : α → α} (hs : ExactSqrt sqrtf) (v : Vector3 α) :
    Vector3Length sqrtf v * Vector3Length sqrtf v = v.x * v.x + v.y * v.y + v.z * v.z :=
  (hs _ (normSq_nonneg v)).2

/-! ### Characters and fields -/

theorem isSpace_of_isDigit (c : Char) (h : isDigit c = true) : isSpace c = false := by
  simp only [isDigit, Bool.and_eq_true, decide_eq_true_eq] at h
  simp only [isSpace, Bool.or_eq_false_iff, Bool.and_eq_false_imp, decide_eq_false_iff_not,
    decide_eq_true_eq]
  omega

theorem isDigit_of_isSpace (c : Char) (h : isSpace c = true) : isDigit c = false := by
  cases hd : isDigit c
  · rfl
  · rw [isSpace_of_isDigit c hd] at h
    exact absurd h (by decide)

theorem ne_of_isDigit (c d : Char) (h : isDigit c = true) (hd : isDigit d = false) : c ≠ d := by
  intro e
  rw [e, hd] at h
  exact absurd h (by decide)

theorem ne_of_isSpace (c d : Char) (h : isSpace c = true) (hd : isSpace d = false) : c ≠ d := by
  intro e
  rw [e, hd] at h
  exact absurd h (by decide)

theorem skipWs_blank (w r : List Char) (hw : isBlank w = true) : skipWs (w ++ r) = skipWs r := by
  induction w with
  | nil => rfl
  | cons c cs ih =>
    simp only [isBlank, List.all_cons, Bool.and_eq_true] at hw
    rw [List.cons_append,
      show skipWs (c :: (cs ++ r)) = (if isSpace c then skipWs (cs ++ r) else c :: (cs ++ r))
        from rfl,
      if_pos hw.1]
    exact ih hw.2

theorem skipWs_nonspace (c : Char) (cs : List Char) (h : isSpace c = false) :
    skipWs (c :: cs) = c :: cs := by
  rw [show skipWs (c :: cs) = (if isSpace c then skipWs cs else c :: cs) from rfl, h]
  rfl

theorem spanDigits_append (ds rest : List Char) (hds : allDigits ds = true)
    (hrest : headIs isDigit rest = false) : spanDigits (ds ++ rest) = (ds, rest) := by
  induction ds with
  | nil =>
    cases rest with
    | nil => rfl
    | cons c cs =>
      show spanDigits (c :: cs) = _
      unfold spanDigits
      have : isDigit c = false := hrest
      rw [this]
      rfl
  | cons c cs ih =>
    simp only [allDigits, List.all_cons, Bool.and_eq_true] at hds
    show spanDigits (c :: (cs ++ rest)) = _
    unfold spanDigits
    rw [if_pos hds.1, ih hds.2]

theorem headIs_of_delimits (p : Char → Bool) (rest : List Char) (h : delimits rest = true)
    (hp : ∀ c, isSpace c = true → p c = false) : headIs p rest = false := by
  cases rest with
  | nil => rfl
  | cons c cs => exact hp c h

theorem delimits_lead_append (lead rest : List Char) (hb : isBlank lead = true)
    (hne : lead.isEmpty = false) : delimits (lead ++ rest) = true := by
  cases lead with
  | nil => exact absurd hne (by decide)
  | cons c cs =>
    simp only [isBlank, List.all_cons, Bool.and_eq_true] at hb
    exact hb.1

theorem getline_header (rest : List Char) :
    getline ⟨"OFF".toList ++ (newline :: rest), false⟩ = ("OFF".toList, ⟨rest, false⟩) := by
  rfl

theorem afterLine_append (junk rest : List Char) (h : junk.all (fun c => c != newline) = true) :
    afterLine (junk ++ (newline :: rest)) = some rest := by
  induction junk with
  | nil =>
    show afterLine (newline :: rest) = _
    unfold afterLine
    rw [if_pos rfl]
  | cons c cs ih =>
    simp only [List.all_cons, Bool.and_eq_true, bne_iff_ne, ne_eq] at h
    show afterLine (c :: (cs ++ (newline :: rest))) = _
    unfold afterLine
    rw [if_neg h.1]
    exact ih (by simpa using h.2)

theorem ignoreLine_append (junk rest : List Char) (h : junk.all (fun c => c != newline) = true) :
    ignoreLine ⟨junk ++ (newline :: rest), false⟩ = ⟨rest, false⟩ := by
  unfold ignoreLine
  simp only [Bool.false_eq_true, if_false]
  rw [afterLine_append junk rest h]

theorem takeSign_digit (c : Char) (cs : List Char) (h : isDigit c = true) :
    takeSign (c :: cs) = (false, c :: cs) := by
  rw [show takeSign (c :: cs)
      = (if c = '-' then (true, cs) else if c = '+' then (false, cs) else (false, c :: cs))
      from rfl,
    if_neg (ne_of_isDigit c '-' h (by decide)), if_neg (ne_of_isDigit c '+' h (by decide))]

theorem NumField.wf_num (f : NumField) (sep : Bool) (h : f.wf sep = true) :
    isBlank f.lead = true ∧ (sep = true → f.lead.isEmpty = false) ∧
    (∃ c cs, f.digits = c :: cs ∧ isDigit c = true) ∧ allDigits f.digits = true := by
  simp only [NumField.wf, Bool.and_eq_true, Bool.or_eq_true, Bool.not_eq_true'] at h
  obtain ⟨⟨⟨h1, h2⟩, h3⟩, h4⟩ := h
  refine ⟨h1, fun hs => ?_, ?_, h4⟩
  · rcases h2 with h2 | h2
    · rw [hs] at h2
      exact absurd h2 (by decide)
    · exact h2
  · cases hd : f.digits with
    | nil =>
      rw [hd] at h3
      exact absurd h3 (by decide)
    | cons c cs =>
      rw [hd] at h4
      simp only [allDigits, List.all_cons, Bool.and_eq_true] at h4
      exact ⟨c, cs, rfl, h4.1⟩

theorem extractInt_field (f : NumField) (sep : Bool) (rest : List Char) (hf : f.wf sep = true)
    (hrest : headIs isDigit rest = false) (hv : (f.value : Int) ≤ INT_MAX) :
    extractInt ⟨f.text ++ rest, false⟩ = (some (f.value : Int), ⟨rest, false⟩) := by
  obtain ⟨hb, _, ⟨c, cs, hd, hc⟩, had⟩ := f.wf_num sep hf
  have hsp := spanDigits_append f.digits rest had hrest
  unfold extractInt NumField.text
  simp only [Bool.false_eq_true, if_false]
  rw [List.append_assoc, skipWs_blank _ _ hb]
  rw [hd] at hsp ⊢
  rw [List.cons_append, skipWs_nonspace _ _ (isSpace_of_isDigit c hc)]
  simp only [takeSign_digit c _ hc]
  rw [← List.cons_append, hsp]
  have hv2 : (decimalValue (c :: cs) : Int) ≤ INT_MAX := by
    have := hv
    unfold NumField.value at this
    rwa [hd] at this
  have hv3 : ¬ ((decimalValue (c :: cs) : Int) < INT_MIN) := by
    have : (0 : Int) ≤ (decimalValue (c :: cs) : Int) := Int.ofNat_nonneg _
    unfold INT_MIN
    omega
  simp only [List.isEmpty_cons, Bool.false_eq_true, if_false, hv3, not_lt.mpr hv2]
  unfold NumField.value
  rw [hd]

theorem extractUInt_field (f : NumField) (sep : Bool) (rest : List Char) (hf : f.wf sep = true)
    (hrest : headIs isDigit rest = false) (hv : f.value ≤ UINT_MAX) :
    extractUInt ⟨f.text ++ rest, false⟩ = (some f.value, ⟨rest, false⟩) := by
  obtain ⟨hb, _, ⟨c, cs, hd, hc⟩, had⟩ := f.wf_num sep hf
  have hsp := spanDigits_append f.digits rest had hrest
  unfold extractUInt NumField.text
  simp only [Bool.false_eq_true, if_false]
  rw [List.append_assoc, skipWs_blank _ _ hb]
  rw [hd] at hsp ⊢
  rw [List.cons_append, skipWs_nonspace _ _ (isSpace_of_isDigit c hc)]
  simp only [takeSign_digit c _ hc]
  rw [← List.cons_append, hsp]
  have hv2 : ¬ (UINT_MAX < decimalValue (c :: cs)) := by
    have := hv
    unfold NumField.value at this
    rw [hd] at this
    omega
  simp only [List.isEmpty_cons, Bool.false_eq_true, if_false, hv2]
  unfold NumField.value
  rw [hd]

theorem takeSign_sign (s tail : List Char) (hs : isSign s = true)
    (ht : ∃ c cs, tail = c :: cs ∧ isDigit c = true) :
    takeSign (s ++ tail) = (decide (s = ['-']), tail) := by
  obtain ⟨c, cs, rfl, hc⟩ := ht
  simp only [isSign, Bool.or_eq_true, decide_eq_true_eq] at hs
  rcases hs with (rfl | rfl) | rfl
  · rw [List.nil_append, takeSign_digit c cs hc]
    rfl
  · rfl
  · rfl

theorem takeFraction_spec (fr : Option (List Char)) (Y : List Char)
    (hfr : ∀ d, fr = some d → allDigits d = true)
    (hY1 : headIs isDigit Y = false) (hY2 : headIs (fun c => c = '.') Y = false) :
    takeFraction (fracText fr ++ Y) = (fr, Y) := by
  cases fr with
  | none =>
    cases Y with
    | nil => rfl
    | cons c cs =>
      have hc : c ≠ '.' := by
        have h : decide (c = '.') = false := hY2
        exact of_decide_eq_false h
      show (if c = '.' then _ else _) = _
      rw [if_neg hc]
  | some d =>
    have ht : fracText (some d) ++ Y = '.' :: (d ++ Y) := rfl
    rw [ht]
    simp only [takeFraction, if_true, spanDigits_append d Y (hfr d rfl) hY1]

theorem takeExponent_spec (ex : Option (Char × List Char × List Char)) (rest : List Char)
    (hex : ∀ e s d, ex = some (e, s, d) →
      (e = 'e' ∨ e = 'E') ∧ isSign s = true ∧ d.isEmpty = false ∧ allDigits d = true)
    (hrest : delimits rest = true) :
    takeExponent (expoText ex ++ rest)
      = (ex.map (fun p => (decide (p.2.1 = ['-']), p.2.2)), rest) := by
  cases ex with
  | none =>
    cases rest with
    | nil => rfl
    | cons c cs =>
      have hsp : isSpace c = true := hrest
      have h1 : c ≠ 'e' := ne_of_isSpace c 'e' hsp (by decide)
      have h2 : c ≠ 'E' := ne_of_isSpace c 'E' hsp (by decide)
      show (if (c = 'e' || c = 'E') = true then _ else _) = _
      rw [if_neg (by simp [h1, h2])]
      rfl
  | some p =>
    obtain ⟨e, s, d⟩ := p
    obtain ⟨he, hs, hne, hd⟩ := hex e s d rfl
    have hdc : ∃ c cs, d ++ rest = c :: cs ∧ isDigit c = true := by
      cases d with
      | nil => exact absurd hne (by decide)
      | cons c cs =>
        simp only [allDigits, List.all_cons, Bool.and_eq_true] at hd
        exact ⟨c, cs ++ rest, rfl, hd.1⟩
    have hrd : headIs isDigit rest = false :=
      headIs_of_delimits isDigit rest hrest isDigit_of_isSpace
    have ht : expoText (some (e, s, d)) ++ rest = e :: (s ++ (d ++ rest)) := by
      simp [expoText]
    rw [ht]
    show (if (e = 'e' || e = 'E') = true then _ else _) = _
    rw [if_pos (by rcases he with h | h <;> simp [h])]
    simp only [takeSign_sign s (d ++ rest) hs hdc, spanDigits_append d rest hd hrd]
    rfl

theorem FloatField.wf_float (f : FloatField) (h : f.wf = true) :
    isBlank f.lead = true ∧ f.lead.isEmpty = false ∧ isSign f.sign = true ∧
    f.intPart.isEmpty = false ∧ allDigits f.intPart = true ∧
    (∀ d, f.frac = some d → allDigits d = true) ∧
    (∀ e s d, f.expo = some (e, s, d) →
      (e = 'e' ∨ e = 'E') ∧ isSign s = true ∧ d.isEmpty = false ∧ allDigits d = true) ∧
    floatOverflows f.intPart f.frac
      (f.expo.map (fun p => (decide (p.2.1 = ['-']), p.2.2))) = false := by
  simp only [FloatField.wf, Bool.and_eq_true, Bool.not_eq_true'] at h
  obtain ⟨⟨⟨⟨⟨⟨⟨h1, h2⟩, h3⟩, h4⟩, h5⟩, h6⟩, h7⟩, h8⟩ := h
  refine ⟨h1, h2, h3, h4, h5, ?_, ?_, h8⟩
  · intro d hd
    rw [hd] at h6
    exact h6
  · intro e s d hd
    rw [hd] at h7
    simp only [Bool.and_eq_true, Bool.or_eq_true, decide_eq_true_eq, Bool.not_eq_true'] at h7
    exact ⟨h7.1.1.1, h7.1.1.2, h7.1.2, h7.2⟩

theorem extractFloat_field (f : FloatField) (rest : List Char) (hf : f.wf = true)
    (hrest : delimits rest = true) :
    ∃ v : α, extractFloat ⟨f.text ++ rest, false⟩ = (some v, ⟨rest, false⟩) := by
  obtain ⟨hb, _, hs, hne, hd, hfr, hex, hov⟩ := f.wf_float hf
  obtain ⟨c0, cs0, hi0, hc0⟩ : ∃ c cs, f.intPart = c :: cs ∧ isDigit c = true := by
    cases hi : f.intPart with
    | nil =>
      rw [hi] at hne
      exact absurd hne (by decide)
    | cons c cs =>
      rw [hi] at hd
      simp only [allDigits, List.all_cons, Bool.and_eq_true] at hd
      exact ⟨c, cs, rfl, hd.1⟩
  -- the text after the exponent
  have hE := takeExponent_spec f.expo rest hex hrest
  -- the text after the fraction
  have hY1 : headIs isDigit (expoText f.expo ++ rest) = false := by
    cases he : f.expo with
    | none => exact headIs_of_delimits isDigit rest hrest isDigit_of_isSpace
    | some p =>
      obtain ⟨e, s, d⟩ := p
      rcases (hex e s d he).1 with h | h <;> subst h <;> rfl
  have hY2 : headIs (fun c => decide (c = '.')) (expoText f.expo ++ rest) = false := by
    cases he : f.expo with
    | none =>
      exact headIs_of_delimits _ rest hrest
        (fun c hc => decide_eq_false (ne_of_isSpace c '.' hc (by decide)))
    | some p =>
      obtain ⟨e, s, d⟩ := p
      rcases (hex e s d he).1 with h | h <;> subst h <;> rfl
  have hF := takeFraction_spec f.frac (expoText f.expo ++ rest) hfr hY1 hY2
  -- the text after the integer part
  have hX : headIs isDigit (fracText f.frac ++ (expoText f.expo ++ rest)) = false := by
    cases f.frac with
    | none => exact hY1
    | some d => rfl
  have hI := spanDigits_append f.intPart _ hd hX
  have hS := takeSign_sign f.sign (f.intPart ++ (fracText f.frac ++ (expoText f.expo ++ rest)))
    hs ⟨c0, cs0 ++ _, by rw [hi0]; rfl, hc0⟩
  -- the first character is not whitespace
  obtain ⟨c1, cs1, hbody, hc1⟩ : ∃ c cs,
      f.sign ++ (f.intPart ++ (fracText f.frac ++ (expoText f.expo ++ rest))) = c :: cs ∧
      isSpace c = false := by
    simp only [isSign, Bool.or_eq_true, decide_eq_true_eq] at hs
    rcases hs with (h | h) | h
    · rw [h, hi0]
      exact ⟨c0, _, rfl, isSpace_of_isDigit c0 hc0⟩
    · rw [h]
      exact ⟨'-', _, rfl, by decide⟩
    · rw [h]
      exact ⟨'+', _, rfl, by decide⟩
  have htext : f.text ++ rest
      = f.lead ++ (f.sign ++ (f.intPart ++ (fracText f.frac ++ (expoText f.expo ++ rest)))) := by
    unfold FloatField.text
    simp only [List.append_assoc]
  unfold extractFloat
  simp only [Bool.false_eq_true, if_false]
  rw [htext, skipWs_blank _ _ hb, hbody, skipWs_nonspace _ _ hc1]
  simp only []
  rw [← hbody, hS]
  simp only [hI, hF, hE]
  have hnm : (f.intPart.isEmpty && (f.frac.getD []).isEmpty) = false := by
    rw [hne]
    rfl
  have hnx : (match Option.map (fun p => (decide (p.2.1 = ['-']), p.2.2)) f.expo with
      | some (_, e) => e.isEmpty
      | none => false) = false := by
    cases he : f.expo with
    | none => rfl
    | some p =>
      obtain ⟨e, s, d⟩ := p
      exact (hex e s d he).2.2.1
  rw [hnm, hnx, hov]
  exact ⟨_, rfl⟩

/-! ### The loops of the loader on well-formed text -/

theorem delimits_floatText (f : FloatField) (rest : List Char) (hf : f.wf = true) :
    delimits (f.text ++ rest) = true := by
  obtain ⟨hb, hne, _⟩ := f.wf_float hf
  unfold FloatField.text
  rw [List.append_assoc]
  exact delimits_lead_append _ _ hb hne

theorem delimits_verticesText (vs : List VertexRecord) (rest : List Char)
    (hvs : vs.all VertexRecord.wf = true) (hrest : delimits rest = true) :
    delimits (verticesText vs ++ rest) = true := by
  cases vs with
  | nil => exact hrest
  | cons v vs =>
    simp only [List.all_cons, Bool.and_eq_true, VertexRecord.wf] at hvs
    unfold verticesText VertexRecord.text
    simp only [List.append_assoc]
    exact delimits_floatText _ _ hvs.1.1.1

theorem readVertices_wf (vs : List VertexRecord) (rest : List Char)
    (hvs : vs.all VertexRecord.wf = true) (hrest : delimits rest = true) :
    ∃ vals : List (Vector3 α),
      readVertices vs.length ⟨verticesText vs ++ rest, false⟩ = (vals, ⟨rest, false⟩) ∧
      vals.length = vs.length := by
  induction vs with
  | nil => exact ⟨[], rfl, rfl⟩
  | cons v vs ih =>
    simp only [List.all_cons, Bool.and_eq_true] at hvs
    obtain ⟨hv, hvs2⟩ := hvs
    obtain ⟨vals, hvals, hlen⟩ := ih hvs2
    have hv2 := hv
    simp only [VertexRecord.wf, Bool.and_eq_true] at hv2
    obtain ⟨⟨hx, hy⟩, hz⟩ := hv2
    have dr := delimits_verticesText vs rest hvs2 hrest
    obtain ⟨z, hz2⟩ := @extractFloat_field α _ v.z (verticesText vs ++ rest) hz dr
    obtain ⟨y, hy2⟩ := @extractFloat_field α _ v.y (v.z.text ++ (verticesText vs ++ rest)) hy
      (delimits_floatText _ _ hz)
    obtain ⟨x, hx2⟩ := @extractFloat_field α _ v.x
      (v.y.text ++ (v.z.text ++ (verticesText vs ++ rest))) hx (delimits_floatText _ _ hy)
    have htext : verticesText (v :: vs) ++ rest
        = v.x.text ++ (v.y.text ++ (v.z.text ++ (verticesText vs ++ rest))) := by
      simp only [verticesText, VertexRecord.text, List.append_assoc]
    refine ⟨⟨x, y, z⟩ :: vals, ?_, by simp [hlen]⟩
    rw [htext]
    show readVertices (vs.length + 1) _ = _
    unfold readVertices
    simp only [hx2, hy2, hz2, hvals, Option.getD_some]

theorem delimits_facesText (fs : List FaceRecord) (trailer : List Char)
    (h : facesWf true fs trailer = true) : delimits (facesText fs ++ trailer) = true := by
  cases fs with
  | nil => simpa [facesWf] using h
  | cons f fs =>
    cases f with
    | triangle k a b c =>
      simp only [facesWf, Bool.and_eq_true] at h
      obtain ⟨hb, hne, _⟩ := k.wf_num true h.1.1.1.1.1.1.1.1
      simp only [facesText, FaceRecord.text, NumField.text, List.append_assoc]
      exact delimits_lead_append _ _ hb (hne rfl)
    | polygon k rest =>
      simp only [facesWf, Bool.and_eq_true] at h
      obtain ⟨hb, hne, _⟩ := k.wf_num true h.1.1.1.1.1
      simp only [facesText, FaceRecord.text, NumField.text, List.append_assoc]
      exact delimits_lead_append _ _ hb (hne rfl)

theorem noDigit_numText (f : NumField) (rest : List Char) (hf : f.wf true = true) :
    headIs isDigit (f.text ++ rest) = false := by
  obtain ⟨hb, hne, _⟩ := f.wf_num true hf
  unfold NumField.text
  rw [List.append_assoc]
  exact headIs_of_delimits isDigit _ (delimits_lead_append _ _ hb (hne rfl)) isDigit_of_isSpace

theorem readFaces_wf (u : Indet) (fs : List FaceRecord) (trailer : List Char) (sep : Bool)
    (h : facesWf sep fs trailer = true) (i : Nat) :
    readFaces u fs.length i ⟨facesText fs ++ trailer, false⟩
      = ((fs.map FaceRecord.indices).flatten,
          List.replicate (fs.filter (fun f => !f.isTriangle)).length skipWarning,
          ⟨trailer, false⟩) := by
  induction fs generalizing sep i with
  | nil => rfl
  | cons f fs ih =>
    cases f with
    | triangle k a b c =>
      simp only [facesWf, Bool.and_eq_true, beq_iff_eq, decide_eq_true_eq] at h
      obtain ⟨⟨⟨⟨⟨⟨⟨⟨hk, hk3⟩, ha⟩, hb⟩, hc⟩, hav⟩, hbv⟩, hcv⟩, hfs⟩ := h
      have htext : facesText (.triangle k a b c :: fs) ++ trailer
          = k.text ++ (a.text ++ (b.text ++ (c.text ++ (facesText fs ++ trailer)))) := by
        simp only [facesText, FaceRecord.text, List.append_assoc]
      have hk2 := extractInt_field k sep _ hk (noDigit_numText a
        (b.text ++ (c.text ++ (facesText fs ++ trailer))) ha)
        (by rw [hk3]; decide)
      have ha2 := extractUInt_field a true _ ha (noDigit_numText b
        (c.text ++ (facesText fs ++ trailer)) hb) hav
      have hb2 := extractUInt_field b true _ hb (noDigit_numText c
        (facesText fs ++ trailer) hc) hbv
      have hc2 := extractUInt_field c true (facesText fs ++ trailer) hc
        (headIs_of_delimits isDigit _ (delimits_facesText fs trailer hfs) isDigit_of_isSpace) hcv
      rw [htext]
      show readFaces u (fs.length + 1) i _ = _
      unfold readFaces
      simp only [hk2, hk3, ha2, hb2, hc2, Option.getD_some, Nat.cast_ofNat, ne_eq,
        not_true_eq_false, if_false, ih true hfs (i + 1)]
      simp [FaceRecord.indices, FaceRecord.isTriangle]
    | polygon k rest =>
      simp only [facesWf, Bool.and_eq_true, bne_iff_ne, ne_eq, decide_eq_true_eq,
        Bool.not_eq_true'] at h
      obtain ⟨⟨⟨⟨⟨hk, hk3⟩, hkv⟩, hnl⟩, hnd⟩, hfs⟩ := h
      have htext : facesText (.polygon k rest :: fs) ++ trailer
          = k.text ++ (rest ++ (newline :: (facesText fs ++ trailer))) := by
        simp only [facesText, FaceRecord.text, List.append_assoc, List.singleton_append,
          List.cons_append, List.nil_append]
      have hnd2 : headIs isDigit (rest ++ (newline :: (facesText fs ++ trailer))) = false := by
        cases rest with
        | nil => rfl
        | cons c cs => exact hnd
      have hk2 := extractInt_field k sep _ hk hnd2 hkv
      have hne : ¬ ((k.value : Int) = 3) := by
        intro e
        exact hk3 (by exact_mod_cast e)
      rw [htext]
      show readFaces u (fs.length + 1) i _ = _
      unfold readFaces
      simp only [hk2, Option.getD_some, ne_eq, hne, not_false_eq_true, if_true,
        ignoreLine_append rest _ hnl, ih false hfs (i + 1)]
      simp [FaceRecord.indices, FaceRecord.isTriangle, List.replicate_succ]

/-! ### The loader -/

theorem length_flatten3 (vs : List (Vector3 α)) : (flatten3 vs).length = vs.length * 3 := by
  induction vs with
  | nil => rfl
  | cons v vs ih =>
    simp only [flatten3, List.length_cons, ih]
    omega

theorem length_readFaces (u : Indet) (n i : Nat) (s : IStream) :
    ∃ t, (readFaces u n i s).1.length = t * 3 := by
  induction n generalizing i s with
  | zero => exact ⟨0, rfl⟩
  | succ n ih =>
    unfold readFaces
    simp only []
    split_ifs
    · exact ih _ _
    · obtain ⟨t, ht⟩ := ih (i + 1) (extractUInt (extractUInt (extractUInt (extractInt s).2).2).2).2
      exact ⟨t + 1, by simp only [List.length_cons, ht]; omega⟩

theorem log_readFaces (u : Indet) (n i : Nat) (s : IStream) :
    ∀ e ∈ (readFaces u n i s).2.1, e = skipWarning := by
  induction n generalizing i s with
  | zero =>
    intro e he
    exact absurd he (List.not_mem_nil e)
  | succ n ih =>
    unfold readFaces
    simp only []
    split_ifs
    · intro e he
      rcases List.mem_cons.mp he with h | h
      · exact h
      · exact ih _ _ e h
    · exact ih _ _

theorem buildMesh_shape (u : Indet) (s : IStream) (mesh : Mesh α) (log : List LogEntry)
    (h : buildMesh u s = some (mesh, log)) :
    mesh.vertices.length = mesh.vertexCount * 3 ∧
    mesh.indices.length = mesh.triangleCount * 3 ∧
    mesh.normals = [] ∧ ∀ e ∈ log, e = skipWarning := by
  unfold buildMesh at h
  simp only [] at h
  split_ifs at h
  simp only [Option.some.injEq, Prod.mk.injEq] at h
  obtain ⟨hm, hl⟩ := h
  subst hm hl
  refine ⟨length_flatten3 _, ?_, rfl, log_readFaces _ _ _ _⟩
  obtain ⟨t, ht⟩ := length_readFaces u
    ((extractInt (extractInt s).2).1.getD u.numFaces).toNat 0
    (@readVertices α _ ((extractInt s).1.getD u.numVertices).toNat
      (extractInt (extractInt (extractInt s).2).2).2).2
  simp only [List.length_map, ht]
  omega

theorem length_foldl_accumulate (sqrtf : α → α) (verts : List α) (indices : List Nat)
    (buf : List α) (l : List Nat) :
    (l.foldl (accumulateStep sqrtf verts indices) buf).length = buf.length := by
  induction l generalizing buf with
  | nil => rfl
  | cons t l ih =>
    rw [List.foldl_cons, ih]
    simp only [accumulateStep, List.foldl_cons, List.foldl_nil, length_addVec3]

theorem length_foldl_normalize (sqrtf : α → α) (buf : List α) (l : List Nat) :
    (l.foldl (normalizeStep sqrtf) buf).length = buf.length := by
  induction l generalizing buf with
  | nil => rfl
  | cons t l ih =>
    rw [List.foldl_cons, ih]
    simp only [normalizeStep, length_setVec3]

theorem length_normals_ComputeMeshNormals (sqrtf : α → α) (mesh : Mesh α) :
    (ComputeMeshNormals sqrtf mesh).normals.length = mesh.vertexCount * 3 := by
  unfold ComputeMeshNormals accumulateNormals
  simp only [length_foldl_normalize, length_foldl_accumulate, List.length_replicate]

theorem NormalizeMesh_frame (sqrtf : α → α) (mesh m : Mesh α)
    (h : NormalizeMesh sqrtf mesh = some m) :
    m.vertexCount = mesh.vertexCount ∧ m.triangleCount = mesh.triangleCount ∧
    m.normals = mesh.normals ∧ m.indices = mesh.indices := by
  unfold NormalizeMesh at h
  split at h
  · simp only [Option.some.injEq] at h
    subst h
    exact ⟨rfl, rfl, rfl, rfl⟩
  · split_ifs at h
    simp only [Option.some.injEq] at h
    subst h
    exact ⟨rfl, rfl, rfl, rfl⟩

theorem finishMesh_frame (sqrtf : α → α) (mesh : Mesh α) (log : List LogEntry) :
    (finishMesh sqrtf mesh log).log = log ∧
    (finishMesh sqrtf mesh log).mesh.vertexCount = mesh.vertexCount ∧
    (finishMesh sqrtf mesh log).mesh.triangleCount = mesh.triangleCount ∧
    (finishMesh sqrtf mesh log).mesh.indices = mesh.indices ∧
    (finishMesh sqrtf mesh log).mesh.normals = (ComputeMeshNormals sqrtf mesh).normals := by
  unfold finishMesh
  simp only []
  cases h : NormalizeMesh sqrtf (ComputeMeshNormals sqrtf mesh) with
  | none => exact ⟨rfl, rfl, rfl, rfl, rfl⟩
  | some m =>
    obtain ⟨h1, h2, h3, h4⟩ := NormalizeMesh_frame sqrtf _ m h
    exact ⟨rfl, h1, h2, h4, h3⟩

theorem OffDoc.wf_doc (d : OffDoc) (h : d.wf = true) :
    d.nV.wf false = true ∧ d.nF.wf true = true ∧ d.nE.wf true = true ∧
    (d.nV.value : Int) ≤ INT_MAX ∧ (d.nF.value : Int) ≤ INT_MAX ∧ (d.nE.value : Int) ≤ INT_MAX ∧
    d.vertices.length = d.nV.value ∧ d.faces.length = d.nF.value ∧
    d.vertices.all VertexRecord.wf = true ∧ facesWf true d.faces d.trailer = true := by
  simp only [OffDoc.wf, Bool.and_eq_true, decide_eq_true_eq, beq_iff_eq] at h
  obtain ⟨⟨⟨⟨⟨⟨⟨⟨⟨h1, h2⟩, h3⟩, h4⟩, h5⟩, h6⟩, h7⟩, h8⟩, h9⟩, h10⟩ := h
  exact ⟨h1, h2, h3, h4, h5, h6, h7, h8, h9, h10⟩

theorem length_fileIndices (fs : List FaceRecord) :
    (fs.map FaceRecord.indices).flatten.length = (fs.filter FaceRecord.isTriangle).length * 3 := by
  induction fs with
  | nil => rfl
  | cons f fs ih =>
    cases f with
    | triangle k a b c =>
      simp only [List.map_cons, List.flatten_cons, List.length_append, ih, FaceRecord.indices,
        FaceRecord.isTriangle, List.filter_cons_of_pos, List.length_cons, List.length_nil]
      omega
    | polygon k rest =>
      simp only [List.map_cons, List.flatten_cons, List.length_append, ih, FaceRecord.indices,
        FaceRecord.isTriangle, List.length_nil, Bool.false_eq_true, not_false_eq_true,
        List.filter_cons_of_neg, zero_add]

theorem buildMesh_wf (u : Indet) (d : OffDoc) (h : d.wf = true) :
    ∃ vals : List (Vector3 α), vals.length = d.nV.value ∧
      buildMesh u ⟨d.nV.text ++ (d.nF.text ++ (d.nE.text ++
          (verticesText d.vertices ++ (facesText d.faces ++ d.trailer)))), false⟩
        = some
            (⟨d.nV.value, (d.faces.filter FaceRecord.isTriangle).length, flatten3 vals, [],
                d.fileIndices.map (fun i => i % 65536)⟩,
              List.replicate (d.faces.filter (fun f => !f.isTriangle)).length skipWarning) := by
  obtain ⟨hV, hF, hE, hVv, hFv, hEv, hvl, hfl, hvs, hfs⟩ := d.wf_doc h
  have dF := delimits_facesText d.faces d.trailer hfs
  have dV := delimits_verticesText d.vertices _ hvs dF
  have e1 := extractInt_field d.nV false _ hV (noDigit_numText d.nF
    (d.nE.text ++ (verticesText d.vertices ++ (facesText d.faces ++ d.trailer))) hF) hVv
  have e2 := extractInt_field d.nF true _ hF (noDigit_numText d.nE
    (verticesText d.vertices ++ (facesText d.faces ++ d.trailer)) hE) hFv
  have e3 := extractInt_field d.nE true
    (verticesText d.vertices ++ (facesText d.faces ++ d.trailer)) hE
    (headIs_of_delimits isDigit _ dV isDigit_of_isSpace) hEv
  obtain ⟨vals, hvals, hlen⟩ := @readVertices_wf α _ d.vertices (facesText d.faces ++ d.trailer)
    hvs dF
  have hfaces := readFaces_wf u d.faces d.trailer true hfs 0
  rw [hvl] at hvals hlen
  rw [hfl] at hfaces
  refine ⟨vals, hlen, ?_⟩
  unfold buildMesh
  simp only [e1, e2, e3, Option.getD_some, Int.toNat_ofNat, hvals, hfaces]
  have hnn : ¬ ((d.nV.value : Int) < 0) := by
    have : (0 : Int) ≤ (d.nV.value : Int) := Int.ofNat_nonneg _
    omega
  rw [if_neg hnn]
  simp only [hlen, length_fileIndices, OffDoc.fileIndices, Nat.mul_div_cancel _ (by decide : 0 < 3)]

theorem LoadMeshFromOFF_wf (sqrtf : α → α) (u : Indet) (fs : String → Option (List Char))
    (filename : String) (d : OffDoc) (h : d.wf = true) (hfile : fs filename = some d.text) :
    ∃ r : LoadResult α, LoadMeshFromOFF sqrtf u fs filename = some r ∧
      r.mesh.vertexCount = d.nV.value ∧
      r.mesh.triangleCount = (d.faces.filter FaceRecord.isTriangle).length ∧
      r.mesh.indices = d.fileIndices.map (fun i => i % 65536) ∧
      r.mesh.normals.length = d.nV.value * 3 ∧
      r.log = List.replicate (d.faces.filter (fun f => !f.isTriangle)).length skipWarning := by
  obtain ⟨vals, hlen, hb⟩ := @buildMesh_wf α _ u d h
  have hg : getline ⟨d.text, false⟩
      = ("OFF".toList, ⟨d.nV.text ++ (d.nF.text ++ (d.nE.text ++
          (verticesText d.vertices ++ (facesText d.faces ++ d.trailer)))), false⟩) :=
    getline_header _
  unfold LoadMeshFromOFF
  rw [hfile]
  simp only [hg, ne_eq, not_true_eq_false, if_false, hb]
  obtain ⟨f1, f2, f3, f4, f5⟩ := finishMesh_frame sqrtf
    (⟨d.nV.value, (d.faces.filter FaceRecord.isTriangle).length, flatten3 vals, [],
      d.fileIndices.map (fun i => i % 65536)⟩ : Mesh α)
    (List.replicate (d.faces.filter (fun f => !f.isTriangle)).length skipWarning)
  refine ⟨_, rfl, f2, f3, f4, ?_, f1⟩
  rw [f5, length_normals_ComputeMeshNormals]

theorem bigDoc_wf : bigDoc.wf = true := by
  have hv : (List.replicate 65537 zeroVertex).all VertexRecord.wf = true :=
    List.all_eq_true.mpr (fun v hv => by
      rw [List.eq_of_mem_replicate hv]
      decide!)
  have hl : (List.replicate 65537 zeroVertex).length = 65537 := List.length_replicate _ _
  have hval : decimalValue "65537".toList = 65537 := by decide
  simp only [OffDoc.wf, bigDoc, NumField.value, hv, hl, hval]
  decide

theorem getline_fst (content : List Char) : (getline ⟨content, false⟩).1 = lineOf content := by
  unfold getline
  simp only [Bool.false_eq_true, if_false]
  cases afterLine content <;> rfl

theorem LoadMeshFromOFF_bad_header (sqrtf : α → α) (u : Indet)
    (fs : String → Option (List Char)) (filename : String) (content : List Char)
    (hfile : fs filename = some content) (hhead : lineOf content ≠ "OFF".toList) :
    LoadMeshFromOFF sqrtf u fs filename
      = some ⟨Mesh.empty, true, [⟨.LOG_ERROR, "Invalid OFF file header."⟩]⟩ := by
  unfold LoadMeshFromOFF
  rw [hfile]
  simp only [getline_fst, ne_eq, hhead, not_false_eq_true, if_true]

theorem LoadMeshFromOFF_not_opened (sqrtf : α → α) (u : Indet)
    (fs : String → Option (List Char)) (filename : String) (hfile : fs filename = none) :
    LoadMeshFromOFF sqrtf u fs filename
      = some ⟨Mesh.empty, true,
          [⟨.LOG_ERROR, "Failed to open .off file: " ++ filename⟩]⟩ := by
  unfold LoadMeshFromOFF
  rw [hfile]

/-! ### The origin-seeded box and the positions after `NormalizeMesh` -/

theorem boundsLoop_isSeededBox (verts : List α) (n : Nat) :
    IsSeededBox verts n (boundsLoop verts n).1 (boundsLoop verts n).2 := by
  obtain ⟨c1, c2, c3, c4, c5, c6⟩ := boundsLoop_components verts n
  have mx := seededMin_spec (fun i => (vec3At verts i).x) n
  have my := seededMin_spec (fun i => (vec3At verts i).y) n
  have mz := seededMin_spec (fun i => (vec3At verts i).z) n
  have Mx := seededMax_spec (fun i => (vec3At verts i).x) n
  have My := seededMax_spec (fun i => (vec3At verts i).y) n
  have Mz := seededMax_spec (fun i => (vec3At verts i).z) n
  rw [← c1] at mx
  rw [← c2] at my
  rw [← c3] at mz
  rw [← c4] at Mx
  rw [← c5] at My
  rw [← c6] at Mz
  exact ⟨⟨mx.1, Mx.1, my.1, My.1, mz.1, Mz.1⟩,
    fun i hi => ⟨mx.2.1 i hi, Mx.2.1 i hi, my.2.1 i hi, My.2.1 i hi, mz.2.1 i hi, Mz.2.1 i hi⟩,
    mx.2.2, Mx.2.2, my.2.2, My.2.2, mz.2.2, Mz.2.2⟩

theorem seededBox_lo_unique (m lo : α) (f : Nat → α) (n : Nat)
    (hm0 : m ≤ 0) (hmle : ∀ i, i < n → m ≤ f i) (hmat : m = 0 ∨ ∃ i, i < n ∧ f i = m)
    (hl0 : lo ≤ 0) (hlle : ∀ i, i < n → lo ≤ f i) (hlat : lo = 0 ∨ ∃ i, i < n ∧ f i = lo) :
    m = lo := by
  apply le_antisymm
  · rcases hlat with h | ⟨i, hi, e⟩
    · rw [h]
      exact hm0
    · rw [← e]
      exact hmle i hi
  · rcases hmat with h | ⟨i, hi, e⟩
    · rw [h]
      exact hl0
    · rw [← e]
      exact hlle i hi

theorem seededBox_hi_unique (m hi : α) (f : Nat → α) (n : Nat)
    (hm0 : 0 ≤ m) (hmle : ∀ i, i < n → f i ≤ m) (hmat : m = 0 ∨ ∃ i, i < n ∧ f i = m)
    (hh0 : 0 ≤ hi) (hhle : ∀ i, i < n → f i ≤ hi) (hhat : hi = 0 ∨ ∃ i, i < n ∧ f i = hi) :
    m = hi := by
  apply le_antisymm
  · rcases hmat with h | ⟨i, hi2, e⟩
    · rw [h]
      exact hh0
    · rw [← e]
      exact hhle i hi2
  · rcases hhat with h | ⟨i, hi2, e⟩
    · rw [h]
      exact hm0
    · rw [← e]
      exact hmle i hi2

theorem IsSeededBox.unique_box {verts : List α} {n : Nat} {lo hi lo2 hi2 : Vector3 α}
    (h : IsSeededBox verts n lo hi) (h2 : IsSeededBox verts n lo2 hi2) :
    lo = lo2 ∧ hi = hi2 := by
  obtain ⟨⟨o1, o2, o3, o4, o5, o6⟩, hb, ax, bx, ay, by1, az, bz⟩ := h
  obtain ⟨⟨p1, p2, p3, p4, p5, p6⟩, hc, cx, dx, cy, dy, cz, dz⟩ := h2
  constructor
  · ext
    · exact seededBox_lo_unique _ _ (fun i => (vec3At verts i).x) n o1 (fun i h => (hb i h).1) ax
        p1 (fun i h => (hc i h).1) cx
    · exact seededBox_lo_unique _ _ (fun i => (vec3At verts i).y) n o3
        (fun i h => (hb i h).2.2.1) ay p3 (fun i h => (hc i h).2.2.1) cy
    · exact seededBox_lo_unique _ _ (fun i => (vec3At verts i).z) n o5
        (fun i h => (hb i h).2.2.2.2.1) az p5 (fun i h => (hc i h).2.2.2.2.1) cz
  · ext
    · exact seededBox_hi_unique _ _ (fun i => (vec3At verts i).x) n o2
        (fun i h => (hb i h).2.1) bx p2 (fun i h => (hc i h).2.1) dx
    · exact seededBox_hi_unique _ _ (fun i => (vec3At verts i).y) n o4
        (fun i h => (hb i h).2.2.2.1) by1 p4 (fun i h => (hc i h).2.2.2.1) dy
    · exact seededBox_hi_unique _ _ (fun i => (vec3At verts i).z) n o6
        (fun i h => (hb i h).2.2.2.2.2) bz p6 (fun i h => (hc i h).2.2.2.2.2) dz

theorem boundsLoop_eq_seeded (verts : List α) (n : Nat) (lo hi : Vector3 α)
    (h : IsSeededBox verts n lo hi) : boundsLoop verts n = (lo, hi) := by
  obtain ⟨e1, e2⟩ := (boundsLoop_isSeededBox verts n).unique_box h
  exact Prod.ext e1 e2

theorem IsBoundingBox.to_seeded {verts : List α} {n : Nat} {lo hi : Vector3 α}
    (h : IsBoundingBox verts n lo hi)
    (ho : lo.x ≤ 0 ∧ 0 ≤ hi.x ∧ lo.y ≤ 0 ∧ 0 ≤ hi.y ∧ lo.z ≤ 0 ∧ 0 ≤ hi.z) :
    IsSeededBox verts n lo hi := by
  obtain ⟨hb, ax, bx, ay, by1, az, bz⟩ := h
  exact ⟨ho, hb, Or.inr ax, Or.inr bx, Or.inr ay, Or.inr by1, Or.inr az, Or.inr bz⟩

/-- The positions after `NormalizeMesh`, for a seeded box `lo`, `hi` that is not a
point. -/
theorem NormalizeMesh_seeded (sqrtf : α → α) (hs : ExactSqrt sqrtf) (mesh : Mesh α)
    (hlen : mesh.vertices.length = mesh.vertexCount * 3) (lo hi : Vector3 α)
    (hbox : IsSeededBox mesh.vertices mesh.vertexCount lo hi) (hext : lo ≠ hi) :
    0 < Vector3Length sqrtf (Vector3Subtract hi lo) ∧
    normalizeCenter mesh = Vector3Scale (Vector3Add lo hi) (1 / 2) ∧
    normalizeScale sqrtf mesh = some (1 / Vector3Length sqrtf (Vector3Subtract hi lo)) ∧
    ∃ m, NormalizeMesh sqrtf mesh = some m ∧
      m.vertexCount = mesh.vertexCount ∧ m.triangleCount = mesh.triangleCount ∧
      m.normals = mesh.normals ∧ m.indices = mesh.indices ∧
      m.vertices.length = mesh.vertexCount * 3 ∧
      ∀ i, i < mesh.vertexCount → vec3At m.vertices i
        = Vector3Scale
            (Vector3Subtract (vec3At mesh.vertices i) (Vector3Scale (Vector3Add lo hi) (1 / 2)))
            (1 / Vector3Length sqrtf (Vector3Subtract hi lo)) := by
  have hb := boundsLoop_eq_seeded mesh.vertices mesh.vertexCount lo hi hbox
  have hd : Vector3Subtract hi lo ≠ 0 := sub_ne_zero_of_ne_vec lo hi hext
  have hLpos := hs.length_pos _ hd
  have hc : normalizeCenter mesh = Vector3Scale (Vector3Add lo hi) (1 / 2) := by
    unfold normalizeCenter
    rw [hb]
  have hsc : normalizeScale sqrtf mesh
      = some (1 / Vector3Length sqrtf (Vector3Subtract hi lo)) := by
    unfold normalizeScale
    rw [hb]
    exact fdiv1_of_ne _ (ne_of_gt hLpos)
  have hN := NormalizeMesh_of_scale sqrtf mesh _ hsc
  obtain ⟨hl, hr⟩ := rescaleLoop_spec mesh.vertices mesh.vertexCount (normalizeCenter mesh)
    (1 / Vector3Length sqrtf (Vector3Subtract hi lo)) hlen
  refine ⟨hLpos, hc, hsc, _, hN, rfl, rfl, rfl, rfl, hl, fun i hi2 => ?_⟩
  rw [← hc]
  exact hr i hi2

/-! ### Buffers determined by their vectors -/

theorem ext_vec3At (a b : List α) (n : Nat) (ha : a.length = n * 3) (hb : b.length = n * 3)
    (h : ∀ i, i < n → vec3At a i = vec3At b i) : a = b := by
  apply List.ext_getElem (by rw [ha, hb])
  intro j hja hjb
  have hjn : j / 3 < n := by
    rw [ha] at hja
    omega
  have e := h (j / 3) hjn
  have ex := congrArg Vector3.x e
  have ey := congrArg Vector3.y e
  have ez := congrArg Vector3.z e
  simp only [vec3At, List.getD_eq_getElem?_getD] at ex ey ez
  have hj : j = j / 3 * 3 + 0 ∨ j = j / 3 * 3 + 1 ∨ j = j / 3 * 3 + 2 := by omega
  have ga : a[j]? = some a[j] := List.getElem?_eq_getElem hja
  have gb : b[j]? = some b[j] := List.getElem?_eq_getElem hjb
  rcases hj with hj | hj | hj
  · rw [← hj, ga, gb] at ex
    exact ex
  · rw [← hj, ga, gb] at ey
    exact ey
  · rw [← hj, ga, gb] at ez
    exact ez

theorem vec3At_flatten3 (ws : List (Vector3 α)) (i : Nat) (hi : i < ws.length) :
    vec3At (flatten3 ws) i = ws.get ⟨i, hi⟩ := by
  induction ws generalizing i with
  | nil => exact absurd hi (Nat.not_lt_zero i)
  | cons w ws ih =>
    cases i with
    | zero => rfl
    | succ i =>
      have hi2 : i < ws.length := Nat.lt_of_succ_lt_succ hi
      have e : vec3At (flatten3 (w :: ws)) (i + 1) = vec3At (flatten3 ws) i := by
        unfold vec3At
        have e0 : (i + 1) * 3 + 0 = (i * 3 + 0) + 3 := by omega
        have e1 : (i + 1) * 3 + 1 = (i * 3 + 1) + 3 := by omega
        have e2 : (i + 1) * 3 + 2 = (i * 3 + 2) + 3 := by omega
        rw [e0, e1, e2]
        rfl
      rw [e, ih i hi2]
      rfl

theorem mapVertices_spec (g : Vector3 α → Vector3 α) (mesh : Mesh α) :
    (mapVertices g mesh).vertexCount = mesh.vertexCount ∧
    (mapVertices g mesh).triangleCount = mesh.triangleCount ∧
    (mapVertices g mesh).indices = mesh.indices ∧
    (mapVertices g mesh).vertices.length = mesh.vertexCount * 3 ∧
    ∀ i, i < mesh.vertexCount →
      vec3At (mapVertices g mesh).vertices i = g (vec3At mesh.vertices i) := by
  refine ⟨rfl, rfl, rfl, ?_, fun i hi => ?_⟩
  · unfold mapVertices
    simp only [length_flatten3, List.length_map, List.length_range]
  · unfold mapVertices
    simp only []
    rw [vec3At_flatten3 _ i (by simpa using hi)]
    simp

/-! ### Boxes under monotone maps, lengths under scaling -/

theorem Mesh.eq_of_fields (a b : Mesh α) (h1 : a.vertexCount = b.vertexCount)
    (h2 : a.triangleCount = b.triangleCount) (h3 : a.vertices = b.vertices)
    (h4 : a.normals = b.normals) (h5 : a.indices = b.indices) : a = b := by
  cases a
  cases b
  simp only [Mesh.mk.injEq]
  exact ⟨h1, h2, h3, h4, h5⟩

theorem IsBoundingBox.image {a b : List α} {n : Nat} {lo hi : Vector3 α}
    (h : IsBoundingBox a n lo hi) (fx fy fz : α → α)
    (mx : ∀ u v, u ≤ v → fx u ≤ fx v) (my : ∀ u v, u ≤ v → fy u ≤ fy v)
    (mz : ∀ u v, u ≤ v → fz u ≤ fz v)
    (hb : ∀ i, i < n → vec3At b i = ⟨fx (vec3At a i).x, fy (vec3At a i).y, fz (vec3At a i).z⟩) :
    IsBoundingBox b n ⟨fx lo.x, fy lo.y, fz lo.z⟩ ⟨fx hi.x, fy hi.y, fz hi.z⟩ := by
  obtain ⟨hin, ax, bx, ay, by1, az, bz⟩ := h
  refine ⟨fun i hi2 => ?_, ?_, ?_, ?_, ?_, ?_, ?_⟩
  · rw [hb i hi2]
    obtain ⟨h1, h2, h3, h4, h5, h6⟩ := hin i hi2
    exact ⟨mx _ _ h1, mx _ _ h2, my _ _ h3, my _ _ h4, mz _ _ h5, mz _ _ h6⟩
  · obtain ⟨i, hi2, e⟩ := ax
    exact ⟨i, hi2, by rw [hb i hi2]; exact congrArg fx e⟩
  · obtain ⟨i, hi2, e⟩ := bx
    exact ⟨i, hi2, by rw [hb i hi2]; exact congrArg fx e⟩
  · obtain ⟨i, hi2, e⟩ := ay
    exact ⟨i, hi2, by rw [hb i hi2]; exact congrArg fy e⟩
  · obtain ⟨i, hi2, e⟩ := by1
    exact ⟨i, hi2, by rw [hb i hi2]; exact congrArg fy e⟩
  · obtain ⟨i, hi2, e⟩ := az
    exact ⟨i, hi2, by rw [hb i hi2]; exact congrArg fz e⟩
  · obtain ⟨i, hi2, e⟩ := bz
    exact ⟨i, hi2, by rw [hb i hi2]; exact congrArg fz e⟩

theorem IsSeededBox.scaled {a b : List α} {n : Nat} {lo hi : Vector3 α}
    (h : IsSeededBox a n lo hi) (k : α) (hk : 0 < k)
    (hb : ∀ i, i < n → vec3At b i = Vector3Scale (vec3At a i) k) :
    IsSeededBox b n (Vector3Scale lo k) (Vector3Scale hi k) := by
  obtain ⟨⟨o1, o2, o3, o4, o5, o6⟩, hin, ax, bx, ay, by1, az, bz⟩ := h
  have mono : ∀ u v : α, u ≤ v → u * k ≤ v * k :=
    fun u v huv => mul_le_mul_of_nonneg_right huv (le_of_lt hk)
  have z : (0 : α) * k = 0 := zero_mul k
  have att : ∀ (c : α) (f : Nat → α) (g : Nat → α), (∀ i, i < n → g i = f i * k) →
      (c = 0 ∨ ∃ i, i < n ∧ f i = c) → (c * k = 0 ∨ ∃ i, i < n ∧ g i = c * k) := by
    intro c f g hg hc
    rcases hc with hc | ⟨i, hi2, e⟩
    · left
      rw [hc, zero_mul]
    · right
      exact ⟨i, hi2, by rw [hg i hi2, e]⟩
  have gx : ∀ i, i < n → (vec3At b i).x = (vec3At a i).x * k := fun i hi2 => by
    rw [hb i hi2]
    rfl
  have gy : ∀ i, i < n → (vec3At b i).y = (vec3At a i).y * k := fun i hi2 => by
    rw [hb i hi2]
    rfl
  have gz : ∀ i, i < n → (vec3At b i).z = (vec3At a i).z * k := fun i hi2 => by
    rw [hb i hi2]
    rfl
  refine ⟨⟨?_, ?_, ?_, ?_, ?_, ?_⟩, fun i hi2 => ?_, att _ _ _ gx ax, att _ _ _ gx bx,
    att _ _ _ gy ay, att _ _ _ gy by1, att _ _ _ gz az, att _ _ _ gz bz⟩
  · have := mono _ _ o1
    rwa [z] at this
  · have := mono _ _ o2
    rwa [z] at this
  · have := mono _ _ o3
    rwa [z] at this
  · have := mono _ _ o4
    rwa [z] at this
  · have := mono _ _ o5
    rwa [z] at this
  · have := mono _ _ o6
    rwa [z] at this
  · rw [gx i hi2, gy i hi2, gz i hi2]
    obtain ⟨h1, h2, h3, h4, h5, h6⟩ := hin i hi2
    exact ⟨mono _ _ h1, mono _ _ h2, mono _ _ h3, mono _ _ h4, mono _ _ h5, mono _ _ h6⟩

theorem ExactSqrt.length_scale {sqrtf : α → α} (hs : ExactSqrt sqrtf) (v : Vector3 α) (a : α)
    (ha : 0 ≤ a) :
    Vector3Length sqrtf (Vector3Scale v a) = Vector3Length sqrtf v * a := by
  have hL := hs.length_mul_self v
  have h0 : 0 ≤ Vector3Length sqrtf v := (hs _ (normSq_nonneg v)).1
  show sqrtf _ = _
  apply hs.eq_of_sq _ _ (mul_nonneg h0 ha)
  simp only [Vector3Scale]
  linear_combination (a * a) * hL

theorem ExactSqrt.normalize_scale {sqrtf : α → α} (hs : ExactSqrt sqrtf) (v : Vector3 α)
    (a : α) (ha : 0 < a) :
    Vector3Normalize sqrtf (Vector3Scale v a) = Vector3Normalize sqrtf v := by
  by_cases hv : v = 0
  · subst hv
    have : Vector3Scale (0 : Vector3 α) a = 0 := by
      ext <;> simp [Vector3Scale]
    rw [this]
  · have hL : Vector3Length sqrtf v ≠ 0 := fun h => hv ((hs.length_eq_zero v).mp h)
    have hL2 : Vector3Length sqrtf (Vector3Scale v a) ≠ 0 := by
      rw [hs.length_scale v a (le_of_lt ha)]
      exact mul_ne_zero hL (ne_of_gt ha)
    rw [Vector3Normalize_eq_scale, Vector3Normalize_eq_scale, if_pos hL, if_pos hL2,
      hs.length_scale v a (le_of_lt ha)]
    have ha0 : a ≠ 0 := ne_of_gt ha
    ext
    · simp only [Vector3Scale]
      field_simp
      ring
    · simp only [Vector3Scale]
      field_simp
      ring
    · simp only [Vector3Scale]
      field_simp
      ring

theorem ExactSqrt.le_of_le_sq {sqrtf : α → α} (hs : ExactSqrt sqrtf) (x a : α) (hx : 0 ≤ x)
    (ha : 0 ≤ a) (h : x ≤ a * a) : sqrtf x ≤ a := by
  obtain ⟨h1, h2⟩ := hs x hx
  by_contra hc
  have hlt : a < sqrtf x := lt_of_not_le hc
  have := mul_self_lt_mul_self ha hlt
  rw [h2] at this
  exact absurd h (not_le.mpr this)

theorem Vector3Normalize_neg (sqrtf : α → α) (v : Vector3 α) :
    Vector3Normalize sqrtf (-v) = -Vector3Normalize sqrtf v := by
  have e : (-v).x * (-v).x + (-v).y * (-v).y + (-v).z * (-v).z
      = v.x * v.x + v.y * v.y + v.z * v.z := by
    simp only [Vector3.neg_x, Vector3.neg_y, Vector3.neg_z]
    ring
  unfold Vector3Normalize
  simp only [e]
  split_ifs
  · ext <;> simp
  · rfl

/-! ### NormalizeMesh on two meshes related by a positive scaling and a translation -/

theorem affinePoint_box {a b : List α} {n : Nat} {lo hi : Vector3 α}
    (h : IsBoundingBox a n lo hi) (k : α) (hk : 0 < k) (t : Vector3 α)
    (hb : ∀ i, i < n → vec3At b i = affinePoint k t (vec3At a i)) :
    IsBoundingBox b n (affinePoint k t lo) (affinePoint k t hi) :=
  h.image (fun u => u * k + t.x) (fun u => u * k + t.y) (fun u => u * k + t.z)
    (fun _ _ huv => add_le_add_right (mul_le_mul_of_nonneg_right huv (le_of_lt hk)) _)
    (fun _ _ huv => add_le_add_right (mul_le_mul_of_nonneg_right huv (le_of_lt hk)) _)
    (fun _ _ huv => add_le_add_right (mul_le_mul_of_nonneg_right huv (le_of_lt hk)) _)
    hb

theorem NormalizeMesh_affine (sqrtf : α → α) (hs : ExactSqrt sqrtf) (A B : Mesh α)
    (hlenA : A.vertices.length = A.vertexCount * 3)
    (hlenB : B.vertices.length = B.vertexCount * 3)
    (hV : B.vertexCount = A.vertexCount) (k : α) (hk : 0 < k) (t : Vector3 α)
    (hB : ∀ i, i < A.vertexCount → vec3At B.vertices i = affinePoint k t (vec3At A.vertices i))
    (lo hi : Vector3 α) (hboxA : IsSeededBox A.vertices A.vertexCount lo hi) (hext : lo ≠ hi)
    (hboxB : IsSeededBox B.vertices B.vertexCount (affinePoint k t lo) (affinePoint k t hi)) :
    ∃ m1 m2, NormalizeMesh sqrtf A = some m1 ∧ NormalizeMesh sqrtf B = some m2 ∧
      m2.vertices = m1.vertices ∧ m1.vertices.length = A.vertexCount * 3 ∧
      ∀ i, i < A.vertexCount → vec3At m1.vertices i
        = Vector3Scale
            (Vector3Subtract (vec3At A.vertices i) (Vector3Scale (Vector3Add lo hi) (1 / 2)))
            (1 / Vector3Length sqrtf (Vector3Subtract hi lo)) := by
  have hk0 : k ≠ 0 := ne_of_gt hk
  have hext2 : affinePoint k t lo ≠ affinePoint k t hi := by
    intro e
    apply hext
    have ex := congrArg Vector3.x e
    have ey := congrArg Vector3.y e
    have ez := congrArg Vector3.z e
    simp only [affinePoint, Vector3Add, Vector3Scale, add_left_inj] at ex ey ez
    ext
    · exact mul_right_cancel₀ hk0 ex
    · exact mul_right_cancel₀ hk0 ey
    · exact mul_right_cancel₀ hk0 ez
  obtain ⟨hLpos, -, -, m1, hm1, -, -, -, -, hl1, hp1⟩ :=
    NormalizeMesh_seeded sqrtf hs A hlenA lo hi hboxA hext
  obtain ⟨-, -, -, m2, hm2, -, -, -, -, hl2, hp2⟩ :=
    NormalizeMesh_seeded sqrtf hs B hlenB _ _ hboxB hext2
  have hsub : Vector3Subtract (affinePoint k t hi) (affinePoint k t lo)
      = Vector3Scale (Vector3Subtract hi lo) k := by
    ext
    · simp only [affinePoint, Vector3Add, Vector3Scale, Vector3Subtract]
      ring
    · simp only [affinePoint, Vector3Add, Vector3Scale, Vector3Subtract]
      ring
    · simp only [affinePoint, Vector3Add, Vector3Scale, Vector3Subtract]
      ring
  rw [hsub, hs.length_scale _ _ (le_of_lt hk)] at hp2
  rw [hV] at hl2 hp2
  refine ⟨m1, m2, hm1, hm2, ?_, hl1, hp1⟩
  apply ext_vec3At _ _ A.vertexCount hl2 hl1
  intro i hi2
  rw [hp2 i hi2, hp1 i hi2, hB i hi2]
  have hL0 : Vector3Length sqrtf (Vector3Subtract hi lo) ≠ 0 := ne_of_gt hLpos
  generalize Vector3Length sqrtf (Vector3Subtract hi lo) = L at hL0 ⊢
  ext
  · simp only [affinePoint, Vector3Add, Vector3Scale, Vector3Subtract]
    field_simp
    ring
  · simp only [affinePoint, Vector3Add, Vector3Scale, Vector3Subtract]
    field_simp
    ring
  · simp only [affinePoint, Vector3Add, Vector3Scale, Vector3Subtract]
    field_simp
    ring

/-! ### Degenerate boxes -/

theorem fdiv1_eq_none (x : α) : fdiv1 x = none ↔ x = 0 := by
  unfold fdiv1
  split_ifs with h
  · exact ⟨fun _ => h, fun _ => rfl⟩
  · exact ⟨fun e => (by cases e), fun e => absurd e h⟩

/-! ### Face normals after a rescaling -/

theorem cornerSum_congr (sqrtf : α → α) (a b : Mesh α) (hT : a.triangleCount = b.triangleCount)
    (hI : a.indices = b.indices)
    (hf : ∀ t, t < b.triangleCount →
      faceNormal sqrtf a.vertices a.indices t = faceNormal sqrtf b.vertices b.indices t)
    (v : Nat) : cornerSum sqrtf a v = cornerSum sqrtf b v := by
  unfold cornerSum
  rw [hT]
  apply Finset.sum_congr rfl
  intro t ht
  rw [hf t (Finset.mem_range.mp ht), hI]

theorem faceNormal_rescaled (sqrtf : α → α) (hs : ExactSqrt sqrtf) (a b : List α)
    (indices : List Nat) (n : Nat) (c : Vector3 α) (s : α) (hspos : 0 < s)
    (hb : ∀ i, i < n → vec3At b i = Vector3Scale (Vector3Subtract (vec3At a i) c) s)
    (t : Nat) (h0 : indices.getD (t * 3 + 0) 0 < n) (h1 : indices.getD (t * 3 + 1) 0 < n)
    (h2 : indices.getD (t * 3 + 2) 0 < n) :
    faceNormal sqrtf b indices t = faceNormal sqrtf a indices t := by
  have key : ∀ p0 p1 p2 : Vector3 α,
      Vector3CrossProduct
        (Vector3Subtract (Vector3Scale (Vector3Subtract p1 c) s)
          (Vector3Scale (Vector3Subtract p0 c) s))
        (Vector3Subtract (Vector3Scale (Vector3Subtract p2 c) s)
          (Vector3Scale (Vector3Subtract p0 c) s))
      = Vector3Scale (Vector3CrossProduct (Vector3Subtract p1 p0) (Vector3Subtract p2 p0))
          (s * s) := by
    intro p0 p1 p2
    ext
    · simp only [Vector3CrossProduct, Vector3Scale, Vector3Subtract]
      ring
    · simp only [Vector3CrossProduct, Vector3Scale, Vector3Subtract]
      ring
    · simp only [Vector3CrossProduct, Vector3Scale, Vector3Subtract]
      ring
  unfold faceNormal
  simp only []
  rw [hb _ h0, hb _ h1, hb _ h2, key, hs.normalize_scale _ _ (mul_pos hspos hspos)]

/-! ### Swapped winding -/

theorem swapWinding_spec (T : Nat) : ∀ l : List Nat, l.length = T * 3 →
    (swapWinding l).length = T * 3 ∧ (∀ i ∈ swapWinding l, i ∈ l) ∧
    ∀ t, t < T →
      (swapWinding l).getD (t * 3 + 0) 0 = l.getD (t * 3 + 0) 0 ∧
      (swapWinding l).getD (t * 3 + 1) 0 = l.getD (t * 3 + 2) 0 ∧
      (swapWinding l).getD (t * 3 + 2) 0 = l.getD (t * 3 + 1) 0 := by
  induction T with
  | zero =>
    intro l hl
    have : l = [] := List.length_eq_zero.mp (by simpa using hl)
    subst this
    exact ⟨rfl, fun i hi => hi, fun t ht => absurd ht (Nat.not_lt_zero t)⟩
  | succ T ih =>
    intro l hl
    match l, hl with
    | a :: b :: c :: rest, hl =>
      have hr : rest.length = T * 3 := by
        simp only [List.length_cons] at hl
        omega
      obtain ⟨i1, i2, i3⟩ := ih rest hr
      have hsw : swapWinding (a :: b :: c :: rest) = a :: c :: b :: swapWinding rest := rfl
      rw [hsw]
      refine ⟨by simp only [List.length_cons, i1]; omega, fun i hi => ?_, fun t ht => ?_⟩
      · simp only [List.mem_cons] at hi ⊢
        rcases hi with h | h | h | h
        · exact Or.inl h
        · exact Or.inr (Or.inr (Or.inl h))
        · exact Or.inr (Or.inl h)
        · exact Or.inr (Or.inr (Or.inr (i2 i h)))
      · cases t with
        | zero => exact ⟨rfl, rfl, rfl⟩
        | succ t =>
          have e0 : (t + 1) * 3 + 0 = (t * 3 + 0) + 1 + 1 + 1 := by ring
          have e1 : (t + 1) * 3 + 1 = (t * 3 + 1) + 1 + 1 + 1 := by ring
          have e2 : (t + 1) * 3 + 2 = (t * 3 + 2) + 1 + 1 + 1 := by ring
          rw [e0, e1, e2]
          simp only [List.getD_cons_succ]
          exact i3 t (Nat.lt_of_succ_lt_succ ht)
    | [], hl =>
      simp only [List.length_nil] at hl
      omega
    | [_], hl =>
      simp only [List.length_cons, List.length_nil] at hl
      omega
    | [_, _], hl =>
      simp only [List.length_cons, List.length_nil] at hl
      omega

theorem Vector3CrossProduct_swap (a b : Vector3 α) :
    Vector3CrossProduct b a = -Vector3CrossProduct a b := by
  ext
  · simp only [Vector3CrossProduct, Vector3.neg_x]
    ring
  · simp only [Vector3CrossProduct, Vector3.neg_y]
    ring
  · simp only [Vector3CrossProduct, Vector3.neg_z]
    ring

/-! ## The claims -/

/-! ### C1 -/

/-- Claim C1, as amended. For every well-formed OFF text whose face records are all
triangles with indices below the vertex count `V`, `LoadMeshFromOFF` returns a mesh
with `vertexCount = V` and `triangleCount = F` whose index buffer holds, in file
order, the indices of the face records reduced modulo 65536; every stored index is
below `V`, and the buffer holds the file's indices themselves when they are all
below 65536. -/
theorem C1_wellformed_triangles (sqrtf : α → α) (u : Indet)
    (fs : String → Option (List Char)) (filename : String) (d : OffDoc)
    (hwf : d.wf = true) (htri : d.faces.all FaceRecord.isTriangle = true)
    (hidx : ∀ i ∈ d.fileIndices, i < d.nV.value) (hfile : fs filename = some d.text) :
    ∃ r : LoadResult α, LoadMeshFromOFF sqrtf u fs filename = some r ∧
      r.mesh.vertexCount = d.nV.value ∧ r.mesh.triangleCount = d.nF.value ∧
      r.mesh.indices = d.fileIndices.map (fun i => i % 65536) ∧
      (∀ j ∈ r.mesh.indices, j < d.nV.value) ∧
      ((∀ i ∈ d.fileIndices, i < 65536) → r.mesh.indices = d.fileIndices) := by
  obtain ⟨r, hr, h1, h2, h3, _, _⟩ := LoadMeshFromOFF_wf sqrtf u fs filename d hwf hfile
  have hF : (d.faces.filter FaceRecord.isTriangle).length = d.nF.value := by
    rw [List.filter_eq_self.mpr (fun f hf => List.all_eq_true.mp htri f hf)]
    exact (d.wf_doc hwf).2.2.2.2.2.2.2.1
  refine ⟨r, hr, h1, by rw [h2, hF], h3, ?_, ?_⟩
  · intro j hj
    rw [h3] at hj
    obtain ⟨i, hi, rfl⟩ := List.mem_map.mp hj
    exact lt_of_le_of_lt (Nat.mod_le i 65536) (hidx i hi)
  · intro hsmall
    rw [h3]
    conv_rhs => rw [← List.map_id d.fileIndices]
    apply List.map_congr_left
    intro i hi
    exact Nat.mod_eq_of_lt (hsmall i hi)

theorem C1_wellformed_triangles_witness :
    ∃ r : LoadResult ℚ,
      LoadMeshFromOFF qsqrt Indet.zero (fun _ => some triangleDoc.text) "tri.off" = some r ∧
      r.mesh.vertexCount = triangleDoc.nV.value ∧ r.mesh.triangleCount = triangleDoc.nF.value ∧
      r.mesh.indices = triangleDoc.fileIndices.map (fun i => i % 65536) ∧
      (∀ j ∈ r.mesh.indices, j < triangleDoc.nV.value) ∧
      ((∀ i ∈ triangleDoc.fileIndices, i < 65536) → r.mesh.indices = triangleDoc.fileIndices) :=
  C1_wellformed_triangles qsqrt Indet.zero (fun _ => some triangleDoc.text) "tri.off" triangleDoc
    (by decide!) (by decide) (by decide) rfl

/-- Counterexample to claim C1. `bigDoc` is well formed, its one face is a triangle with
the indices 0, 1, 65536, all below its vertex count 65537; the index buffer of the
mesh returned for it holds 0, 1, 0. -/
theorem C1_counterexample :
    bigDoc.wf = true ∧ bigDoc.faces.all FaceRecord.isTriangle = true ∧
    bigDoc.nV.value = 65537 ∧ bigDoc.fileIndices = [0, 1, 65536] ∧
    ∃ r : LoadResult ℚ,
      LoadMeshFromOFF qsqrt Indet.zero (fun _ => some bigDoc.text) "big.off" = some r ∧
      r.mesh.indices = [0, 1, 0] ∧ r.mesh.indices ≠ bigDoc.fileIndices := by
  have hfi : bigDoc.fileIndices = [0, 1, 65536] := by decide
  obtain ⟨r, hr, _, _, h3, _, _⟩ := LoadMeshFromOFF_wf qsqrt Indet.zero
    (fun _ => some bigDoc.text) "big.off" bigDoc bigDoc_wf rfl
  rw [hfi] at h3
  refine ⟨bigDoc_wf, by decide, by decide, hfi, r, hr, h3, ?_⟩
  rw [h3, hfi]
  decide

/-! ### C2 -/

/-- Claim C2. For every well-formed OFF text whose triangle records hold indices below
the vertex count, the triangle count of the mesh that `LoadMeshFromOFF` returns is the
number of face records whose count is 3.  The other records add no index and the rest of their line is discarded: the index buffer holds
the indices of the triangle records in file order, and one warning is logged for each
other record.  For the text with the two face records `4 0 1 2 3` and `3 0 1 2` the
triangle count is 1. -/
theorem C2_triangle_count (sqrtf : α → α) (u : Indet) (fs : String → Option (List Char))
    (filename : String) (d : OffDoc) (hwf : d.wf = true)
    (_hidx : ∀ i ∈ d.fileIndices, i < d.nV.value) (hfile : fs filename = some d.text) :
    (∃ r : LoadResult α, LoadMeshFromOFF sqrtf u fs filename = some r ∧
      r.mesh.triangleCount = (d.faces.filter FaceRecord.isTriangle).length ∧
      r.mesh.indices = d.fileIndices.map (fun i => i % 65536) ∧
      r.mesh.indices.length = 3 * (d.faces.filter FaceRecord.isTriangle).length ∧
      r.log = List.replicate (d.faces.filter (fun f => !f.isTriangle)).length skipWarning) ∧
    (∃ r : LoadResult ℚ,
      LoadMeshFromOFF qsqrt Indet.zero
        (oneFile "quad.off"
          "OFF\n4 2 0\n0 0 0\n1 0 0\n1 1 0\n0 1 0\n4 0 1 2 3\n3 0 1 2\n") "quad.off" = some r ∧
      r.mesh.triangleCount = 1 ∧ r.mesh.indices = [0, 1, 2]) := by
  obtain ⟨r, hr, _, h2, h3, _, h5⟩ := LoadMeshFromOFF_wf sqrtf u fs filename d hwf hfile
  refine ⟨⟨r, hr, h2, h3, ?_, h5⟩, ?_⟩
  · rw [h3, List.length_map, OffDoc.fileIndices, length_fileIndices]
    omega
  · exact ⟨⟨⟨4, 1, [-1 / 2, -1 / 2, 0, 1 / 2, -1 / 2, 0, 1 / 2, 1 / 2, 0, -1 / 2, 1 / 2, 0],
      [0, 0, 1, 0, 0, 1, 0, 0, 1, 0, 0, 0], [0, 1, 2]⟩, true, [skipWarning]⟩,
      by decide!, rfl, rfl⟩

theorem C2_triangle_count_witness :
    (∃ r : LoadResult ℚ,
      LoadMeshFromOFF qsqrt Indet.zero (fun _ => some quadDoc.text) "quad.off" = some r ∧
      r.mesh.triangleCount = (quadDoc.faces.filter FaceRecord.isTriangle).length ∧
      r.mesh.indices = quadDoc.fileIndices.map (fun i => i % 65536) ∧
      r.mesh.indices.length = 3 * (quadDoc.faces.filter FaceRecord.isTriangle).length ∧
      r.log
        = List.replicate (quadDoc.faces.filter (fun f => !f.isTriangle)).length skipWarning) ∧
    (∃ r : LoadResult ℚ,
      LoadMeshFromOFF qsqrt Indet.zero
        (oneFile "quad.off"
          "OFF\n4 2 0\n0 0 0\n1 0 0\n1 1 0\n0 1 0\n4 0 1 2 3\n3 0 1 2\n") "quad.off" = some r ∧
      r.mesh.triangleCount = 1 ∧ r.mesh.indices = [0, 1, 2]) :=
  C2_triangle_count qsqrt Indet.zero (fun _ => some quadDoc.text) "quad.off" quadDoc
    (by decide!) (by decide) rfl

/-! ### C3 -/

/-- Claim C3, as amended. For every input whose first line is not `OFF`,
`LoadMeshFromOFF` logs the error `Invalid OFF file header.` and returns the empty mesh
`Mesh{}`: no vertices, no triangles, no buffers.  The value returned is a mesh like
any other: the drop handling of `main` builds a model from it, assigns the shader
and sets `modelLoaded`. -/
theorem C3_bad_header_returns_empty_mesh (sqrtf : α → α) (u : Indet)
    (fs : String → Option (List Char)) (filename : String) (content : List Char)
    (hfile : fs filename = some content) (hhead : lineOf content ≠ "OFF".toList) :
    LoadMeshFromOFF sqrtf u fs filename
      = some ⟨Mesh.empty, true, [⟨.LOG_ERROR, "Invalid OFF file header."⟩]⟩ ∧
    ∀ (IsFileExtension : String → String → Bool) (st : Viewer α) (others : List String),
      IsFileExtension filename ".off" = true →
      ∃ effects, dropStep sqrtf u fs IsFileExtension st (filename :: others)
        = some (⟨⟨1, Mesh.empty, true, true⟩, true⟩, effects) := by
  have h := LoadMeshFromOFF_bad_header sqrtf u fs filename content hfile hhead
  refine ⟨h, fun ext st others hext => ?_⟩
  unfold dropStep
  simp only [hext, if_true, h]
  exact ⟨_, rfl⟩

theorem C3_bad_header_returns_empty_mesh_witness :
    LoadMeshFromOFF qsqrt Indet.zero (oneFile "bad.off" "COFF\n0 0 0\n") "bad.off"
      = some ⟨Mesh.empty, true, [⟨.LOG_ERROR, "Invalid OFF file header."⟩]⟩ ∧
    ∀ (IsFileExtension : String → String → Bool) (st : Viewer ℚ) (others : List String),
      IsFileExtension "bad.off" ".off" = true →
      ∃ effects, dropStep qsqrt Indet.zero (oneFile "bad.off" "COFF\n0 0 0\n")
          IsFileExtension st ("bad.off" :: others)
        = some (⟨⟨1, Mesh.empty, true, true⟩, true⟩, effects) :=
  C3_bad_header_returns_empty_mesh qsqrt Indet.zero (oneFile "bad.off" "COFF\n0 0 0\n")
    "bad.off" "COFF\n0 0 0\n".toList (by decide) (by decide)

/-- Counterexample to claim C3. The file `bad.off` starts with the line `COFF`.
`LoadMeshFromOFF` returns a mesh value for it, the empty mesh, and the drop handling
of `main`, started with no model loaded, ends with `modelLoaded = true` and a model
holding that mesh. -/
theorem C3_counterexample :
    lineOf "COFF\n0 0 0\n".toList ≠ "OFF".toList ∧
    LoadMeshFromOFF qsqrt Indet.zero (oneFile "bad.off" "COFF\n0 0 0\n") "bad.off"
      = some ⟨Mesh.empty, true, [⟨.LOG_ERROR, "Invalid OFF file header."⟩]⟩ ∧
    dropStep qsqrt Indet.zero (oneFile "bad.off" "COFF\n0 0 0\n") endsWithExt
        ⟨Model.zero, false⟩ ["bad.off"]
      = some (⟨⟨1, Mesh.empty, true, true⟩, true⟩,
          [.traceLog ⟨.LOG_ERROR, "Invalid OFF file header."⟩, .unloadDroppedFiles]) := by
  decide

/-! ### C4 -/

/-- Claim C4, as amended. For every input whose first line is `OFF`, whatever its numeric
fields are, `LoadMeshFromOFF` logs no error and does not stop at a field. Either the
vertex vector cannot be built (the vertex count held is negative) and nothing is
returned, or a mesh is built from the values the locals hold, with buffers of
`3 * vertexCount` and `3 * triangleCount` entries and a log of skip warnings only.
When every index stored in that mesh is below its vertex count, so that
`ComputeMeshNormals` stays inside the buffers, the mesh is passed to
`ComputeMeshNormals` and `NormalizeMesh` and returned. -/
theorem C4_no_error_after_header (sqrtf : α → α) (u : Indet)
    (fs : String → Option (List Char)) (filename : String) (content : List Char)
    (hfile : fs filename = some content) (hhead : lineOf content = "OFF".toList) :
    ((extractInt (getline ⟨content, false⟩).2).1.getD u.numVertices < 0 ∧
      LoadMeshFromOFF sqrtf u fs filename = none) ∨
    ∃ (raw : Mesh α) (log : List LogEntry),
      buildMesh u (getline ⟨content, false⟩).2 = some (raw, log) ∧
      raw.vertices.length = raw.vertexCount * 3 ∧
      raw.indices.length = raw.triangleCount * 3 ∧
      (∀ e ∈ log, e.level = .LOG_WARNING) ∧
      ((∀ i ∈ raw.indices, i < raw.vertexCount) →
        LoadMeshFromOFF sqrtf u fs filename = some (finishMesh sqrtf raw log) ∧
        (finishMesh sqrtf raw log).log = log ∧
        (finishMesh sqrtf raw log).mesh.normals = (ComputeMeshNormals sqrtf raw).normals ∧
        (finishMesh sqrtf raw log).mesh.normals.length
          = (finishMesh sqrtf raw log).mesh.vertexCount * 3 ∧
        ((finishMesh sqrtf raw log).positionsFinite = true →
          NormalizeMesh sqrtf (ComputeMeshNormals sqrtf raw)
            = some (finishMesh sqrtf raw log).mesh)) := by
  have hL : LoadMeshFromOFF sqrtf u fs filename
      = match @buildMesh α _ u (getline ⟨content, false⟩).2 with
        | none => none
        | some (mesh, log) => some (finishMesh sqrtf mesh log) := by
    unfold LoadMeshFromOFF
    rw [hfile]
    simp only [getline_fst, hhead, ne_eq, not_true_eq_false, if_false]
  cases hb : @buildMesh α _ u (getline ⟨content, false⟩).2 with
  | none =>
    left
    rw [hL, hb]
    refine ⟨?_, rfl⟩
    by_contra hneg
    unfold buildMesh at hb
    simp only [hneg, if_false] at hb
    exact absurd hb (by simp)
  | some p =>
    obtain ⟨raw, log⟩ := p
    right
    rw [hb] at hL
    obtain ⟨f1, f2, _, _, f5⟩ := finishMesh_frame sqrtf raw log
    obtain ⟨s1, s2, _, s4⟩ := buildMesh_shape u _ raw log hb
    refine ⟨raw, log, rfl, s1, s2, ?_, fun _ => ⟨hL, f1, f5, ?_, ?_⟩⟩
    · intro e he
      rw [s4 e he]
      rfl
    · rw [f5, f2, length_normals_ComputeMeshNormals]
    · intro hfin
      unfold finishMesh at hfin ⊢
      simp only [] at hfin ⊢
      cases hn : NormalizeMesh sqrtf (ComputeMeshNormals sqrtf raw) with
      | none =>
        rw [hn] at hfin
        simp at hfin
      | some m => rfl

theorem C4_no_error_after_header_witness :
    ∃ (raw : Mesh ℚ) (log : List LogEntry),
      buildMesh Indet.zero (getline ⟨"OFF\n2 0 0\n1 0 0\nx\n".toList, false⟩).2
        = some (raw, log) ∧
      (∀ i ∈ raw.indices, i < raw.vertexCount) ∧
      (∀ e ∈ log, e.level = .LOG_WARNING) ∧
      LoadMeshFromOFF qsqrt Indet.zero (oneFile "cut.off" "OFF\n2 0 0\n1 0 0\nx\n") "cut.off"
        = some (finishMesh qsqrt raw log) ∧
      (finishMesh qsqrt raw log).mesh.normals = (ComputeMeshNormals qsqrt raw).normals :=
  match C4_no_error_after_header qsqrt Indet.zero (oneFile "cut.off" "OFF\n2 0 0\n1 0 0\nx\n")
    "cut.off" "OFF\n2 0 0\n1 0 0\nx\n".toList (by decide) (by decide) with
  | Or.inl h => absurd h.1 (by decide)
  | Or.inr ⟨raw, log, hb, _, _, hw, himp⟩ =>
    have hr : raw.indices = [] := by
      have e : buildMesh Indet.zero (getline ⟨"OFF\n2 0 0\n1 0 0\nx\n".toList, false⟩).2
          = some ((⟨2, 0, [1, 0, 0, 0, 0, 0], [], []⟩ : Mesh ℚ), []) := by decide!
      rw [e] at hb
      simp only [Option.some.injEq, Prod.mk.injEq] at hb
      rw [← hb.1]
    have hin : ∀ i ∈ raw.indices, i < raw.vertexCount := by
      intro i hi
      rw [hr] at hi
      exact absurd hi (List.not_mem_nil i)
    ⟨raw, log, hb, hin, hw, (himp hin).1, (himp hin).2.2.1⟩

/-- Counterexample to claim C4. In `OFF`, `2 0 0`, `1 0 0`, `x` the second vertex record
is not numeric, and in `OFF`, `2 0 0`, `1 0 0` it is missing.  For both,
`LoadMeshFromOFF` returns a mesh of two vertices, the second one left at zero, with
normals computed and positions normalised, and logs nothing. -/
theorem C4_counterexample :
    LoadMeshFromOFF qsqrt Indet.zero (oneFile "cut.off" "OFF\n2 0 0\n1 0 0\nx\n") "cut.off"
      = some ⟨⟨2, 0, [1 / 2, 0, 0, -1 / 2, 0, 0], [0, 0, 0, 0, 0, 0], []⟩, true, []⟩ ∧
    LoadMeshFromOFF qsqrt Indet.zero (oneFile "cut.off" "OFF\n2 0 0\n1 0 0\n") "cut.off"
      = some ⟨⟨2, 0, [1 / 2, 0, 0, -1 / 2, 0, 0], [0, 0, 0, 0, 0, 0], []⟩, true, []⟩ := by
  decide!

/-! ### C5 -/

/-- Claim C5, as amended. In the drop handling of `main`, when a model is loaded and the
dropped `.off` file cannot be opened or does not start with the line `OFF`, the model
shown before is unloaded, it is replaced by a model built from the empty mesh that
the failed load returns, and `modelLoaded` stays `true`. -/
theorem C5_failed_load_replaces_model (sqrtf : α → α) (u : Indet)
    (fs : String → Option (List Char)) (IsFileExtension : String → String → Bool)
    (st : Viewer α) (path : String) (others : List String)
    (hloaded : st.modelLoaded = true) (hext : IsFileExtension path ".off" = true)
    (hfail : fs path = none ∨ ∃ content, fs path = some content ∧ lineOf content ≠ "OFF".toList) :
    ∃ e, dropStep sqrtf u fs IsFileExtension st (path :: others)
      = some (⟨⟨1, Mesh.empty, true, true⟩, true⟩,
          [.unloadModel st.model, .traceLog e, .unloadDroppedFiles]) ∧
      e.level = .LOG_ERROR := by
  rcases hfail with h | ⟨content, h, hh⟩
  · refine ⟨⟨.LOG_ERROR, "Failed to open .off file: " ++ path⟩, ?_, rfl⟩
    unfold dropStep
    simp only [hext, if_true, hloaded, LoadMeshFromOFF_not_opened sqrtf u fs path h]
    rfl
  · refine ⟨⟨.LOG_ERROR, "Invalid OFF file header."⟩, ?_, rfl⟩
    unfold dropStep
    simp only [hext, if_true, hloaded, LoadMeshFromOFF_bad_header sqrtf u fs path content h hh]
    rfl

theorem C5_failed_load_replaces_model_witness :
    ∃ e, dropStep qsqrt Indet.zero (oneFile "bad.off" "COFF\n0 0 0\n") endsWithExt
        loadedViewer ("missing.off" :: [])
      = some (⟨⟨1, Mesh.empty, true, true⟩, true⟩,
          [.unloadModel loadedViewer.model, .traceLog e, .unloadDroppedFiles]) ∧
      e.level = .LOG_ERROR :=
  C5_failed_load_replaces_model qsqrt Indet.zero (oneFile "bad.off" "COFF\n0 0 0\n") endsWithExt
    loadedViewer "missing.off" [] rfl (by decide) (Or.inl (by decide))

/-- Counterexample to claim C5. `loadedViewer` shows a one-triangle model.  Dropping
`missing.off`, which cannot be opened, or `bad.off`, whose first line is `COFF`,
unloads that model and leaves a model of the empty mesh: the state after the step
differs from the state before it. -/
theorem C5_counterexample :
    dropStep qsqrt Indet.zero (oneFile "bad.off" "COFF\n0 0 0\n") endsWithExt
        loadedViewer ["missing.off"]
      = some (⟨⟨1, Mesh.empty, true, true⟩, true⟩,
          [.unloadModel loadedViewer.model,
            .traceLog ⟨.LOG_ERROR, "Failed to open .off file: missing.off"⟩,
            .unloadDroppedFiles]) ∧
    dropStep qsqrt Indet.zero (oneFile "bad.off" "COFF\n0 0 0\n") endsWithExt
        loadedViewer ["bad.off"]
      = some (⟨⟨1, Mesh.empty, true, true⟩, true⟩,
          [.unloadModel loadedViewer.model,
            .traceLog ⟨.LOG_ERROR, "Invalid OFF file header."⟩,
            .unloadDroppedFiles]) ∧
    (⟨⟨1, Mesh.empty, true, true⟩, true⟩ : Viewer ℚ) ≠ loadedViewer := by
  decide!

/-! ### C6 -/

/-- Claim C6, as amended. For every input on which `LoadMeshFromOFF` returns a mesh, the
index buffer has `3 * triangleCount` entries and the normals buffer has
`3 * vertexCount` entries, one normal per vertex.  The indices are not checked
against the vertex count: for a well-formed text every entry of the index buffer is
below `vertexCount` when every index of its triangle records, reduced modulo 65536,
is below the vertex count of the text. -/
theorem C6_returned_mesh_shape (sqrtf : α → α) (u : Indet) (fs : String → Option (List Char))
    (filename : String) (r : LoadResult α) (h : LoadMeshFromOFF sqrtf u fs filename = some r) :
    r.mesh.indices.length = 3 * r.mesh.triangleCount ∧
    r.mesh.normals.length = 3 * r.mesh.vertexCount ∧
    ∀ d : OffDoc, d.wf = true → fs filename = some d.text →
      (∀ i ∈ d.fileIndices, i % 65536 < d.nV.value) →
      ∀ j ∈ r.mesh.indices, j < r.mesh.vertexCount := by
  refine ⟨?_, ?_, ?_⟩
  · unfold LoadMeshFromOFF at h
    split at h
    · simp only [Option.some.injEq] at h
      subst h
      rfl
    · simp only [] at h
      split_ifs at h
      · simp only [Option.some.injEq] at h
        subst h
        rfl
      · split at h
        · exact absurd h (by simp)
        · rename_i mesh log hb
          simp only [Option.some.injEq] at h
          subst h
          obtain ⟨_, _, f3, f4, _⟩ := finishMesh_frame sqrtf mesh log
          rw [f3, f4, (buildMesh_shape u _ mesh log hb).2.1]
          omega
  · unfold LoadMeshFromOFF at h
    split at h
    · simp only [Option.some.injEq] at h
      subst h
      rfl
    · simp only [] at h
      split_ifs at h
      · simp only [Option.some.injEq] at h
        subst h
        rfl
      · split at h
        · exact absurd h (by simp)
        · rename_i mesh log hb
          simp only [Option.some.injEq] at h
          subst h
          obtain ⟨_, f2, _, _, f5⟩ := finishMesh_frame sqrtf mesh log
          rw [f5, f2, length_normals_ComputeMeshNormals]
          omega
  · intro d hwf hfile hidx j hj
    obtain ⟨r2, hr2, h1, _, h3, _, _⟩ := LoadMeshFromOFF_wf sqrtf u fs filename d hwf hfile
    rw [h] at hr2
    simp only [Option.some.injEq] at hr2
    subst hr2
    rw [h3] at hj
    obtain ⟨i, hi, rfl⟩ := List.mem_map.mp hj
    rw [h1]
    exact hidx i hi

theorem C6_returned_mesh_shape_witness :
    ∃ r : LoadResult ℚ,
      LoadMeshFromOFF qsqrt Indet.zero (fun _ => some triangleDoc.text) "tri.off" = some r ∧
      r.mesh.indices.length = 3 * r.mesh.triangleCount ∧
      r.mesh.normals.length = 3 * r.mesh.vertexCount ∧
      ∀ j ∈ r.mesh.indices, j < r.mesh.vertexCount :=
  have h : LoadMeshFromOFF qsqrt Indet.zero (fun _ => some triangleDoc.text) "tri.off"
      = some ⟨⟨3, 1, [-1 / 2, -1 / 2, 0, 1 / 2, -1 / 2, 0, -1 / 2, 1 / 2, 0],
          [0, 0, 1, 0, 0, 1, 0, 0, 1], [0, 1, 2]⟩, true, []⟩ := by
    decide!
  ⟨_, h,
    (C6_returned_mesh_shape qsqrt Indet.zero (fun _ => some triangleDoc.text) "tri.off" _ h).1,
    (C6_returned_mesh_shape qsqrt Indet.zero (fun _ => some triangleDoc.text) "tri.off" _ h).2.1,
    (C6_returned_mesh_shape qsqrt Indet.zero (fun _ => some triangleDoc.text) "tri.off" _ h).2.2
      triangleDoc (by decide!) rfl (by decide)⟩

/-- Counterexample to claim C6. For the text `OFF`, `3 1 0`, three vertex lines and the
face `3 0 1 5`, `LoadMeshFromOFF` returns a mesh of 3 vertices whose index buffer
holds 0, 1, 5: the entry 5 is not below `vertexCount`. -/
theorem C6_counterexample :
    ∃ r : LoadResult ℚ,
      LoadMeshFromOFF qsqrt Indet.zero
        (oneFile "range.off" "OFF\n3 1 0\n0 0 0\n1 0 0\n0 1 0\n3 0 1 5\n") "range.off" = some r ∧
      r.mesh.vertexCount = 3 ∧ r.mesh.indices = [0, 1, 5] ∧
      ¬ ∀ j ∈ r.mesh.indices, j < r.mesh.vertexCount :=
  ⟨⟨⟨3, 1, [-1 / 2, -1 / 2, 0, 1 / 2, -1 / 2, 0, -1 / 2, 1 / 2, 0],
      [0, 0, 0, 0, 0, 0, 0, 0, 0], [0, 1, 5]⟩, true, []⟩,
    by decide!, rfl, rfl, by decide⟩

/-! ### C7 -/

/-- Claim C7, as amended. In exact arithmetic, for a mesh that is the single triangle
`(v0, v1, v2)` with a non-zero cross product `c = (v1 - v0) x (v2 - v0)`,
`ComputeMeshNormals` stores the same normal `c / |c|` at the three vertices, and this
normal has length 1; for the triangle `(0,0,0), (1,0,0), (0,1,0)` the normal stored at
the three vertices is `(0,0,1)`, in exact arithmetic and in `float` arithmetic. -/
theorem C7_single_triangle_normal (sqrtf : α → α) (hs : ExactSqrt sqrtf)
    (v0 v1 v2 : Vector3 α) (ns : List α)
    (hnd : Vector3CrossProduct (Vector3Subtract v1 v0) (Vector3Subtract v2 v0) ≠ 0) :
    (ComputeMeshNormals sqrtf ⟨3, 1, flatten3 [v0, v1, v2], ns, [0, 1, 2]⟩).normals
      = flatten3
          [Vector3Scale (Vector3CrossProduct (Vector3Subtract v1 v0) (Vector3Subtract v2 v0))
              (1 / Vector3Length sqrtf
                (Vector3CrossProduct (Vector3Subtract v1 v0) (Vector3Subtract v2 v0))),
            Vector3Scale (Vector3CrossProduct (Vector3Subtract v1 v0) (Vector3Subtract v2 v0))
              (1 / Vector3Length sqrtf
                (Vector3CrossProduct (Vector3Subtract v1 v0) (Vector3Subtract v2 v0))),
            Vector3Scale (Vector3CrossProduct (Vector3Subtract v1 v0) (Vector3Subtract v2 v0))
              (1 / Vector3Length sqrtf
                (Vector3CrossProduct (Vector3Subtract v1 v0) (Vector3Subtract v2 v0)))] ∧
    Vector3Length sqrtf
      (Vector3Scale (Vector3CrossProduct (Vector3Subtract v1 v0) (Vector3Subtract v2 v0))
        (1 / Vector3Length sqrtf
          (Vector3CrossProduct (Vector3Subtract v1 v0) (Vector3Subtract v2 v0)))) = 1 ∧
    (ComputeMeshNormals sqrtf ⟨3, 1, [0, 0, 0, 1, 0, 0, 0, 1, 0], ns, [0, 1, 2]⟩).normals
      = [0, 0, 1, 0, 0, 1, 0, 0, 1] ∧
    (ComputeMeshNormals Binary32.sqrt ⟨3, 1, [0, 0, 0, 1, 0, 0, 0, 1, 0], [], [0, 1, 2]⟩).normals
      = [0, 0, 1, 0, 0, 1, 0, 0, 1] := by
  have key : ∀ (w0 w1 w2 : Vector3 α),
      Vector3CrossProduct (Vector3Subtract w1 w0) (Vector3Subtract w2 w0) ≠ 0 →
      (ComputeMeshNormals sqrtf ⟨3, 1, flatten3 [w0, w1, w2], ns, [0, 1, 2]⟩).normals
        = flatten3
          [Vector3Scale (Vector3CrossProduct (Vector3Subtract w1 w0) (Vector3Subtract w2 w0))
              (1 / Vector3Length sqrtf
                (Vector3CrossProduct (Vector3Subtract w1 w0) (Vector3Subtract w2 w0))),
            Vector3Scale (Vector3CrossProduct (Vector3Subtract w1 w0) (Vector3Subtract w2 w0))
              (1 / Vector3Length sqrtf
                (Vector3CrossProduct (Vector3Subtract w1 w0) (Vector3Subtract w2 w0))),
            Vector3Scale (Vector3CrossProduct (Vector3Subtract w1 w0) (Vector3Subtract w2 w0))
              (1 / Vector3Length sqrtf
                (Vector3CrossProduct (Vector3Subtract w1 w0) (Vector3Subtract w2 w0)))] ∧
      Vector3Length sqrtf
        (Vector3Scale (Vector3CrossProduct (Vector3Subtract w1 w0) (Vector3Subtract w2 w0))
          (1 / Vector3Length sqrtf
            (Vector3CrossProduct (Vector3Subtract w1 w0) (Vector3Subtract w2 w0)))) = 1 := by
    intro w0 w1 w2 hw
    have hwf : (⟨3, 1, flatten3 [w0, w1, w2], ns, [0, 1, 2]⟩ : Mesh α).WellFormed := by
      refine ⟨rfl, rfl, ?_⟩
      intro i hi
      simp only [List.mem_cons, List.mem_singleton, List.not_mem_nil, or_false] at hi
      show i < 3
      omega
    obtain ⟨hl, hn⟩ := ComputeMeshNormals_spec sqrtf _ hwf
    have hL : Vector3Length sqrtf
        (Vector3CrossProduct (Vector3Subtract w1 w0) (Vector3Subtract w2 w0)) ≠ 0 :=
      fun h => hw ((hs.length_eq_zero _).mp h)
    have hfn : faceNormal sqrtf (flatten3 [w0, w1, w2]) [0, 1, 2] 0
        = Vector3Scale (Vector3CrossProduct (Vector3Subtract w1 w0) (Vector3Subtract w2 w0))
            (1 / Vector3Length sqrtf
              (Vector3CrossProduct (Vector3Subtract w1 w0) (Vector3Subtract w2 w0))) := by
      show Vector3Normalize sqrtf
        (Vector3CrossProduct (Vector3Subtract w1 w0) (Vector3Subtract w2 w0)) = _
      rw [Vector3Normalize_eq_scale, if_pos hL]
    have hfn1 : Vector3Normalize sqrtf (faceNormal sqrtf (flatten3 [w0, w1, w2]) [0, 1, 2] 0)
        = faceNormal sqrtf (flatten3 [w0, w1, w2]) [0, 1, 2] 0 :=
      hs.normalize_idem _
    have h0 := hn 0 (show (0 : Nat) < 3 by decide)
    have h1 := hn 1 (show (1 : Nat) < 3 by decide)
    have h2 := hn 2 (show (2 : Nat) < 3 by decide)
    rw [cornerSum_single sqrtf _ ns _ (by decide), hfn1, hfn] at h0 h1 h2
    refine ⟨?_, ?_⟩
    · rw [eq_flatten3_three _ hl, h0, h1, h2]
    · rw [← hfn]
      exact hs.length_normalize _ hw
  refine ⟨(key v0 v1 v2 hnd).1, (key v0 v1 v2 hnd).2, ?_, by decide!⟩
  have hc : Vector3CrossProduct (Vector3Subtract (⟨1, 0, 0⟩ : Vector3 α) ⟨0, 0, 0⟩)
      (Vector3Subtract ⟨0, 1, 0⟩ ⟨0, 0, 0⟩) = ⟨0, 0, 1⟩ := by
    unfold Vector3CrossProduct Vector3Subtract
    ext <;> simp
  have hne : Vector3CrossProduct (Vector3Subtract (⟨1, 0, 0⟩ : Vector3 α) ⟨0, 0, 0⟩)
      (Vector3Subtract ⟨0, 1, 0⟩ ⟨0, 0, 0⟩) ≠ 0 := by
    rw [hc]
    intro h
    have := congrArg Vector3.z h
    simp at this
  have k := (key ⟨0, 0, 0⟩ ⟨1, 0, 0⟩ ⟨0, 1, 0⟩ hne).1
  rw [hc] at k
  have hlen1 : Vector3Length sqrtf (⟨0, 0, 1⟩ : Vector3 α) = 1 := by
    unfold Vector3Length
    simp [hs.one]
  rw [hlen1] at k
  simpa [flatten3, Vector3Scale] using k

theorem C7_single_triangle_normal_witness :
    Vector3CrossProduct (Vector3Subtract (⟨1, 0, 0⟩ : Vector3 ℝ) ⟨0, 0, 0⟩)
        (Vector3Subtract ⟨0, 1, 0⟩ ⟨0, 0, 0⟩) ≠ 0 ∧
    (ComputeMeshNormals Real.sqrt
        (⟨3, 1, [0, 0, 0, 1, 0, 0, 0, 1, 0], [], [0, 1, 2]⟩ : Mesh ℝ)).normals
      = [0, 0, 1, 0, 0, 1, 0, 0, 1] :=
  have h : Vector3CrossProduct (Vector3Subtract (⟨1, 0, 0⟩ : Vector3 ℝ) ⟨0, 0, 0⟩)
      (Vector3Subtract ⟨0, 1, 0⟩ ⟨0, 0, 0⟩) ≠ 0 := by
    intro h
    have := congrArg Vector3.z h
    simp [Vector3CrossProduct, Vector3Subtract] at this
  ⟨h,
    (C7_single_triangle_normal Real.sqrt exactSqrt_real ⟨0, 0, 0⟩ ⟨1, 0, 0⟩ ⟨0, 1, 0⟩ [] h).2.2.1⟩

/-- Counterexample to claim C7. In `float` arithmetic the triangle `(0,0,0)`,
`(1e-20,0,0)`, `(0,1e-20,0)` is not degenerate: its cross product is `(0,0,c)` with
`c = 35681 * 2^-148`, about `1e-40`.  The square of `c` underflows to `0`, so
`Vector3Normalize` finds the length `0` and returns the vector as it is, and
`ComputeMeshNormals` stores `(0,0,c)`, not a vector of length 1, at the three
vertices. -/
theorem C7_counterexample :
    Binary32.round (1 / 10 ^ 20) = .fin (1547425 / 2 ^ 87) ∧
    Vector3CrossProduct
        (Vector3Subtract (vec3At tinyTriangle.vertices 1) (vec3At tinyTriangle.vertices 0))
        (Vector3Subtract (vec3At tinyTriangle.vertices 2) (vec3At tinyTriangle.vertices 0))
      = ⟨0, 0, .fin (35681 / 2 ^ 148)⟩ ∧
    Vector3Length Binary32.sqrt ⟨0, 0, .fin (35681 / 2 ^ 148)⟩ = 0 ∧
    (ComputeMeshNormals Binary32.sqrt tinyTriangle).normals
      = [0, 0, .fin (35681 / 2 ^ 148), 0, 0, .fin (35681 / 2 ^ 148),
          0, 0, .fin (35681 / 2 ^ 148)] ∧
    Binary32.normSq ⟨0, 0, .fin (35681 / 2 ^ 148)⟩ < 1 := by
  decide!

/-! ### C8 -/

/-- Claim C8, as amended. In exact arithmetic, for a well-formed mesh and a vertex `v`,
the normal that `ComputeMeshNormals` stores at `v` has length 1 when the unit face
normals of the corners holding `v` have a non-zero sum, and is the zero vector when
that sum is zero; it is the zero vector for every vertex that no triangle refers
to. -/
theorem C8_vertex_normal_unit_or_zero (sqrtf : α → α) (hs : ExactSqrt sqrtf) (mesh : Mesh α)
    (hwf : mesh.WellFormed) (v : Nat) (hv : v < mesh.vertexCount) :
    (cornerSum sqrtf mesh v ≠ 0 →
      Vector3Length sqrtf (vec3At (ComputeMeshNormals sqrtf mesh).normals v) = 1) ∧
    (cornerSum sqrtf mesh v = 0 → vec3At (ComputeMeshNormals sqrtf mesh).normals v = 0) ∧
    (v ∉ mesh.indices → vec3At (ComputeMeshNormals sqrtf mesh).normals v = 0) := by
  have h := (ComputeMeshNormals_spec sqrtf mesh hwf).2 v hv
  rw [h]
  refine ⟨fun hne => hs.length_normalize _ hne, fun h0 => ?_, fun hn => ?_⟩
  · rw [h0, Vector3Normalize_zero]
  · rw [cornerSum_unreferenced sqrtf mesh hwf v hn, Vector3Normalize_zero]

theorem C8_vertex_normal_unit_or_zero_witness :
    cornerSum Real.sqrt
        (⟨4, 1, [0, 0, 0, 1, 0, 0, 0, 1, 0, 5, 5, 5], [], [0, 1, 2]⟩ : Mesh ℝ) 0 ≠ 0 ∧
    Vector3Length Real.sqrt (vec3At (ComputeMeshNormals Real.sqrt
        (⟨4, 1, [0, 0, 0, 1, 0, 0, 0, 1, 0, 5, 5, 5], [], [0, 1, 2]⟩ : Mesh ℝ)).normals 0)
      = 1 ∧
    3 ∉ (⟨4, 1, [0, 0, 0, 1, 0, 0, 0, 1, 0, 5, 5, 5], [], [0, 1, 2]⟩ : Mesh ℝ).indices ∧
    vec3At (ComputeMeshNormals Real.sqrt
        (⟨4, 1, [0, 0, 0, 1, 0, 0, 0, 1, 0, 5, 5, 5], [], [0, 1, 2]⟩ : Mesh ℝ)).normals 3
      = 0 :=
  have hwf : (⟨4, 1, [0, 0, 0, 1, 0, 0, 0, 1, 0, 5, 5, 5], [], [0, 1, 2]⟩ : Mesh ℝ).WellFormed := by
    refine ⟨rfl, rfl, ?_⟩
    intro i hi
    simp only [List.mem_cons, List.mem_singleton, List.not_mem_nil, or_false] at hi
    show i < 4
    omega
  have hc : Vector3CrossProduct
      (Vector3Subtract (⟨1, 0, 0⟩ : Vector3 ℝ) ⟨0, 0, 0⟩) (Vector3Subtract ⟨0, 1, 0⟩ ⟨0, 0, 0⟩)
      ≠ 0 := by
    intro h
    have := congrArg Vector3.z h
    norm_num [Vector3CrossProduct, Vector3Subtract] at this
  have hsum : cornerSum Real.sqrt
      (⟨4, 1, [0, 0, 0, 1, 0, 0, 0, 1, 0, 5, 5, 5], [], [0, 1, 2]⟩ : Mesh ℝ) 0 ≠ 0 := by
    have e : cornerSum Real.sqrt
        (⟨4, 1, [0, 0, 0, 1, 0, 0, 0, 1, 0, 5, 5, 5], [], [0, 1, 2]⟩ : Mesh ℝ) 0
        = Vector3Normalize Real.sqrt (Vector3CrossProduct
            (Vector3Subtract (⟨1, 0, 0⟩ : Vector3 ℝ) ⟨0, 0, 0⟩)
            (Vector3Subtract ⟨0, 1, 0⟩ ⟨0, 0, 0⟩)) :=
      cornerSum_single Real.sqrt [0, 0, 0, 1, 0, 0, 0, 1, 0, 5, 5, 5] [] 0 (by decide)
    rw [e]
    intro h0
    have h1 := exactSqrt_real.length_normalize _ hc
    rw [h0, (exactSqrt_real.length_eq_zero 0).mpr rfl] at h1
    exact zero_ne_one h1
  have hn : 3 ∉ (⟨4, 1, [0, 0, 0, 1, 0, 0, 0, 1, 0, 5, 5, 5], [], [0, 1, 2]⟩ : Mesh ℝ).indices := by
    decide
  ⟨hsum,
    (C8_vertex_normal_unit_or_zero Real.sqrt exactSqrt_real _ hwf 0
      (show (0 : Nat) < 4 by decide)).1 hsum,
    hn,
    (C8_vertex_normal_unit_or_zero Real.sqrt exactSqrt_real _ hwf 3
      (show (3 : Nat) < 4 by decide)).2.2 hn⟩

/-- Counterexample to claim C8. In `collinearTriangle` and in `opposingTriangles`, both
well formed, vertex 0 is referred to by a triangle and the normal stored at it is
the zero vector: its length is 0, not 1.  In `float` arithmetic the normal stored at
vertex 0 of the triangle `(0,0,0), (1,0,0), (0,1,1)` is `(0,-n,n)` with
`n = 2965821 * 2^-22`, about `0.70710683`: the square of its length is more than 1. -/
theorem C8_counterexample :
    (collinearTriangle.WellFormed ∧ 0 ∈ collinearTriangle.indices ∧
      vec3At (ComputeMeshNormals qsqrt collinearTriangle).normals 0 = ⟨0, 0, 0⟩ ∧
      Vector3Length qsqrt (vec3At (ComputeMeshNormals qsqrt collinearTriangle).normals 0) ≠ 1) ∧
    (opposingTriangles.WellFormed ∧ 0 ∈ opposingTriangles.indices ∧
      vec3At (ComputeMeshNormals qsqrt opposingTriangles).normals 0 = ⟨0, 0, 0⟩ ∧
      Vector3Length qsqrt (vec3At (ComputeMeshNormals qsqrt opposingTriangles).normals 0) ≠ 1) ∧
    (slantedTriangle.WellFormed ∧ 0 ∈ slantedTriangle.indices ∧
      vec3At (ComputeMeshNormals Binary32.sqrt slantedTriangle).normals 0
        = ⟨0, .fin (-2965821 / 2 ^ 22), .fin (2965821 / 2 ^ 22)⟩ ∧
      1 < Binary32.normSq ⟨0, .fin (-2965821 / 2 ^ 22), .fin (2965821 / 2 ^ 22)⟩) := by
  decide!

/-! ### C9 -/

/-- Claim C9, as amended. In exact arithmetic, in a well-formed mesh, let the corners
holding vertex `v` be exactly one corner of triangle `t1` and one corner of another
triangle `t2`, whose face normals `n1` and `n2` have length 1.  The vector accumulated
at `v` before the final normalisation is `n1 + n2`, and the square of its magnitude is
`2 + 2 (n1 . n2)`: the magnitude is less than 1 exactly when `n1 . n2 < -1/2`.  The
final normal at `v` has length 1 unless `n2 = -n1`; then the accumulated vector and
the final normal are the zero vector. -/
theorem C9_two_face_normals (sqrtf : α → α) (hs : ExactSqrt sqrtf) (mesh : Mesh α)
    (hwf : mesh.WellFormed) (v t1 t2 j1 j2 : Nat)
    (ht1 : t1 < mesh.triangleCount) (ht2 : t2 < mesh.triangleCount)
    (hj1 : j1 < 3) (hj2 : j2 < 3) (hne : t1 ≠ t2)
    (hshared : ∀ t j, t < mesh.triangleCount → j < 3 →
      (mesh.indices.getD (t * 3 + j) 0 = v ↔ (t = t1 ∧ j = j1) ∨ (t = t2 ∧ j = j2)))
    (hu1 : Vector3Length sqrtf (faceNormal sqrtf mesh.vertices mesh.indices t1) = 1)
    (hu2 : Vector3Length sqrtf (faceNormal sqrtf mesh.vertices mesh.indices t2) = 1) :
    vec3At (accumulateNormals sqrtf mesh) v
      = Vector3Add (faceNormal sqrtf mesh.vertices mesh.indices t1)
          (faceNormal sqrtf mesh.vertices mesh.indices t2) ∧
    Vector3Length sqrtf (vec3At (accumulateNormals sqrtf mesh) v)
        * Vector3Length sqrtf (vec3At (accumulateNormals sqrtf mesh) v)
      = 2 + 2 * ((faceNormal sqrtf mesh.vertices mesh.indices t1).x
            * (faceNormal sqrtf mesh.vertices mesh.indices t2).x
          + (faceNormal sqrtf mesh.vertices mesh.indices t1).y
            * (faceNormal sqrtf mesh.vertices mesh.indices t2).y
          + (faceNormal sqrtf mesh.vertices mesh.indices t1).z
            * (faceNormal sqrtf mesh.vertices mesh.indices t2).z) ∧
    (Vector3Length sqrtf (vec3At (accumulateNormals sqrtf mesh) v) < 1 ↔
      (faceNormal sqrtf mesh.vertices mesh.indices t1).x
            * (faceNormal sqrtf mesh.vertices mesh.indices t2).x
          + (faceNormal sqrtf mesh.vertices mesh.indices t1).y
            * (faceNormal sqrtf mesh.vertices mesh.indices t2).y
          + (faceNormal sqrtf mesh.vertices mesh.indices t1).z
            * (faceNormal sqrtf mesh.vertices mesh.indices t2).z < -(1 / 2)) ∧
    (faceNormal sqrtf mesh.vertices mesh.indices t2
        ≠ -faceNormal sqrtf mesh.vertices mesh.indices t1 →
      Vector3Length sqrtf (vec3At (ComputeMeshNormals sqrtf mesh).normals v) = 1) ∧
    (faceNormal sqrtf mesh.vertices mesh.indices t2
        = -faceNormal sqrtf mesh.vertices mesh.indices t1 →
      vec3At (accumulateNormals sqrtf mesh) v = 0 ∧
      vec3At (ComputeMeshNormals sqrtf mesh).normals v = 0) := by
  have hv : v < mesh.vertexCount := by
    have := WellFormed_getD mesh hwf t1 ht1 j1 hj1
    rwa [(hshared t1 j1 ht1 hj1).mpr (Or.inl ⟨rfl, rfl⟩)] at this
  have hc := cornerSum_two_corners sqrtf mesh v t1 t2 j1 j2 ht1 ht2 hj1 hj2 hne hshared
  have ha := (accumulateNormals_spec sqrtf mesh hwf).2 v
  have hn := (ComputeMeshNormals_spec sqrtf mesh hwf).2 v hv
  rw [hc] at ha hn
  generalize faceNormal sqrtf mesh.vertices mesh.indices t1 = n1 at *
  generalize faceNormal sqrtf mesh.vertices mesh.indices t2 = n2 at *
  have h1 := hs.length_mul_self n1
  have h2 := hs.length_mul_self n2
  rw [hu1] at h1
  rw [hu2] at h2
  have hL := hs.length_mul_self (n1 + n2)
  have hL0 : 0 ≤ Vector3Length sqrtf (n1 + n2) := (hs _ (normSq_nonneg _)).1
  simp only [Vector3.add_x, Vector3.add_y, Vector3.add_z] at hL
  have hsq : Vector3Length sqrtf (n1 + n2) * Vector3Length sqrtf (n1 + n2)
      = 2 + 2 * (n1.x * n2.x + n1.y * n2.y + n1.z * n2.z) := by
    linear_combination hL - h1 - h2
  rw [ha, hn]
  refine ⟨rfl, hsq, ⟨fun hlt => ?_, fun hd => ?_⟩, fun hne2 => ?_, fun heq => ?_⟩
  · have := mul_self_lt_mul_self hL0 hlt
    linarith
  · by_contra hge
    have hge1 : 1 ≤ Vector3Length sqrtf (n1 + n2) := not_lt.mp hge
    have := mul_self_le_mul_self zero_le_one hge1
    linarith
  · apply hs.length_normalize
    intro h0
    apply hne2
    have e : n2 = -n1 + (n1 + n2) := by abel
    rw [e, h0, add_zero]
  · have h0 : n1 + n2 = 0 := by
      rw [heq]
      exact add_neg_cancel n1
    rw [h0, Vector3Normalize_zero]
    exact ⟨rfl, rfl⟩

theorem C9_two_face_normals_witness :
    Vector3Length Real.sqrt (vec3At (accumulateNormals Real.sqrt
        (⟨4, 2, [0, 0, 0, 1, 0, 0, 0, 1, 0, 0, -4, -3], [], [0, 1, 2, 0, 1, 3]⟩ : Mesh ℝ)) 0)
      * Vector3Length Real.sqrt (vec3At (accumulateNormals Real.sqrt
        (⟨4, 2, [0, 0, 0, 1, 0, 0, 0, 1, 0, 0, -4, -3], [], [0, 1, 2, 0, 1, 3]⟩ : Mesh ℝ)) 0)
      = 2 + 2 * ((faceNormal Real.sqrt [0, 0, 0, 1, 0, 0, 0, 1, 0, 0, -4, -3]
              [0, 1, 2, 0, 1, 3] 0).x
            * (faceNormal Real.sqrt [0, 0, 0, 1, 0, 0, 0, 1, 0, 0, -4, -3]
              [0, 1, 2, 0, 1, 3] 1).x
          + (faceNormal Real.sqrt [0, 0, 0, 1, 0, 0, 0, 1, 0, 0, -4, -3]
              [0, 1, 2, 0, 1, 3] 0).y
            * (faceNormal Real.sqrt [0, 0, 0, 1, 0, 0, 0, 1, 0, 0, -4, -3]
              [0, 1, 2, 0, 1, 3] 1).y
          + (faceNormal Real.sqrt [0, 0, 0, 1, 0, 0, 0, 1, 0, 0, -4, -3]
              [0, 1, 2, 0, 1, 3] 0).z
            * (faceNormal Real.sqrt [0, 0, 0, 1, 0, 0, 0, 1, 0, 0, -4, -3]
              [0, 1, 2, 0, 1, 3] 1).z) ∧
    Vector3Length Real.sqrt (vec3At (ComputeMeshNormals Real.sqrt
      (⟨4, 2, [0, 0, 0, 1, 0, 0, 0, 1, 0, 0, -4, -3], [], [0, 1, 2, 0, 1, 3]⟩ : Mesh ℝ)).normals
        0) = 1 :=
  have hc1 : Vector3CrossProduct
      (Vector3Subtract (⟨1, 0, 0⟩ : Vector3 ℝ) ⟨0, 0, 0⟩) (Vector3Subtract ⟨0, 1, 0⟩ ⟨0, 0, 0⟩)
      ≠ 0 := by
    intro h
    have := congrArg Vector3.z h
    norm_num [Vector3CrossProduct, Vector3Subtract] at this
  have hc2 : Vector3CrossProduct
      (Vector3Subtract (⟨1, 0, 0⟩ : Vector3 ℝ) ⟨0, 0, 0⟩)
      (Vector3Subtract ⟨0, -4, -3⟩ ⟨0, 0, 0⟩) ≠ 0 := by
    intro h
    have := congrArg Vector3.z h
    norm_num [Vector3CrossProduct, Vector3Subtract] at this
  have hne2 : faceNormal Real.sqrt [0, 0, 0, 1, 0, 0, 0, 1, 0, 0, -4, -3] [0, 1, 2, 0, 1, 3] 1
      ≠ -faceNormal Real.sqrt [0, 0, 0, 1, 0, 0, 0, 1, 0, 0, -4, -3] [0, 1, 2, 0, 1, 3] 0 := by
    intro h
    have hy := congrArg Vector3.y h
    have hL := exactSqrt_real.length_pos _ hc2
    have hy2 : (3 : ℝ) * (1 / Vector3Length Real.sqrt (Vector3CrossProduct
        (Vector3Subtract (⟨1, 0, 0⟩ : Vector3 ℝ) ⟨0, 0, 0⟩)
        (Vector3Subtract ⟨0, -4, -3⟩ ⟨0, 0, 0⟩))) = 0 := by
      rw [Vector3.neg_y] at hy
      have e1 : (faceNormal Real.sqrt [0, 0, 0, 1, 0, 0, 0, 1, 0, 0, -4, -3]
          [0, 1, 2, 0, 1, 3] 0).y = 0 := by
        show (Vector3Normalize Real.sqrt (Vector3CrossProduct
          (Vector3Subtract (⟨1, 0, 0⟩ : Vector3 ℝ) ⟨0, 0, 0⟩)
          (Vector3Subtract ⟨0, 1, 0⟩ ⟨0, 0, 0⟩))).y = 0
        rw [Vector3Normalize_eq_scale]
        split_ifs <;> norm_num [Vector3Scale, Vector3CrossProduct, Vector3Subtract]
      have e2 : (faceNormal Real.sqrt [0, 0, 0, 1, 0, 0, 0, 1, 0, 0, -4, -3]
          [0, 1, 2, 0, 1, 3] 1).y
          = 3 * (1 / Vector3Length Real.sqrt (Vector3CrossProduct
              (Vector3Subtract (⟨1, 0, 0⟩ : Vector3 ℝ) ⟨0, 0, 0⟩)
              (Vector3Subtract ⟨0, -4, -3⟩ ⟨0, 0, 0⟩))) := by
        show (Vector3Normalize Real.sqrt (Vector3CrossProduct
          (Vector3Subtract (⟨1, 0, 0⟩ : Vector3 ℝ) ⟨0, 0, 0⟩)
          (Vector3Subtract ⟨0, -4, -3⟩ ⟨0, 0, 0⟩))).y = _
        rw [Vector3Normalize_eq_scale, if_pos (ne_of_gt hL)]
        norm_num [Vector3Scale, Vector3CrossProduct, Vector3Subtract]
      rw [e1, e2] at hy
      linarith
    have : (0 : ℝ) < 3 * (1 / Vector3Length Real.sqrt (Vector3CrossProduct
        (Vector3Subtract (⟨1, 0, 0⟩ : Vector3 ℝ) ⟨0, 0, 0⟩)
        (Vector3Subtract ⟨0, -4, -3⟩ ⟨0, 0, 0⟩))) :=
      mul_pos (by norm_num) (one_div_pos.mpr hL)
    linarith
  have h := C9_two_face_normals Real.sqrt exactSqrt_real
    (⟨4, 2, [0, 0, 0, 1, 0, 0, 0, 1, 0, 0, -4, -3], [], [0, 1, 2, 0, 1, 3]⟩ : Mesh ℝ)
    (by
      refine ⟨rfl, rfl, ?_⟩
      intro i hi
      simp only [List.mem_cons, List.mem_singleton, List.not_mem_nil, or_false] at hi
      show i < 4
      omega)
    0 0 1 0 0 (show (0 : Nat) < 2 by decide) (show (1 : Nat) < 2 by decide)
    (by decide) (by decide) (by decide)
    (by
      intro t j ht hj
      have ht2 : t < 2 := ht
      interval_cases t <;> interval_cases j <;> simp)
    (exactSqrt_real.length_normalize _ hc1) (exactSqrt_real.length_normalize _ hc2)
  ⟨h.2.1, h.2.2.2.1 hne2⟩

/-- Counterexample to claim C9. In `opposingTriangles` vertex 0 belongs to exactly the
two triangles, whose unit face normals are `(0,0,1)` and `(0,0,-1)`: the vector
accumulated at vertex 0 is the zero vector and the final normal at vertex 0 has length
0, not 1.  In `foldedTriangles` vertex 0 belongs to exactly the two triangles, whose
unit face normals `(0,0,1)` and `(0,12/13,-5/13)` have the negative dot product
`-5/13`: the vector accumulated at vertex 0 is `(0,12/13,8/13)`, and the square of its
magnitude is `208/169`, more than 1. -/
theorem C9_counterexample :
    (opposingTriangles.WellFormed ∧
      faceNormal qsqrt opposingTriangles.vertices opposingTriangles.indices 0 = ⟨0, 0, 1⟩ ∧
      faceNormal qsqrt opposingTriangles.vertices opposingTriangles.indices 1 = ⟨0, 0, -1⟩ ∧
      vec3At (accumulateNormals qsqrt opposingTriangles) 0 = ⟨0, 0, 0⟩ ∧
      Vector3Length qsqrt (vec3At (ComputeMeshNormals qsqrt opposingTriangles).normals 0) = 0 ∧
      Vector3Length qsqrt (vec3At (ComputeMeshNormals qsqrt opposingTriangles).normals 0)
        ≠ 1) ∧
    (foldedTriangles.WellFormed ∧
      faceNormal qsqrt foldedTriangles.vertices foldedTriangles.indices 0 = ⟨0, 0, 1⟩ ∧
      faceNormal qsqrt foldedTriangles.vertices foldedTriangles.indices 1
        = ⟨0, 12 / 13, -5 / 13⟩ ∧
      vec3At (accumulateNormals qsqrt foldedTriangles) 0 = ⟨0, 12 / 13, 8 / 13⟩ ∧
      (1 : ℚ) < 0 * 0 + 12 / 13 * (12 / 13) + 8 / 13 * (8 / 13)) := by
  decide!

/-! ### C10 -/

/-- Claim C10, as amended. In exact arithmetic, let the bounding box `lo`, `hi` of the
positions of a mesh contain the origin and have `lo ≠ hi`.  Then `NormalizeMesh`
returns a mesh whose positions have a bounding box `lo2`, `hi2` with centre
`(lo2 + hi2)/2` at the origin and half diagonal `|hi2 - lo2|/2` equal to `1/2`.  When
the box is `(-2,0,0)`, `(2,0,0)` the centre used is `(0,0,0)`, the scale is `1/4`, and a
vertex at `(-2,0,0)` or `(2,0,0)` is moved to `(-1/2,0,0)` or `(1/2,0,0)`; so it is in
`float` arithmetic for the mesh of these two vertices. -/
theorem C10_normalize_centres_and_scales (sqrtf : α → α) (hs : ExactSqrt sqrtf) (mesh : Mesh α)
    (hlen : mesh.vertices.length = mesh.vertexCount * 3) (lo hi : Vector3 α)
    (hbox : IsBoundingBox mesh.vertices mesh.vertexCount lo hi)
    (ho : lo.x ≤ 0 ∧ 0 ≤ hi.x ∧ lo.y ≤ 0 ∧ 0 ≤ hi.y ∧ lo.z ≤ 0 ∧ 0 ≤ hi.z)
    (hext : lo ≠ hi) :
    (∃ m lo2 hi2, NormalizeMesh sqrtf mesh = some m ∧
      m.vertexCount = mesh.vertexCount ∧
      IsBoundingBox m.vertices m.vertexCount lo2 hi2 ∧
      Vector3Scale (Vector3Add lo2 hi2) (1 / 2) = 0 ∧
      Vector3Length sqrtf (Vector3Scale (Vector3Subtract hi2 lo2) (1 / 2)) = 1 / 2 ∧
      (lo = ⟨-2, 0, 0⟩ → hi = ⟨2, 0, 0⟩ →
        normalizeCenter mesh = ⟨0, 0, 0⟩ ∧ normalizeScale sqrtf mesh = some (1 / 4) ∧
        ∀ i, i < mesh.vertexCount →
          (vec3At mesh.vertices i = ⟨-2, 0, 0⟩ → vec3At m.vertices i = ⟨-1 / 2, 0, 0⟩) ∧
          (vec3At mesh.vertices i = ⟨2, 0, 0⟩ → vec3At m.vertices i = ⟨1 / 2, 0, 0⟩))) ∧
    (normalizeCenter (⟨2, 0, [-2, 0, 0, 2, 0, 0], [], []⟩ : Mesh Binary32) = ⟨0, 0, 0⟩ ∧
      normalizeScale Binary32.sqrt ⟨2, 0, [-2, 0, 0, 2, 0, 0], [], []⟩ = some (.fin (1 / 4)) ∧
      NormalizeMesh Binary32.sqrt ⟨2, 0, [-2, 0, 0, 2, 0, 0], [], []⟩
        = some ⟨2, 0, [.fin (-1 / 2), 0, 0, .fin (1 / 2), 0, 0], [], []⟩) := by
  refine ⟨?_, by decide!⟩
  have hb := boundsLoop_eq_box mesh.vertices mesh.vertexCount lo hi hbox ho
  have hd : Vector3Subtract hi lo ≠ 0 := sub_ne_zero_of_ne_vec lo hi hext
  have hLpos := hs.length_pos _ hd
  have hLsq := hs.length_mul_self (Vector3Subtract hi lo)
  have hc : normalizeCenter mesh = Vector3Scale (Vector3Add lo hi) (1 / 2) := by
    unfold normalizeCenter
    rw [hb]
  have hsc : normalizeScale sqrtf mesh = some (1 / Vector3Length sqrtf (Vector3Subtract hi lo)) := by
    unfold normalizeScale
    rw [hb]
    exact fdiv1_of_ne _ (ne_of_gt hLpos)
  have hN := NormalizeMesh_of_scale sqrtf mesh _ hsc
  obtain ⟨_, hr⟩ := rescaleLoop_spec mesh.vertices mesh.vertexCount (normalizeCenter mesh)
    (1 / Vector3Length sqrtf (Vector3Subtract hi lo)) hlen
  have hspos : 0 < 1 / Vector3Length sqrtf (Vector3Subtract hi lo) := one_div_pos.mpr hLpos
  generalize hL : Vector3Length sqrtf (Vector3Subtract hi lo) = L at *
  obtain ⟨hin, ax, bx, ay, by1, az, bz⟩ := hbox
  have mono : ∀ a b c : α, a ≤ b → (a - c) * (1 / L) ≤ (b - c) * (1 / L) := fun a b c h =>
    mul_le_mul_of_nonneg_right (sub_le_sub_right h c) (le_of_lt hspos)
  refine ⟨_, Vector3Scale (Vector3Subtract lo (normalizeCenter mesh)) (1 / L),
    Vector3Scale (Vector3Subtract hi (normalizeCenter mesh)) (1 / L), hN, rfl, ?_, ?_, ?_, ?_⟩
  · refine ⟨fun i hi2 => ?_, ?_, ?_, ?_, ?_, ?_, ?_⟩
    · show _ ≤ (vec3At (rescaleLoop _ _ _ _) i).x ∧ _
      rw [hr i hi2]
      obtain ⟨h1, h2, h3, h4, h5, h6⟩ := hin i hi2
      exact ⟨mono _ _ _ h1, mono _ _ _ h2, mono _ _ _ h3, mono _ _ _ h4, mono _ _ _ h5,
        mono _ _ _ h6⟩
    · obtain ⟨i, hi2, e⟩ := ax
      refine ⟨i, hi2, ?_⟩
      show (vec3At (rescaleLoop _ _ _ _) i).x = _
      rw [hr i hi2]
      simp only [Vector3Scale, Vector3Subtract, e]
    · obtain ⟨i, hi2, e⟩ := bx
      refine ⟨i, hi2, ?_⟩
      show (vec3At (rescaleLoop _ _ _ _) i).x = _
      rw [hr i hi2]
      simp only [Vector3Scale, Vector3Subtract, e]
    · obtain ⟨i, hi2, e⟩ := ay
      refine ⟨i, hi2, ?_⟩
      show (vec3At (rescaleLoop _ _ _ _) i).y = _
      rw [hr i hi2]
      simp only [Vector3Scale, Vector3Subtract, e]
    · obtain ⟨i, hi2, e⟩ := by1
      refine ⟨i, hi2, ?_⟩
      show (vec3At (rescaleLoop _ _ _ _) i).y = _
      rw [hr i hi2]
      simp only [Vector3Scale, Vector3Subtract, e]
    · obtain ⟨i, hi2, e⟩ := az
      refine ⟨i, hi2, ?_⟩
      show (vec3At (rescaleLoop _ _ _ _) i).z = _
      rw [hr i hi2]
      simp only [Vector3Scale, Vector3Subtract, e]
    · obtain ⟨i, hi2, e⟩ := bz
      refine ⟨i, hi2, ?_⟩
      show (vec3At (rescaleLoop _ _ _ _) i).z = _
      rw [hr i hi2]
      simp only [Vector3Scale, Vector3Subtract, e]
  · rw [hc]
    ext <;> simp only [Vector3Scale, Vector3Subtract, Vector3Add, Vector3.zero_x, Vector3.zero_y,
      Vector3.zero_z] <;> ring
  · rw [hc]
    apply hs.eq_of_sq _ (1 / 2) (by norm_num)
    simp only [Vector3Scale, Vector3Subtract, Vector3Add] at hLsq ⊢
    have hL0 : L ≠ 0 := ne_of_gt hLpos
    field_simp
    linear_combination (16 : α) * hLsq
  · intro elo ehi
    subst elo ehi
    have hL4 : L = 4 := by
      rw [← hL]
      apply hs.eq_of_sq _ 4 (by norm_num)
      simp only [Vector3Subtract]
      norm_num
    have hc0 : normalizeCenter mesh = ⟨0, 0, 0⟩ := by
      rw [hc]
      ext <;> simp [Vector3Scale, Vector3Add]
    refine ⟨hc0, by rw [hsc, hL4], fun i hi2 => ⟨fun e => ?_, fun e => ?_⟩⟩
    · show vec3At (rescaleLoop _ _ _ _) i = _
      rw [hr i hi2, e, hc0, hL4]
      ext <;> norm_num [Vector3Scale, Vector3Subtract]
    · show vec3At (rescaleLoop _ _ _ _) i = _
      rw [hr i hi2, e, hc0, hL4]
      ext <;> norm_num [Vector3Scale, Vector3Subtract]

theorem C10_normalize_centres_and_scales_witness :
    ∃ m lo2 hi2,
      NormalizeMesh Real.sqrt (⟨2, 0, [-2, 0, 0, 2, 0, 0], [], []⟩ : Mesh ℝ) = some m ∧
      m.vertexCount = 2 ∧
      IsBoundingBox m.vertices m.vertexCount lo2 hi2 ∧
      Vector3Scale (Vector3Add lo2 hi2) (1 / 2) = 0 ∧
      Vector3Length Real.sqrt (Vector3Scale (Vector3Subtract hi2 lo2) (1 / 2)) = 1 / 2 ∧
      ((⟨-2, 0, 0⟩ : Vector3 ℝ) = ⟨-2, 0, 0⟩ → (⟨2, 0, 0⟩ : Vector3 ℝ) = ⟨2, 0, 0⟩ →
        normalizeCenter (⟨2, 0, [-2, 0, 0, 2, 0, 0], [], []⟩ : Mesh ℝ) = ⟨0, 0, 0⟩ ∧
        normalizeScale Real.sqrt (⟨2, 0, [-2, 0, 0, 2, 0, 0], [], []⟩ : Mesh ℝ) = some (1 / 4) ∧
        ∀ i, i < 2 →
          (vec3At [-2, 0, 0, 2, 0, 0] i = (⟨-2, 0, 0⟩ : Vector3 ℝ) →
            vec3At m.vertices i = ⟨-1 / 2, 0, 0⟩) ∧
          (vec3At [-2, 0, 0, 2, 0, 0] i = (⟨2, 0, 0⟩ : Vector3 ℝ) →
            vec3At m.vertices i = ⟨1 / 2, 0, 0⟩)) :=
  (C10_normalize_centres_and_scales Real.sqrt exactSqrt_real
    (⟨2, 0, [-2, 0, 0, 2, 0, 0], [], []⟩ : Mesh ℝ) rfl ⟨-2, 0, 0⟩ ⟨2, 0, 0⟩
    (by
      refine ⟨fun i hi => ?_, ⟨0, by decide, rfl⟩, ⟨1, by decide, rfl⟩, ⟨0, by decide, rfl⟩,
        ⟨0, by decide, rfl⟩, ⟨0, by decide, rfl⟩, ⟨0, by decide, rfl⟩⟩
      have hi2 : i < 2 := hi
      interval_cases i <;> norm_num [vec3At])
    (by norm_num)
    (by
      intro h
      have := congrArg Vector3.x h
      norm_num at this)).1

/-- Counterexample to claim C10. In `float` arithmetic the vertices `(1e20,0,0)` and
`(0,0,0)` span a box that includes the origin and has a non-zero extent.  The square
of the extent overflows, its length is infinite, the scale is `1 / inf = 0`, and
`NormalizeMesh` stores both vertices at the origin: the positions span a box whose
half diagonal is 0, not `1/2`. -/
theorem C10_counterexample :
    Binary32.round (10 ^ 20) = .fin 100000002004087734272 ∧
    boundsLoop hugeSegment.vertices hugeSegment.vertexCount
      = (⟨0, 0, 0⟩, ⟨.fin 100000002004087734272, 0, 0⟩) ∧
    Vector3Length Binary32.sqrt
      (Vector3Subtract (⟨.fin 100000002004087734272, 0, 0⟩ : Vector3 Binary32) ⟨0, 0, 0⟩)
      = .inf false ∧
    normalizeScale Binary32.sqrt hugeSegment = some 0 ∧
    NormalizeMesh Binary32.sqrt hugeSegment = some ⟨2, 0, [0, 0, 0, 0, 0, 0], [], []⟩ := by
  decide!

/-! ### C11 -/

/-- Claim C11, as amended. `NormalizeMesh` has no test of the extent and no fallback
scale, for any `sqrtf` with `sqrtf 0 = 0`.  When every vertex is at the origin, the
scale `1 / |max - min|` is the division `1 / 0`, and no finite position is stored when
the mesh has a vertex.  When all the vertices coincide at a point `p`, the box seeded
with the origin has the corners `min(0, p)` and `max(0, p)`, taken by component, and
every vertex is moved to `(p - center) * scale` with `center = (min + max) / 2` and
`scale = 1 / |max - min|`. -/
theorem C11_zero_extent_divides_by_zero (sqrtf : α → α) (hs0 : sqrtf 0 = 0) (mesh : Mesh α)
    (hlen : mesh.vertices.length = mesh.vertexCount * 3) :
    ((∀ i, i < mesh.vertexCount → vec3At mesh.vertices i = 0) →
      Vector3Length sqrtf (Vector3Subtract (boundsLoop mesh.vertices mesh.vertexCount).2
        (boundsLoop mesh.vertices mesh.vertexCount).1) = 0 ∧
      normalizeScale sqrtf mesh = none ∧
      (0 < mesh.vertexCount → NormalizeMesh sqrtf mesh = none)) ∧
    (∀ p : Vector3 α, 0 < mesh.vertexCount →
      (∀ i, i < mesh.vertexCount → vec3At mesh.vertices i = p) →
      boundsLoop mesh.vertices mesh.vertexCount
        = (⟨min 0 p.x, min 0 p.y, min 0 p.z⟩, ⟨max 0 p.x, max 0 p.y, max 0 p.z⟩) ∧
      normalizeCenter mesh
        = Vector3Scale (Vector3Add ⟨min 0 p.x, min 0 p.y, min 0 p.z⟩
            ⟨max 0 p.x, max 0 p.y, max 0 p.z⟩) (1 / 2) ∧
      normalizeScale sqrtf mesh
        = fdiv1 (Vector3Length sqrtf (Vector3Subtract ⟨max 0 p.x, max 0 p.y, max 0 p.z⟩
            ⟨min 0 p.x, min 0 p.y, min 0 p.z⟩)) ∧
      ∀ scale, normalizeScale sqrtf mesh = some scale →
        ∃ m, NormalizeMesh sqrtf mesh = some m ∧
          ∀ i, i < mesh.vertexCount → vec3At m.vertices i
            = Vector3Scale (Vector3Subtract p (normalizeCenter mesh)) scale) := by
  refine ⟨fun h0 => ?_, fun p hV hall => ?_⟩
  · have hbox : IsSeededBox mesh.vertices mesh.vertexCount 0 0 := by
      refine ⟨⟨le_refl _, le_refl _, le_refl _, le_refl _, le_refl _, le_refl _⟩,
        fun i hi => ?_, Or.inl rfl, Or.inl rfl, Or.inl rfl, Or.inl rfl, Or.inl rfl,
        Or.inl rfl⟩
      rw [h0 i hi]
      exact ⟨le_refl _, le_refl _, le_refl _, le_refl _, le_refl _, le_refl _⟩
    have hb := boundsLoop_eq_seeded _ _ _ _ hbox
    have hL : Vector3Length sqrtf (Vector3Subtract (boundsLoop mesh.vertices mesh.vertexCount).2
        (boundsLoop mesh.vertices mesh.vertexCount).1) = 0 := by
      rw [hb]
      show sqrtf _ = 0
      simp only [Vector3Subtract, Vector3.zero_x, Vector3.zero_y, Vector3.zero_z, sub_zero,
        mul_zero, add_zero]
      exact hs0
    have hsc : normalizeScale sqrtf mesh = none := by
      unfold normalizeScale
      simp only []
      rw [hL]
      exact (fdiv1_eq_none 0).mpr rfl
    refine ⟨hL, hsc, fun hV => ?_⟩
    unfold NormalizeMesh
    rw [hsc]
    simp only []
    rw [if_neg (Nat.pos_iff_ne_zero.mp hV)]
  · have hbox : IsSeededBox mesh.vertices mesh.vertexCount
        ⟨min 0 p.x, min 0 p.y, min 0 p.z⟩ ⟨max 0 p.x, max 0 p.y, max 0 p.z⟩ := by
      have att : ∀ a : α, ∀ f : Nat → α, (∀ i, i < mesh.vertexCount → f i = a) →
          (min 0 a = 0 ∨ ∃ i, i < mesh.vertexCount ∧ f i = min 0 a) ∧
          (max 0 a = 0 ∨ ∃ i, i < mesh.vertexCount ∧ f i = max 0 a) := by
        intro a f hf
        rcases le_total 0 a with h | h
        · rw [min_eq_left h, max_eq_right h]
          exact ⟨Or.inl rfl, Or.inr ⟨0, hV, hf 0 hV⟩⟩
        · rw [min_eq_right h, max_eq_left h]
          exact ⟨Or.inr ⟨0, hV, hf 0 hV⟩, Or.inl rfl⟩
      have ax := att p.x (fun i => (vec3At mesh.vertices i).x)
        (fun i hi => congrArg Vector3.x (hall i hi))
      have ay := att p.y (fun i => (vec3At mesh.vertices i).y)
        (fun i hi => congrArg Vector3.y (hall i hi))
      have az := att p.z (fun i => (vec3At mesh.vertices i).z)
        (fun i hi => congrArg Vector3.z (hall i hi))
      refine ⟨⟨min_le_left _ _, le_max_left _ _, min_le_left _ _, le_max_left _ _,
        min_le_left _ _, le_max_left _ _⟩, fun i hi => ?_, ax.1, ax.2, ay.1, ay.2, az.1, az.2⟩
      rw [hall i hi]
      exact ⟨min_le_right _ _, le_max_right _ _, min_le_right _ _, le_max_right _ _,
        min_le_right _ _, le_max_right _ _⟩
    have hb := boundsLoop_eq_seeded _ _ _ _ hbox
    refine ⟨hb, ?_, ?_, fun scale hsc => ?_⟩
    · unfold normalizeCenter
      rw [hb]
    · unfold normalizeScale
      rw [hb]
    · obtain ⟨-, hr⟩ := rescaleLoop_spec mesh.vertices mesh.vertexCount (normalizeCenter mesh)
        scale hlen
      refine ⟨_, NormalizeMesh_of_scale sqrtf mesh scale hsc, fun i hi => ?_⟩
      show vec3At (rescaleLoop _ _ _ _) i = _
      rw [hr i hi, hall i hi]

theorem C11_zero_extent_divides_by_zero_witness :
    normalizeScale qsqrt (⟨2, 0, [0, 0, 0, 0, 0, 0], [], []⟩ : Mesh ℚ) = none ∧
    NormalizeMesh qsqrt (⟨2, 0, [0, 0, 0, 0, 0, 0], [], []⟩ : Mesh ℚ) = none ∧
    boundsLoop (⟨2, 0, [0, 0, 0, 0, 0, 0], [], []⟩ : Mesh ℚ).vertices 2
      = (⟨min 0 0, min 0 0, min 0 0⟩, ⟨max 0 0, max 0 0, max 0 0⟩) :=
  have hall : ∀ i, i < (⟨2, 0, [0, 0, 0, 0, 0, 0], [], []⟩ : Mesh ℚ).vertexCount →
      vec3At (⟨2, 0, [0, 0, 0, 0, 0, 0], [], []⟩ : Mesh ℚ).vertices i = 0 := by
    intro i hi
    have hi2 : i < 2 := hi
    interval_cases i <;> rfl
  have h := C11_zero_extent_divides_by_zero qsqrt (by decide!)
    (⟨2, 0, [0, 0, 0, 0, 0, 0], [], []⟩ : Mesh ℚ) rfl
  ⟨(h.1 hall).2.1, (h.1 hall).2.2 (by decide), (h.2 0 (by decide) hall).1⟩

/-- Counterexample to claim C11. For the single vertex `(0,0,0)` the scale of
`NormalizeMesh` is the division `1 / 0` and no finite position is stored. For the single
vertex `(3,0,0)`, whose own extent is zero, the scale is `1 / 3`, not `1`, and the vertex
is moved to `(1/2,0,0)`, not to the centre-shifted `(3/2,0,0)`. -/
theorem C11_counterexample :
    normalizeScale qsqrt originPoint = none ∧
    NormalizeMesh qsqrt originPoint = none ∧
    normalizeCenter offsetPoint = ⟨3 / 2, 0, 0⟩ ∧
    normalizeScale qsqrt offsetPoint = some (1 / 3) ∧
    NormalizeMesh qsqrt offsetPoint = some ⟨1, 0, [1 / 2, 0, 0], [], []⟩ := by
  decide!

/-! ### C12 -/

/-- Claim C12, as amended. For a mesh whose bounding box `lo`, `hi` contains the origin
and is not a point, `NormalizeMesh` applied to its own result returns that result:
no vertex position changes. -/
theorem C12_idempotent_when_origin_in_box (sqrtf : α → α) (hs : ExactSqrt sqrtf)
    (mesh : Mesh α) (hlen : mesh.vertices.length = mesh.vertexCount * 3) (lo hi : Vector3 α)
    (hbox : IsBoundingBox mesh.vertices mesh.vertexCount lo hi)
    (ho : lo.x ≤ 0 ∧ 0 ≤ hi.x ∧ lo.y ≤ 0 ∧ 0 ≤ hi.y ∧ lo.z ≤ 0 ∧ 0 ≤ hi.z)
    (hext : lo ≠ hi) :
    ∃ m, NormalizeMesh sqrtf mesh = some m ∧ NormalizeMesh sqrtf m = some m := by
  obtain ⟨hLpos, -, -, m, hm, hv, -, -, -, hl, hp⟩ :=
    NormalizeMesh_seeded sqrtf hs mesh hlen lo hi (hbox.to_seeded ho) hext
  have hspos : 0 < 1 / Vector3Length sqrtf (Vector3Subtract hi lo) := one_div_pos.mpr hLpos
  generalize 1 / Vector3Length sqrtf (Vector3Subtract hi lo) = s at hspos hp
  have hB : ∀ i, i < mesh.vertexCount → vec3At m.vertices i
      = affinePoint s (Vector3Scale (Vector3Scale (Vector3Add lo hi) (1 / 2)) (-s))
          (vec3At mesh.vertices i) := by
    intro i hi2
    rw [hp i hi2]
    ext
    · simp only [affinePoint, Vector3Add, Vector3Scale, Vector3Subtract]
      ring
    · simp only [affinePoint, Vector3Add, Vector3Scale, Vector3Subtract]
      ring
    · simp only [affinePoint, Vector3Add, Vector3Scale, Vector3Subtract]
      ring
  have hboxB := affinePoint_box hbox s hspos _ hB
  obtain ⟨o1, o2, o3, o4, o5, o6⟩ := ho
  have e1 := mul_nonneg (le_of_lt hspos) (sub_nonneg.mpr (le_trans o1 o2))
  have e2 := mul_nonneg (le_of_lt hspos) (sub_nonneg.mpr (le_trans o3 o4))
  have e3 := mul_nonneg (le_of_lt hspos) (sub_nonneg.mpr (le_trans o5 o6))
  have ho2 : (affinePoint s (Vector3Scale (Vector3Scale (Vector3Add lo hi) (1 / 2)) (-s)) lo).x
        ≤ 0 ∧
      0 ≤ (affinePoint s (Vector3Scale (Vector3Scale (Vector3Add lo hi) (1 / 2)) (-s)) hi).x ∧
      (affinePoint s (Vector3Scale (Vector3Scale (Vector3Add lo hi) (1 / 2)) (-s)) lo).y ≤ 0 ∧
      0 ≤ (affinePoint s (Vector3Scale (Vector3Scale (Vector3Add lo hi) (1 / 2)) (-s)) hi).y ∧
      (affinePoint s (Vector3Scale (Vector3Scale (Vector3Add lo hi) (1 / 2)) (-s)) lo).z ≤ 0 ∧
      0 ≤ (affinePoint s (Vector3Scale (Vector3Scale (Vector3Add lo hi) (1 / 2)) (-s)) hi).z := by
    simp only [affinePoint, Vector3Add, Vector3Scale]
    refine ⟨?_, ?_, ?_, ?_, ?_, ?_⟩ <;> linarith
  rw [← hv] at hboxB hl
  obtain ⟨m1, m2, hm1, hm2, hveq, -, -⟩ :=
    NormalizeMesh_affine sqrtf hs mesh m hlen hl hv s hspos _ hB lo hi
      (hbox.to_seeded ⟨o1, o2, o3, o4, o5, o6⟩) hext (hboxB.to_seeded ho2)
  rw [hm] at hm1
  have hmm : m = m1 := Option.some.inj hm1
  subst hmm
  obtain ⟨f1, f2, f3, f4⟩ := NormalizeMesh_frame sqrtf m m2 hm2
  exact ⟨m, hm, by rw [hm2, Mesh.eq_of_fields m2 m f1 f2 hveq f3 f4]⟩

theorem C12_idempotent_when_origin_in_box_witness :
    ∃ m, NormalizeMesh Real.sqrt (⟨2, 0, [-1, 0, 0, 3, 0, 0], [], []⟩ : Mesh ℝ) = some m ∧
      NormalizeMesh Real.sqrt m = some m :=
  C12_idempotent_when_origin_in_box Real.sqrt exactSqrt_real
    (⟨2, 0, [-1, 0, 0, 3, 0, 0], [], []⟩ : Mesh ℝ) rfl ⟨-1, 0, 0⟩ ⟨3, 0, 0⟩
    (by
      refine ⟨fun i hi => ?_, ⟨0, by decide, rfl⟩, ⟨1, by decide, rfl⟩, ⟨0, by decide, rfl⟩,
        ⟨0, by decide, rfl⟩, ⟨0, by decide, rfl⟩, ⟨0, by decide, rfl⟩⟩
      have hi2 : i < 2 := hi
      interval_cases i <;> norm_num [vec3At])
    (by norm_num)
    (by
      intro h
      have := congrArg Vector3.x h
      norm_num at this)

/-- Counterexample to claim C12. The mesh of the two vertices `(1,0,0)`, `(2,0,0)` has a
non-zero extent. `NormalizeMesh` moves them to `(0,0,0)`, `(1/2,0,0)`, and applied to
that result it moves them again, to `(-1/2,0,0)`, `(1/2,0,0)`. -/
theorem C12_counterexample :
    normalizeScale qsqrt offsetSegment = some (1 / 2) ∧
    NormalizeMesh qsqrt offsetSegment = some ⟨2, 0, [0, 0, 0, 1 / 2, 0, 0], [], []⟩ ∧
    NormalizeMesh qsqrt ⟨2, 0, [0, 0, 0, 1 / 2, 0, 0], [], []⟩
      = some ⟨2, 0, [-1 / 2, 0, 0, 1 / 2, 0, 0], [], []⟩ ∧
    (⟨2, 0, [-1 / 2, 0, 0, 1 / 2, 0, 0], [], []⟩ : Mesh ℚ).vertices
      ≠ (⟨2, 0, [0, 0, 0, 1 / 2, 0, 0], [], []⟩ : Mesh ℚ).vertices := by
  decide!

/-! ### C13 -/

/-- Claim C13, as amended. In exact arithmetic, take a mesh whose bounding box `lo`, `hi` contains the origin
and is not a point, a factor `k > 0` and a translation `t` such that the moved box
`k * lo + t`, `k * hi + t` contains the origin too. `NormalizeMesh` on the mesh with
every vertex `p` replaced by `k * p + t` then stores the same positions as
`NormalizeMesh` on the mesh itself. -/
theorem C13_affine_invariance_when_origin_in_boxes (sqrtf : α → α) (hs : ExactSqrt sqrtf)
    (mesh : Mesh α) (hlen : mesh.vertices.length = mesh.vertexCount * 3) (lo hi : Vector3 α)
    (hbox : IsBoundingBox mesh.vertices mesh.vertexCount lo hi)
    (ho : lo.x ≤ 0 ∧ 0 ≤ hi.x ∧ lo.y ≤ 0 ∧ 0 ≤ hi.y ∧ lo.z ≤ 0 ∧ 0 ≤ hi.z)
    (hext : lo ≠ hi) (k : α) (hk : 0 < k) (t : Vector3 α)
    (ho2 : (affinePoint k t lo).x ≤ 0 ∧ 0 ≤ (affinePoint k t hi).x ∧
      (affinePoint k t lo).y ≤ 0 ∧ 0 ≤ (affinePoint k t hi).y ∧
      (affinePoint k t lo).z ≤ 0 ∧ 0 ≤ (affinePoint k t hi).z) :
    ∃ m1 m2, NormalizeMesh sqrtf mesh = some m1 ∧
      NormalizeMesh sqrtf (mapVertices (affinePoint k t) mesh) = some m2 ∧
      m2.vertices = m1.vertices := by
  obtain ⟨g1, -, -, g4, g5⟩ := mapVertices_spec (affinePoint k t) mesh
  have hboxB := affinePoint_box hbox k hk t g5
  rw [← g1] at hboxB g4
  obtain ⟨m1, m2, hm1, hm2, hveq, -, -⟩ :=
    NormalizeMesh_affine sqrtf hs mesh (mapVertices (affinePoint k t) mesh) hlen g4 g1 k hk t
      g5 lo hi (hbox.to_seeded ho) hext (hboxB.to_seeded ho2)
  exact ⟨m1, m2, hm1, hm2, hveq⟩

theorem C13_affine_invariance_when_origin_in_boxes_witness :
    ∃ m1 m2, NormalizeMesh Real.sqrt (⟨2, 0, [-2, 0, 0, 2, 0, 0], [], []⟩ : Mesh ℝ) = some m1 ∧
      NormalizeMesh Real.sqrt
        (mapVertices (affinePoint 2 ⟨1, 0, 0⟩) (⟨2, 0, [-2, 0, 0, 2, 0, 0], [], []⟩ : Mesh ℝ))
        = some m2 ∧
      m2.vertices = m1.vertices :=
  C13_affine_invariance_when_origin_in_boxes Real.sqrt exactSqrt_real
    (⟨2, 0, [-2, 0, 0, 2, 0, 0], [], []⟩ : Mesh ℝ) rfl ⟨-2, 0, 0⟩ ⟨2, 0, 0⟩
    (by
      refine ⟨fun i hi => ?_, ⟨0, by decide, rfl⟩, ⟨1, by decide, rfl⟩, ⟨0, by decide, rfl⟩,
        ⟨0, by decide, rfl⟩, ⟨0, by decide, rfl⟩, ⟨0, by decide, rfl⟩⟩
      have hi2 : i < 2 := hi
      interval_cases i <;> norm_num [vec3At])
    (by norm_num)
    (by
      intro h
      have := congrArg Vector3.x h
      norm_num at this)
    2 (by norm_num) ⟨1, 0, 0⟩
    (by norm_num [affinePoint, Vector3Add, Vector3Scale])

/-- Counterexample to claim C13. The mesh of the two vertices `(-2,0,0)`, `(2,0,0)` has a
non-zero extent and `NormalizeMesh` moves them to `(-1/2,0,0)`, `(1/2,0,0)`. With
`k = 1` and `t = (3,0,0)` the vertices are `(1,0,0)`, `(5,0,0)`, and `NormalizeMesh`
moves those to `(-3/10,0,0)`, `(1/2,0,0)`.  In `float` arithmetic the vertices
`(-3,-3,-3)`, `(0,0,2)` get the third components `-3198127 * 2^-23` and
`3198127 * 2^-23`, about `0.38124645`; with `k = 3` and `t = (0,0,0)` the vertices are
`(-9,-9,-9)`, `(0,0,6)`, their box contains the origin as well, and they get
`-12792507 * 2^-25` and `12792507 * 2^-25`, about `0.38124642`. -/
theorem C13_counterexample :
    NormalizeMesh qsqrt centredSegment = some ⟨2, 0, [-1 / 2, 0, 0, 1 / 2, 0, 0], [], []⟩ ∧
    mapVertices (affinePoint 1 ⟨3, 0, 0⟩) centredSegment = ⟨2, 0, [1, 0, 0, 5, 0, 0], [], []⟩ ∧
    NormalizeMesh qsqrt (mapVertices (affinePoint 1 ⟨3, 0, 0⟩) centredSegment)
      = some ⟨2, 0, [-3 / 10, 0, 0, 1 / 2, 0, 0], [], []⟩ ∧
    (⟨2, 0, [-3 / 10, 0, 0, 1 / 2, 0, 0], [], []⟩ : Mesh ℚ).vertices
      ≠ (⟨2, 0, [-1 / 2, 0, 0, 1 / 2, 0, 0], [], []⟩ : Mesh ℚ).vertices ∧
    NormalizeMesh Binary32.sqrt diagonalSegment
      = some ⟨2, 0, [.fin (-15351009 / 2 ^ 26), .fin (-15351009 / 2 ^ 26),
          .fin (-3198127 / 2 ^ 23), .fin (15351009 / 2 ^ 26), .fin (15351009 / 2 ^ 26),
          .fin (3198127 / 2 ^ 23)], [], []⟩ ∧
    mapVertices (affinePoint 3 ⟨0, 0, 0⟩) diagonalSegment
      = ⟨2, 0, [.fin (-9), .fin (-9), .fin (-9), 0, 0, .fin 6], [], []⟩ ∧
    NormalizeMesh Binary32.sqrt (mapVertices (affinePoint 3 ⟨0, 0, 0⟩) diagonalSegment)
      = some ⟨2, 0, [.fin (-15351009 / 2 ^ 26), .fin (-15351009 / 2 ^ 26),
          .fin (-12792507 / 2 ^ 25), .fin (15351009 / 2 ^ 26), .fin (15351009 / 2 ^ 26),
          .fin (12792507 / 2 ^ 25)], [], []⟩ ∧
    (.fin (12792507 / 2 ^ 25) : Binary32) ≠ .fin (3198127 / 2 ^ 23) := by
  decide!

/-! ### C14 -/

/-- Claim C14, as amended. In exact arithmetic, for a mesh with in-range indices whose origin-seeded box `lo`, `hi` is
not a point, the normals `ComputeMeshNormals` computes from the positions stored by
`NormalizeMesh` are the normals it computes from the original positions; and
`NormalizeMesh` applied after `ComputeMeshNormals`, the order of `LoadMeshFromOFF`,
keeps those normals next to the normalised positions. -/
theorem C14_normals_commute_with_normalization (sqrtf : α → α) (hs : ExactSqrt sqrtf)
    (mesh : Mesh α) (hwf : mesh.WellFormed) (lo hi : Vector3 α)
    (hbox : IsSeededBox mesh.vertices mesh.vertexCount lo hi) (hext : lo ≠ hi) :
    ∃ m, NormalizeMesh sqrtf mesh = some m ∧
      (ComputeMeshNormals sqrtf m).normals = (ComputeMeshNormals sqrtf mesh).normals ∧
      ∃ m2, NormalizeMesh sqrtf (ComputeMeshNormals sqrtf mesh) = some m2 ∧
        m2.vertices = m.vertices ∧ m2.normals = (ComputeMeshNormals sqrtf m).normals := by
  obtain ⟨hLpos, -, -, m, hm, hv, ht, -, hi2, hl, hp⟩ :=
    NormalizeMesh_seeded sqrtf hs mesh hwf.1 lo hi hbox hext
  have hspos : 0 < 1 / Vector3Length sqrtf (Vector3Subtract hi lo) := one_div_pos.mpr hLpos
  have hwfm : m.WellFormed := by
    refine ⟨by rw [hl, hv], by rw [hi2, ht]; exact hwf.2.1, ?_⟩
    rw [hi2, hv]
    exact hwf.2.2
  have hcs : ∀ v, cornerSum sqrtf m v = cornerSum sqrtf mesh v := by
    intro v
    apply cornerSum_congr sqrtf m mesh ht hi2
    intro t htl
    rw [hi2]
    exact faceNormal_rescaled sqrtf hs mesh.vertices m.vertices mesh.indices mesh.vertexCount
      _ _ hspos hp t (WellFormed_getD mesh hwf t htl 0 (by decide))
      (WellFormed_getD mesh hwf t htl 1 (by decide))
      (WellFormed_getD mesh hwf t htl 2 (by decide))
  obtain ⟨a1, a2⟩ := ComputeMeshNormals_spec sqrtf m hwfm
  obtain ⟨b1, b2⟩ := ComputeMeshNormals_spec sqrtf mesh hwf
  rw [hv] at a1 a2
  have hn : (ComputeMeshNormals sqrtf m).normals = (ComputeMeshNormals sqrtf mesh).normals := by
    apply ext_vec3At _ _ mesh.vertexCount a1 b1
    intro v hvl
    rw [a2 v hvl, b2 v hvl, hcs v]
  obtain ⟨-, -, -, m2, hm2, -, -, n2, -, hl2, hp2⟩ :=
    NormalizeMesh_seeded sqrtf hs (ComputeMeshNormals sqrtf mesh) hwf.1 lo hi hbox hext
  refine ⟨m, hm, hn, m2, hm2, ?_, ?_⟩
  · apply ext_vec3At _ _ mesh.vertexCount hl2 hl
    intro v hvl
    rw [hp v hvl]
    exact hp2 v hvl
  · rw [n2, hn]

theorem C14_normals_commute_with_normalization_witness :
    ∃ m, NormalizeMesh Real.sqrt
        (⟨3, 1, [0, 0, 0, 1, 0, 0, 0, 1, 0], [], [0, 1, 2]⟩ : Mesh ℝ) = some m ∧
      (ComputeMeshNormals Real.sqrt m).normals
        = (ComputeMeshNormals Real.sqrt
            (⟨3, 1, [0, 0, 0, 1, 0, 0, 0, 1, 0], [], [0, 1, 2]⟩ : Mesh ℝ)).normals ∧
      ∃ m2, NormalizeMesh Real.sqrt
          (ComputeMeshNormals Real.sqrt
            (⟨3, 1, [0, 0, 0, 1, 0, 0, 0, 1, 0], [], [0, 1, 2]⟩ : Mesh ℝ)) = some m2 ∧
        m2.vertices = m.vertices ∧ m2.normals = (ComputeMeshNormals Real.sqrt m).normals :=
  C14_normals_commute_with_normalization Real.sqrt exactSqrt_real
    (⟨3, 1, [0, 0, 0, 1, 0, 0, 0, 1, 0], [], [0, 1, 2]⟩ : Mesh ℝ)
    ⟨rfl, rfl, by
      intro i hi
      simp only [List.mem_cons, List.mem_singleton, List.not_mem_nil, or_false] at hi
      rcases hi with h | h | h <;> rw [h] <;> decide⟩
    ⟨0, 0, 0⟩ ⟨1, 1, 0⟩
    (by
      refine ⟨by norm_num, fun i hi => ?_, Or.inl rfl, Or.inr ⟨1, by decide, rfl⟩,
        Or.inl rfl, Or.inr ⟨2, by decide, rfl⟩, Or.inl rfl, Or.inl rfl⟩
      have hi2 : i < 3 := hi
      interval_cases i <;> norm_num [vec3At])
    (by
      intro h
      have := congrArg Vector3.x h
      norm_num at this)

/-- Counterexample to claim C14. In `float` arithmetic, for the triangle `(0,0,0)`,
`(1e-20,0,0)`, `(0,1e-20,0)`, with in-range indices and a non-zero extent,
`ComputeMeshNormals` on the original positions stores the normal `(0,0,c)` with
`c = 35681 * 2^-148`, about `1e-40`, at the three vertices; `NormalizeMesh` moves the
vertices to `(-s,-s,0)`, `(s,-s,0)`, `(-s,s,0)` with `s = 11863315 * 2^-25`, about
`0.35355434`, and `ComputeMeshNormals` on these positions stores `(0,0,1)`. -/
theorem C14_counterexample :
    tinyTriangle.WellFormed ∧
    normalizeScale Binary32.sqrt tinyTriangle = some (.fin 70710872613809291264) ∧
    (ComputeMeshNormals Binary32.sqrt tinyTriangle).normals
      = [0, 0, .fin (35681 / 2 ^ 148), 0, 0, .fin (35681 / 2 ^ 148),
          0, 0, .fin (35681 / 2 ^ 148)] ∧
    NormalizeMesh Binary32.sqrt tinyTriangle
      = some ⟨3, 1, [.fin (-11863315 / 2 ^ 25), .fin (-11863315 / 2 ^ 25), 0,
          .fin (11863315 / 2 ^ 25), .fin (-11863315 / 2 ^ 25), 0,
          .fin (-11863315 / 2 ^ 25), .fin (11863315 / 2 ^ 25), 0], [], [0, 1, 2]⟩ ∧
    (ComputeMeshNormals Binary32.sqrt
        ⟨3, 1, [.fin (-11863315 / 2 ^ 25), .fin (-11863315 / 2 ^ 25), 0,
          .fin (11863315 / 2 ^ 25), .fin (-11863315 / 2 ^ 25), 0,
          .fin (-11863315 / 2 ^ 25), .fin (11863315 / 2 ^ 25), 0], [], [0, 1, 2]⟩).normals
      = [0, 0, 1, 0, 0, 1, 0, 0, 1] ∧
    (.fin (35681 / 2 ^ 148) : Binary32) ≠ 1 := by
  decide!

/-! ### C15 -/

/-- Claim C15. In `NormalizeMesh` the corners `min`, `max` found by the first loop form the
origin-seeded box of the positions: the component-wise minimum and maximum over the
vertex positions together with the origin, so that the box contains the origin whatever
the vertices are. That box is the only one, `center` is `(min + max) / 2`, `scale` is
`1 / |max - min|`, and with a finite scale every position `p` is replaced by
`(p - center) * scale` while nothing else of the mesh changes. -/
theorem C15_normalize_formula (sqrtf : α → α) (mesh : Mesh α)
    (hlen : mesh.vertices.length = mesh.vertexCount * 3) :
    IsSeededBox mesh.vertices mesh.vertexCount
      (boundsLoop mesh.vertices mesh.vertexCount).1
      (boundsLoop mesh.vertices mesh.vertexCount).2 ∧
    (∀ lo hi, IsSeededBox mesh.vertices mesh.vertexCount lo hi →
      boundsLoop mesh.vertices mesh.vertexCount = (lo, hi) ∧
      (lo.x ≤ 0 ∧ 0 ≤ hi.x ∧ lo.y ≤ 0 ∧ 0 ≤ hi.y ∧ lo.z ≤ 0 ∧ 0 ≤ hi.z) ∧
      normalizeCenter mesh = Vector3Scale (Vector3Add lo hi) (1 / 2) ∧
      normalizeScale sqrtf mesh = fdiv1 (Vector3Length sqrtf (Vector3Subtract hi lo))) ∧
    (∀ scale, normalizeScale sqrtf mesh = some scale →
      ∃ m, NormalizeMesh sqrtf mesh = some m ∧
        m.vertexCount = mesh.vertexCount ∧ m.triangleCount = mesh.triangleCount ∧
        m.normals = mesh.normals ∧ m.indices = mesh.indices ∧
        m.vertices.length = mesh.vertexCount * 3 ∧
        ∀ i, i < mesh.vertexCount → vec3At m.vertices i
          = Vector3Scale (Vector3Subtract (vec3At mesh.vertices i) (normalizeCenter mesh))
              scale) := by
  refine ⟨boundsLoop_isSeededBox _ _, fun lo hi h => ?_, fun scale h => ?_⟩
  · have hb := boundsLoop_eq_seeded mesh.vertices mesh.vertexCount lo hi h
    refine ⟨hb, h.1, ?_, ?_⟩
    · unfold normalizeCenter
      rw [hb]
    · unfold normalizeScale
      rw [hb]
  · have hr := rescaleLoop_spec mesh.vertices mesh.vertexCount (normalizeCenter mesh) scale hlen
    exact ⟨_, NormalizeMesh_of_scale sqrtf mesh scale h, rfl, rfl, rfl, rfl, hr.1, hr.2⟩

theorem C15_normalize_formula_witness :
    IsSeededBox offsetSegment.vertices offsetSegment.vertexCount
      (boundsLoop offsetSegment.vertices offsetSegment.vertexCount).1
      (boundsLoop offsetSegment.vertices offsetSegment.vertexCount).2 ∧
    (∀ lo hi, IsSeededBox offsetSegment.vertices offsetSegment.vertexCount lo hi →
      boundsLoop offsetSegment.vertices offsetSegment.vertexCount = (lo, hi) ∧
      (lo.x ≤ 0 ∧ 0 ≤ hi.x ∧ lo.y ≤ 0 ∧ 0 ≤ hi.y ∧ lo.z ≤ 0 ∧ 0 ≤ hi.z) ∧
      normalizeCenter offsetSegment = Vector3Scale (Vector3Add lo hi) (1 / 2) ∧
      normalizeScale qsqrt offsetSegment
        = fdiv1 (Vector3Length qsqrt (Vector3Subtract hi lo))) ∧
    (∀ scale, normalizeScale qsqrt offsetSegment = some scale →
      ∃ m, NormalizeMesh qsqrt offsetSegment = some m ∧
        m.vertexCount = offsetSegment.vertexCount ∧
        m.triangleCount = offsetSegment.triangleCount ∧
        m.normals = offsetSegment.normals ∧ m.indices = offsetSegment.indices ∧
        m.vertices.length = offsetSegment.vertexCount * 3 ∧
        ∀ i, i < offsetSegment.vertexCount → vec3At m.vertices i
          = Vector3Scale
              (Vector3Subtract (vec3At offsetSegment.vertices i) (normalizeCenter offsetSegment))
              scale) :=
  C15_normalize_formula qsqrt offsetSegment rfl

/-! ### C16 -/

/-- Claim C17, as amended. In exact arithmetic, for a mesh whose origin-seeded box `lo`, `hi` is not a point,
`NormalizeMesh` returns a mesh in which every vertex position has length at most
`1 / 2`. -/
theorem C17_normalized_within_half (sqrtf : α → α) (hs : ExactSqrt sqrtf) (mesh : Mesh α)
    (hlen : mesh.vertices.length = mesh.vertexCount * 3) (lo hi : Vector3 α)
    (hbox : IsSeededBox mesh.vertices mesh.vertexCount lo hi) (hext : lo ≠ hi) :
    ∃ m, NormalizeMesh sqrtf mesh = some m ∧ m.vertexCount = mesh.vertexCount ∧
      ∀ i, i < m.vertexCount → Vector3Length sqrtf (vec3At m.vertices i) ≤ 1 / 2 := by
  obtain ⟨hLpos, -, -, m, hm, hv, -, -, -, -, hpos⟩ :=
    NormalizeMesh_seeded sqrtf hs mesh hlen lo hi hbox hext
  refine ⟨m, hm, hv, fun i hi2 => ?_⟩
  rw [hv] at hi2
  rw [hpos i hi2, hs.length_scale _ _ (le_of_lt (one_div_pos.mpr hLpos))]
  obtain ⟨h1, h2, h3, h4, h5, h6⟩ := hbox.2.1 i hi2
  set L := Vector3Length sqrtf (Vector3Subtract hi lo) with hL
  have hLsq : L * L = (hi.x - lo.x) * (hi.x - lo.x) + (hi.y - lo.y) * (hi.y - lo.y)
      + (hi.z - lo.z) * (hi.z - lo.z) := hs.length_mul_self (Vector3Subtract hi lo)
  set p := vec3At mesh.vertices i with hp
  have hle : Vector3Length sqrtf
      (Vector3Subtract p (Vector3Scale (Vector3Add lo hi) (1 / 2))) ≤ L / 2 := by
    apply hs.le_of_le_sq _ _ (normSq_nonneg _) (le_of_lt (half_pos hLpos))
    simp only [Vector3Subtract, Vector3Scale, Vector3Add]
    have e1 := mul_nonneg (sub_nonneg.mpr h1) (sub_nonneg.mpr h2)
    have e2 := mul_nonneg (sub_nonneg.mpr h3) (sub_nonneg.mpr h4)
    have e3 := mul_nonneg (sub_nonneg.mpr h5) (sub_nonneg.mpr h6)
    nlinarith [e1, e2, e3, hLsq]
  calc Vector3Length sqrtf (Vector3Subtract p (Vector3Scale (Vector3Add lo hi) (1 / 2)))
        * (1 / L)
      ≤ L / 2 * (1 / L) := mul_le_mul_of_nonneg_right hle (le_of_lt (one_div_pos.mpr hLpos))
    _ = 1 / 2 := by
      field_simp
      ring

theorem C17_normalized_within_half_witness :
    ∃ m, NormalizeMesh Real.sqrt (⟨2, 0, [1, 0, 0, 2, 0, 0], [], []⟩ : Mesh ℝ) = some m ∧
      m.vertexCount = 2 ∧
      ∀ i, i < m.vertexCount → Vector3Length Real.sqrt (vec3At m.vertices i) ≤ 1 / 2 :=
  C17_normalized_within_half Real.sqrt exactSqrt_real
    (⟨2, 0, [1, 0, 0, 2, 0, 0], [], []⟩ : Mesh ℝ) rfl ⟨0, 0, 0⟩ ⟨2, 0, 0⟩
    (by
      refine ⟨by norm_num, fun i hi => ?_, Or.inl rfl, Or.inr ⟨1, by decide, rfl⟩,
        Or.inl rfl, Or.inl rfl, Or.inl rfl, Or.inl rfl⟩
      have hi2 : i < 2 := hi
      interval_cases i <;> norm_num [vec3At])
    (by
      intro h
      have := congrArg Vector3.x h
      norm_num at this)

/-- Counterexample to claim C17. In `float` arithmetic the vertices `(-3,-3,-3)` and
`(-3,-3,1)` have the origin-seeded box `(-3,-3,-3)`, `(0,0,1)`, of non-zero extent;
the scale is `2877269 * 2^-24`, about `0.1714986`, and `NormalizeMesh` moves the first
vertex to `(-a,-a,-b)` with `a = 8631807 * 2^-25` and `b = 2877269 * 2^-23`.  The
square of its distance to the origin is `140737507272137 * 2^-49`, more than `1/4`. -/
theorem C17_counterexample :
    normalizeScale Binary32.sqrt tallSegment = some (.fin (2877269 / 2 ^ 24)) ∧
    NormalizeMesh Binary32.sqrt tallSegment
      = some ⟨2, 0, [.fin (-8631807 / 2 ^ 25), .fin (-8631807 / 2 ^ 25),
          .fin (-2877269 / 2 ^ 23), .fin (-8631807 / 2 ^ 25), .fin (-8631807 / 2 ^ 25),
          .fin (2877269 / 2 ^ 23)], [], []⟩ ∧
    Binary32.normSq
        ⟨.fin (-8631807 / 2 ^ 25), .fin (-8631807 / 2 ^ 25), .fin (-2877269 / 2 ^ 23)⟩
      = 140737507272137 / 2 ^ 49 ∧
    (1 / 4 : ℚ) < 140737507272137 / 2 ^ 49 := by
  decide!

/-! ### C18 -/

/-- Claim C18. For every well-formed OFF text whose triangle records hold indices below
the vertex count, the index buffer of the mesh returned by `LoadMeshFromOFF` holds, entry by entry, the indices of the triangle records in file
order reduced modulo 65536. An entry equals the index of the file exactly when that
index is below 65536; an index of 65536 or more is stored as another value, below 65536,
and nothing but the warnings of the skipped faces is logged. -/
theorem C18_indices_stored_mod_65536 (sqrtf : α → α) (u : Indet)
    (fs : String → Option (List Char)) (filename : String) (d : OffDoc) (h : d.wf = true)
    (_hidx : ∀ i ∈ d.fileIndices, i < d.nV.value) (hfile : fs filename = some d.text) :
    ∃ r : LoadResult α, LoadMeshFromOFF sqrtf u fs filename = some r ∧
      r.mesh.indices.length = d.fileIndices.length ∧
      r.log = List.replicate (d.faces.filter (fun f => !f.isTriangle)).length skipWarning ∧
      ∀ i, i < d.fileIndices.length →
        r.mesh.indices.getD i 0 = d.fileIndices.getD i 0 % 65536 ∧
        (r.mesh.indices.getD i 0 = d.fileIndices.getD i 0 ↔ d.fileIndices.getD i 0 < 65536) ∧
        (65536 ≤ d.fileIndices.getD i 0 →
          r.mesh.indices.getD i 0 < 65536 ∧
          r.mesh.indices.getD i 0 ≠ d.fileIndices.getD i 0) := by
  obtain ⟨r, hr, -, -, h3, -, h5⟩ := LoadMeshFromOFF_wf sqrtf u fs filename d h hfile
  refine ⟨r, hr, by rw [h3, List.length_map], h5, fun i hi => ?_⟩
  have hg : r.mesh.indices.getD i 0 = d.fileIndices.getD i 0 % 65536 := by
    rw [h3, List.getD_eq_getElem _ _ (by rw [List.length_map]; exact hi),
      List.getD_eq_getElem _ _ hi, List.getElem_map]
  rw [hg]
  refine ⟨rfl, ?_, fun hge => ?_⟩
  · constructor
    · intro e
      omega
    · intro hlt
      omega
  · omega

theorem C18_indices_stored_mod_65536_witness :
    ∃ r : LoadResult ℚ,
      LoadMeshFromOFF qsqrt Indet.zero (fun _ => some bigDoc.text) "big.off" = some r ∧
      r.mesh.indices.length = bigDoc.fileIndices.length ∧
      r.log = List.replicate (bigDoc.faces.filter (fun f => !f.isTriangle)).length skipWarning ∧
      ∀ i, i < bigDoc.fileIndices.length →
        r.mesh.indices.getD i 0 = bigDoc.fileIndices.getD i 0 % 65536 ∧
        (r.mesh.indices.getD i 0 = bigDoc.fileIndices.getD i 0 ↔
          bigDoc.fileIndices.getD i 0 < 65536) ∧
        (65536 ≤ bigDoc.fileIndices.getD i 0 →
          r.mesh.indices.getD i 0 < 65536 ∧
          r.mesh.indices.getD i 0 ≠ bigDoc.fileIndices.getD i 0) :=
  C18_indices_stored_mod_65536 qsqrt Indet.zero (fun _ => some bigDoc.text) "big.off" bigDoc
    bigDoc_wf (by decide) rfl

/-! ### C19 -/

/-- Claim C19, as amended. In exact arithmetic, for a mesh whose origin-seeded box `lo`, `hi` is not a point and a factor
`k > 0`, `NormalizeMesh` on the mesh with every vertex `p` replaced by `k * p` stores
the same positions as `NormalizeMesh` on the mesh itself. -/
theorem C19_scaling_invariance (sqrtf : α → α) (hs : ExactSqrt sqrtf) (mesh : Mesh α)
    (hlen : mesh.vertices.length = mesh.vertexCount * 3) (lo hi : Vector3 α)
    (hbox : IsSeededBox mesh.vertices mesh.vertexCount lo hi) (hext : lo ≠ hi)
    (k : α) (hk : 0 < k) :
    ∃ m1 m2, NormalizeMesh sqrtf mesh = some m1 ∧
      NormalizeMesh sqrtf (mapVertices (fun p => Vector3Scale p k) mesh) = some m2 ∧
      m2.vertices = m1.vertices := by
  have hz : ∀ p : Vector3 α, Vector3Scale p k = affinePoint k 0 p := by
    intro p
    ext <;> simp [affinePoint, Vector3Add, Vector3Scale]
  obtain ⟨g1, -, -, g4, g5⟩ := mapVertices_spec (fun p => Vector3Scale p k) mesh
  have hboxB := hbox.scaled k hk g5
  rw [hz lo, hz hi, ← g1] at hboxB
  rw [← g1] at g4
  obtain ⟨m1, m2, hm1, hm2, hveq, -, -⟩ :=
    NormalizeMesh_affine sqrtf hs mesh (mapVertices (fun p => Vector3Scale p k) mesh) hlen g4
      g1 k hk 0 (fun i hi2 => by rw [g5 i hi2, hz]) lo hi hbox hext hboxB
  exact ⟨m1, m2, hm1, hm2, hveq⟩

theorem C19_scaling_invariance_witness :
    ∃ m1 m2, NormalizeMesh Real.sqrt (⟨2, 0, [1, 0, 0, 2, 0, 0], [], []⟩ : Mesh ℝ) = some m1 ∧
      NormalizeMesh Real.sqrt
        (mapVertices (fun p => Vector3Scale p 3) (⟨2, 0, [1, 0, 0, 2, 0, 0], [], []⟩ : Mesh ℝ))
        = some m2 ∧
      m2.vertices = m1.vertices :=
  C19_scaling_invariance Real.sqrt exactSqrt_real
    (⟨2, 0, [1, 0, 0, 2, 0, 0], [], []⟩ : Mesh ℝ) rfl ⟨0, 0, 0⟩ ⟨2, 0, 0⟩
    (by
      refine ⟨by norm_num, fun i hi => ?_, Or.inl rfl, Or.inr ⟨1, by decide, rfl⟩,
        Or.inl rfl, Or.inl rfl, Or.inl rfl, Or.inl rfl⟩
      have hi2 : i < 2 := hi
      interval_cases i <;> norm_num [vec3At])
    (by
      intro h
      have := congrArg Vector3.x h
      norm_num at this)
    3 (by norm_num)

/-- Counterexample to claim C19. In `float` arithmetic `NormalizeMesh` moves the vertices
`(-2,-2,-2)`, `(-2,-2,2)` to `(-a,-a,-2a)`, `(-a,-a,2a)` with `a = 13698539 * 2^-26`,
about `0.20412414`; multiplied by `k = 3` they are `(-6,-6,-6)`, `(-6,-6,6)` and are
moved to `(-b,-b,-2b)`, `(-b,-b,2b)` with `b = 3424635 * 2^-24`, about `0.20412415`.
`NormalizeMesh` moves the vertices `(1,0,0)`, `(0,0,0)` to `(1/2,0,0)`, `(-1/2,0,0)`;
multiplied by the `float` of `1e20` they are moved to the origin, both. -/
theorem C19_counterexample :
    NormalizeMesh Binary32.sqrt cornerSegment
      = some ⟨2, 0, [.fin (-13698539 / 2 ^ 26), .fin (-13698539 / 2 ^ 26),
          .fin (-13698539 / 2 ^ 25), .fin (-13698539 / 2 ^ 26), .fin (-13698539 / 2 ^ 26),
          .fin (13698539 / 2 ^ 25)], [], []⟩ ∧
    mapVertices (fun p => Vector3Scale p 3) cornerSegment
      = ⟨2, 0, [.fin (-6), .fin (-6), .fin (-6), .fin (-6), .fin (-6), .fin 6], [], []⟩ ∧
    NormalizeMesh Binary32.sqrt (mapVertices (fun p => Vector3Scale p 3) cornerSegment)
      = some ⟨2, 0, [.fin (-3424635 / 2 ^ 24), .fin (-3424635 / 2 ^ 24),
          .fin (-3424635 / 2 ^ 23), .fin (-3424635 / 2 ^ 24), .fin (-3424635 / 2 ^ 24),
          .fin (3424635 / 2 ^ 23)], [], []⟩ ∧
    (.fin (-3424635 / 2 ^ 24) : Binary32) ≠ .fin (-13698539 / 2 ^ 26) ∧
    NormalizeMesh Binary32.sqrt unitSegment
      = some ⟨2, 0, [.fin (1 / 2), 0, 0, .fin (-1 / 2), 0, 0], [], []⟩ ∧
    NormalizeMesh Binary32.sqrt
        (mapVertices (fun p => Vector3Scale p (.fin 100000002004087734272)) unitSegment)
      = some ⟨2, 0, [0, 0, 0, 0, 0, 0], [], []⟩ := by
  decide!

/-! ### C20 -/

/-- Claim C20. For a mesh with in-range indices, `ComputeMeshNormals` on the mesh with
the second and third index of every triangle swapped stores at every vertex the
opposite of the normal it stores for the mesh itself. -/
theorem C20_swapped_winding_negates_normals (sqrtf : α → α) (mesh : Mesh α)
    (hwf : mesh.WellFormed) :
    ∀ v, v < mesh.vertexCount →
      vec3At (ComputeMeshNormals sqrtf { mesh with indices := swapWinding mesh.indices }).normals v
        = -vec3At (ComputeMeshNormals sqrtf mesh).normals v := by
  intro v hv
  obtain ⟨w1, w2, w3⟩ := hwf
  obtain ⟨s1, s2, s3⟩ := swapWinding_spec mesh.triangleCount mesh.indices w2
  have hwf2 : Mesh.WellFormed { mesh with indices := swapWinding mesh.indices } :=
    ⟨w1, s1, fun i hi => w3 i (s2 i hi)⟩
  rw [(ComputeMeshNormals_spec sqrtf _ hwf2).2 v hv,
    (ComputeMeshNormals_spec sqrtf mesh ⟨w1, w2, w3⟩).2 v hv, ← Vector3Normalize_neg]
  congr 1
  unfold cornerSum
  rw [← Finset.sum_neg_distrib]
  apply Finset.sum_congr rfl
  intro t ht
  obtain ⟨g0, g1, g2⟩ := s3 t (Finset.mem_range.mp ht)
  have hfn : faceNormal sqrtf mesh.vertices (swapWinding mesh.indices) t
      = -faceNormal sqrtf mesh.vertices mesh.indices t := by
    unfold faceNormal
    simp only []
    rw [g0, g1, g2, Vector3CrossProduct_swap, Vector3Normalize_neg]
  simp only [Finset.sum_range_succ, Finset.sum_range_zero, zero_add]
  rw [g0, g1, g2, hfn]
  split_ifs <;> abel

theorem C20_swapped_winding_negates_normals_witness :
    (⟨3, 1, [0, 0, 0, 1, 0, 0, 0, 1, 0], [], [0, 1, 2]⟩ : Mesh ℚ).WellFormed ∧
    vec3At (ComputeMeshNormals qsqrt
        { (⟨3, 1, [0, 0, 0, 1, 0, 0, 0, 1, 0], [], [0, 1, 2]⟩ : Mesh ℚ) with
          indices := swapWinding [0, 1, 2] }).normals 1
      = -vec3At (ComputeMeshNormals qsqrt
          (⟨3, 1, [0, 0, 0, 1, 0, 0, 0, 1, 0], [], [0, 1, 2]⟩ : Mesh ℚ)).normals 1 :=
  ⟨by decide,
    C20_swapped_winding_negates_normals qsqrt
      (⟨3, 1, [0, 0, 0, 1, 0, 0, 0, 1, 0], [], [0, 1, 2]⟩ : Mesh ℚ) (by decide) 1 (by decide)⟩

end Visualizer
